import Mathlib

/-!
# spline.js : a shallow embedding

The numbers of the program are the elements of a linear ordered field `K`
(exact arithmetic), `Math.floor` is the floor of `K`, and `Math.sqrt` is a
parameter `sqrt : K → K` (instantiated with `Real.sqrt` in closed statements).

Three things of the JavaScript run time are kept visible:

* reading a property of `undefined` (an array read outside the array followed by
  `p[0]`) throws a `TypeError`: functions that read `this.points[...]` return
  `Except Fault _`;
* a quotient by zero has no value.  In `tangent_at` the divisor `len_d` is the
  length of the vector being divided, so the quotient is `0/0`, `NaN` in the
  source; a `NaN` is the `none` of an `Option`, it propagates through arithmetic
  (also through a product with `0`) and every comparison with it is false;
* the constructor keeps the point arrays it is given, it copies none, and
  `recalculate` writes the weight into slot 2 of those arrays: when the same array
  object sits at several indices the write is seen at each of them.  `recalculate`
  and the constructor take `ident : ℕ → ℕ`, the name of the array object at each
  index (`fun j => j` when the arrays are different objects); the curve that the
  other functions read is the array of points with the weights so left.
-/

set_option linter.unusedSectionVars false
set_option linter.unusedVariables false

namespace SplineJS

/-- What stops a run: a property read on `undefined`, or a quotient by a divisor that
is zero outside `tangent_at` (the weight in `iterate_next_point`,
`points.length - 1` in `nearest_t`). -/
inductive Fault where
  | type_error
  | div_zero
deriving DecidableEq, Repr

/-- The four values of the spline types "enum". -/
inductive SplineType where
  | spline_type_finite_dif
  | spline_type_normalised_dif
  | spline_type_catmull_rom
  | spline_type_linear
deriving DecidableEq, Repr

open SplineType

/-- A two-element array `[x, y]`. -/
structure Vec2 (K : Type) where
  x : K
  y : K
deriving DecidableEq, Repr

/-- A control point `[x, y, weight]`. -/
structure Point (K : Type) where
  x : K
  y : K
  w : K
deriving DecidableEq, Repr

/-- The array `[px_t, py_t, weight]` returned by `at`: the two coordinates are
numbers or both `NaN` (`none`), the weight is always a number. -/
structure Sample (K : Type) where
  xy : Option (Vec2 K)
  w : K
deriving DecidableEq, Repr

/-- The fields of a `Spline` object. -/
structure Spline (K : Type) where
  points : List (Point K)
  step : K
  tolerance_factor : K
  iteration_limit : ℕ
  spline_type : SplineType

variable {K : Type} [LinearOrderedField K] [FloorRing K]

/-- The coordinates `[p[0], p[1]]` of a control point. -/
def Point.xy (p : Point K) : Vec2 K := ⟨p.x, p.y⟩

/-- Source `_clamp(v, min, max)`: `Math.max(min, Math.min(v, max))`. -/
def _clamp {α : Type} [LinearOrder α] (v min max : α) : α :=
  Max.max min (Min.min v max)

/-- Source `_v_dif_between(a, b)`. -/
def _v_dif_between (a b : Vec2 K) : Vec2 K := ⟨b.x - a.x, b.y - a.y⟩

/-- Source `_v_len(v)`. -/
def _v_len (sqrt : K → K) (v : Vec2 K) : K := sqrt (v.x * v.x + v.y * v.y)

/-- Source `_v_len_between(a, b)`. -/
def _v_len_between (sqrt : K → K) (a b : Vec2 K) : K := _v_len sqrt (_v_dif_between a b)

/-- The read `this.points[i]` followed by a property read: a `TypeError` outside the array. -/
def lookup (points : List (Point K)) (i : ℤ) : Except Fault (Point K) :=
  if 0 ≤ i then
    match points.get? i.toNat with
    | some p => .ok p
    | none => .error Fault.type_error
  else .error Fault.type_error

/-- Source `Spline.prototype.index_frac`. -/
def index_frac (s : Spline K) (t : K) : ℤ × K :=
  let t := Max.max 0 (Min.min t 1)
  let t_scaled := (((s.points.length : ℤ) - 1 : ℤ) : K) * t
  let index := ⌊t_scaled⌋
  let frac := t_scaled - (index : K)
  (index, frac)

/-- Source `Spline.prototype.tangent_at`.  The result is `none` when the two
components are `NaN`, which is when `len_d` is zero. -/
def tangent_at (sqrt : K → K) (s : Spline K) (index : K) : Except Fault (Option (Vec2 K)) :=
  let index : ℤ := _clamp ⌊index⌋ 0 ((s.points.length : ℤ) - 1)
  let pindex : ℤ := _clamp (index - 1) 0 ((s.points.length : ℤ) - 1)
  let nindex : ℤ := _clamp (index + 1) 0 ((s.points.length : ℤ) - 1)
  match s.spline_type with
  | spline_type_finite_dif | spline_type_normalised_dif => do
    let ppoint ← lookup s.points pindex
    let point ← lookup s.points index
    let npoint ← lookup s.points nindex
    let dif_1 := _v_dif_between ppoint.xy point.xy
    let dif_2 := _v_dif_between point.xy npoint.xy
    let dif : Vec2 K := ⟨0.5 * (dif_1.x + dif_2.x), 0.5 * (dif_1.y + dif_2.y)⟩
    if s.spline_type = spline_type_finite_dif then
      return some dif
    let len_1 := _v_len sqrt dif_1
    let len_2 := _v_len sqrt dif_2
    let len_d := _v_len sqrt dif
    if len_d = 0 then
      return none
    return some ⟨(dif.x / len_d) * (0.5 * (len_1 + len_2)),
                 (dif.y / len_d) * (0.5 * (len_1 + len_2))⟩
  | spline_type_catmull_rom => do
    let ppoint ← lookup s.points pindex
    let npoint ← lookup s.points nindex
    return some (_v_dif_between ppoint.xy npoint.xy)
  | spline_type_linear => return some ⟨0, 0⟩

/-- Source `Spline.prototype.at`. -/
def Spline.at (sqrt : K → K) (s : Spline K) (t : K) : Except Fault (Sample K) := do
  let t := _clamp t 0 1
  let r := index_frac s t
  let index := r.1
  let frac := r.2
  let nindex := Min.min ((s.points.length : ℤ) - 1) (index + 1)
  let p0 ← lookup s.points index
  let p1 ← lookup s.points nindex
  let m0 ← tangent_at sqrt s (index : K)
  let m1 ← tangent_at sqrt s (nindex : K)
  let t := frac
  let t_squared := t * t
  let t_cubed := t_squared * t
  let factor_p0 := 2 * t_cubed - 3 * t_squared + 1
  let factor_m0 := t_cubed - 2 * t_squared + t
  let factor_p1 := -2 * t_cubed + 3 * t_squared
  let factor_m1 := t_cubed - t_squared
  let xy : Option (Vec2 K) := do
    let m0 ← m0
    let m1 ← m1
    pure ⟨factor_p0 * p0.x + factor_m0 * m0.x + factor_p1 * p1.x + factor_m1 * m1.x,
          factor_p0 * p0.y + factor_m0 * m0.y + factor_p1 * p1.y + factor_m1 * m1.y⟩
  let weight := p0.w
  return ⟨xy, weight⟩

/-- The comparison `a < b` where `a` may be `NaN`: false on `NaN`. -/
def nan_lt (a : Option K) (b : K) : Prop :=
  match a with
  | some x => x < b
  | none => False

/-- The comparison `a > b` where `a` may be `NaN`: false on `NaN`. -/
def nan_gt (a : Option K) (b : K) : Prop :=
  match a with
  | some x => x > b
  | none => False

instance nan_lt_decidable (a : Option K) (b : K) : Decidable (nan_lt a b) := by
  cases a <;> unfold nan_lt <;> infer_instance

instance nan_gt_decidable (a : Option K) (b : K) : Decidable (nan_gt a b) := by
  cases a <;> unfold nan_gt <;> infer_instance

/-- Source `_v_len_between(a, b)` on two results of `at`: `NaN` as soon as one of them is. -/
def sample_len_between (sqrt : K → K) (a b : Sample K) : Option K := do
  let a ← a.xy
  let b ← b.xy
  pure (_v_len_between sqrt a b)

/-- The variables of the `while` loop of `iterate_next_point`.  `next_pos` is
`undefined` (`none`) until the first round.  `sampled` is a history variable that
the source does not have: the parameter and the measured step of every round,
latest first. -/
structure IterState (K : Type) where
  t : K
  step_taken : Option K
  refine : ℕ
  next_pos : Option (Sample K)
  sampled : List (K × Option K)

/-- The `while` loop of `iterate_next_point` (source lines 236-256).  `refine` is at
least 1 on every call made by `iterate_next_point`.  A zero `weight_factor` is a
`div_zero` fault. -/
def iterate_loop (sqrt : K → K) (s : Spline K) (prev_t : K) (pos : Sample K)
    (step_over step_under weight_factor : K) (st : IterState K) :
    Except Fault (IterState K) :=
  if _h : st.refine < s.iteration_limit ∧
      (nan_lt st.step_taken step_under ∨ nan_gt st.step_taken step_over) then
    if weight_factor = 0 then .error Fault.div_zero
    else
      let refine_factor : K := 2.0 / (st.refine : K)
      let dt : K := (s.step / weight_factor) * refine_factor * 0.1
      let t : K :=
        if nan_lt st.step_taken step_under then st.t + dt
        else if nan_gt st.step_taken step_over then
          (if st.t - dt < prev_t then prev_t + dt / (st.refine : K) else st.t - dt)
        else st.t
      match Spline.at sqrt s t with
      | .error e => .error e
      | .ok next_pos =>
        let step_taken := sample_len_between sqrt next_pos pos
        iterate_loop sqrt s prev_t pos step_over step_under weight_factor
          ⟨t, step_taken, st.refine + 1, some next_pos, (t, step_taken) :: st.sampled⟩
  else .ok st
termination_by s.iteration_limit - st.refine
decreasing_by
  simp_wf
  omega

/-- Source `Spline.prototype.iterate_next_point`, returning all the loop variables. -/
def iterate_next_point_state (sqrt : K → K) (s : Spline K) (t : K) :
    Except Fault (IterState K) := do
  let prev_t := t
  let pos ← Spline.at sqrt s t
  let step_over := s.step * (1 + s.tolerance_factor)
  let step_under := s.step * (1 - s.tolerance_factor)
  let weight_factor := pos.w
  iterate_loop sqrt s prev_t pos step_over step_under weight_factor ⟨t, some 0, 1, none, []⟩

/-- Source `Spline.prototype.iterate_next_point`: the pair `[t, next_pos]`. -/
def iterate_next_point (sqrt : K → K) (s : Spline K) (t : K) :
    Except Fault (K × Option (Sample K)) := do
  let st ← iterate_next_point_state sqrt s t
  return (st.t, st.next_pos)

/-- The `for` loop of `nearest_control_point_i` from index `i` on, over the points
not yet visited. -/
def nearest_control_point_i_loop (sqrt : K → K) (pos : Vec2 K) :
    List (Point K) → ℕ → K → ℕ → ℕ
  | [], _, _, chosen_i => chosen_i
  | p :: rest, i, minimum_distance, chosen_i =>
    let distance := _v_len_between sqrt pos p.xy
    if distance < minimum_distance then
      nearest_control_point_i_loop sqrt pos rest (i + 1) distance i
    else
      nearest_control_point_i_loop sqrt pos rest (i + 1) minimum_distance chosen_i

/-- Source `Spline.prototype.nearest_control_point_i`. -/
def nearest_control_point_i (sqrt : K → K) (s : Spline K) (pos : Vec2 K) : ℕ :=
  nearest_control_point_i_loop sqrt pos s.points 0 10000000.0 0

/-- Source `Spline.prototype.nearest_control_point`. -/
def nearest_control_point (sqrt : K → K) (s : Spline K) (pos : Vec2 K) :
    Except Fault (Point K) :=
  lookup s.points (nearest_control_point_i sqrt s pos : ℕ)

/-- The `while` loop of `to_points`, for at most `fuel` rounds: `none` when the
loop is still running after `fuel` rounds. -/
def to_points_loop (sqrt : K → K) (s : Spline K) :
    ℕ → K → List (Option (Sample K)) → Option (Except Fault (List (Option (Sample K))))
  | fuel, t, spline_points =>
    if t ≥ 0 ∧ t < 1 then
      match fuel with
      | 0 => none
      | fuel + 1 =>
        match iterate_next_point sqrt s t with
        | .error e => some (.error e)
        | .ok res => to_points_loop sqrt s fuel res.1 (spline_points ++ [res.2])
    else some (.ok spline_points)

/-- Source `Spline.prototype.to_points`, its loop bounded by `fuel` rounds. -/
def to_points (sqrt : K → K) (s : Spline K) (fuel : ℕ) :
    Option (Except Fault (List (Option (Sample K)))) :=
  match Spline.at sqrt s 0 with
  | .error e => some (.error e)
  | .ok p => to_points_loop sqrt s fuel 0 [some p]

/-- The curve of the example in the header of the source,
`new Spline([[10,10],[90,10],[90,90],[90,10]])` with the default parameters; the
weights are the ones `recalculate` leaves (the three distances are 80). -/
def header_example (K : Type) [LinearOrderedField K] : Spline K :=
  { points := [⟨10, 10, 80⟩, ⟨90, 10, 80⟩, ⟨90, 90, 80⟩, ⟨90, 10, 1⟩]
    step := 3
    tolerance_factor := 0.025
    iteration_limit := 20
    spline_type := spline_type_normalised_dif }

/-- The combination of source lines 204-215 of `at`, as a function of the two
points, the two tangents and `frac`; `NaN` as soon as one tangent is. -/
def hermite_xy (p0 p1 : Point K) (m0 m1 : Option (Vec2 K)) (frac : K) : Option (Vec2 K) :=
  match m0, m1 with
  | some m0, some m1 =>
    some ⟨(2 * (frac * frac * frac) - 3 * (frac * frac) + 1) * p0.x
            + (frac * frac * frac - 2 * (frac * frac) + frac) * m0.x
            + (-2 * (frac * frac * frac) + 3 * (frac * frac)) * p1.x
            + (frac * frac * frac - frac * frac) * m1.x,
          (2 * (frac * frac * frac) - 3 * (frac * frac) + 1) * p0.y
            + (frac * frac * frac - 2 * (frac * frac) + frac) * m0.y
            + (-2 * (frac * frac * frac) + 3 * (frac * frac)) * p1.y
            + (frac * frac * frac - frac * frac) * m1.y⟩
  | _, _ => none

/-- A two-point curve in Linear mode, `new Spline([[0,0],[8,0]], 3, 0.025, 20,
spline_type_linear)`; the weights are the ones `recalculate` leaves. -/
def linear_example (K : Type) [LinearOrderedField K] : Spline K :=
  { points := [⟨0, 0, 8⟩, ⟨8, 0, 1⟩]
    step := 3
    tolerance_factor := 0.025
    iteration_limit := 20
    spline_type := spline_type_linear }

/-- What the proofs use of `Math.sqrt`: on a non-negative number it is the
non-negative square root. -/
def IsSqrt (sqrt : K → K) : Prop :=
  ∀ x : K, 0 ≤ x → 0 ≤ sqrt x ∧ sqrt x * sqrt x = x

/-- A curve far from the origin, `new Spline([[20000000,0],[15000000,0]])` with the
default parameters; the weights are the ones `recalculate` leaves. -/
def far_example (K : Type) [LinearOrderedField K] : Spline K :=
  { points := [⟨20000000, 0, 5000000⟩, ⟨15000000, 0, 1⟩]
    step := 3
    tolerance_factor := 0.025
    iteration_limit := 20
    spline_type := spline_type_normalised_dif }

/-- The condition of the `while` loop of `iterate_next_point`. -/
def iterate_cond (s : Spline K) (step_over step_under : K) (st : IterState K) : Prop :=
  st.refine < s.iteration_limit ∧
    (nan_lt st.step_taken step_under ∨ nan_gt st.step_taken step_over)

/-- The state of the loop of `iterate_next_point` is either the initial one, or
the one left by a round: `next_pos` is `at(t)`, `step_taken` is its measured
distance to `pos`, and both head the history. -/
def IterInv (sqrt : K → K) (s : Spline K) (prev_t : K) (pos : Sample K)
    (st : IterState K) : Prop :=
  prev_t ≤ st.t ∧ st.sampled.length + 1 = st.refine ∧
  ((st.t = prev_t ∧ st.step_taken = some 0 ∧ st.next_pos = none ∧ st.sampled = []) ∨
   (∃ np rest, Spline.at sqrt s st.t = .ok np ∧ st.next_pos = some np ∧
      st.step_taken = sample_len_between sqrt np pos ∧
      st.sampled = (st.t, st.step_taken) :: rest))

/-- The parameter that a round of the loop of `iterate_next_point` moves to
(source lines 238-251). -/
def round_t (s : Spline K) (prev_t step_over step_under weight_factor : K)
    (st : IterState K) : K :=
  if nan_lt st.step_taken step_under then
    st.t + (s.step / weight_factor) * (2.0 / (st.refine : K)) * 0.1
  else if nan_gt st.step_taken step_over then
    (if st.t - (s.step / weight_factor) * (2.0 / (st.refine : K)) * 0.1 < prev_t then
      prev_t + (s.step / weight_factor) * (2.0 / (st.refine : K)) * 0.1 / (st.refine : K)
    else st.t - (s.step / weight_factor) * (2.0 / (st.refine : K)) * 0.1)
  else st.t

/-- Seven control points one unit apart on a line,
`new Spline([[0,0],[1,0],[2,0],[3,0],[4,0],[5,0],[6,0]], 5, 0.025, 3,
spline_type_linear)`; the weights are the ones `recalculate` leaves. -/
def stepper_example (K : Type) [LinearOrderedField K] : Spline K :=
  { points := [⟨0, 0, 1⟩, ⟨1, 0, 1⟩, ⟨2, 0, 1⟩, ⟨3, 0, 1⟩, ⟨4, 0, 1⟩, ⟨5, 0, 1⟩, ⟨6, 0, 1⟩]
    step := 5
    tolerance_factor := 0.025
    iteration_limit := 3
    spline_type := spline_type_linear }

/-- The two-point Linear curve with `iteration_limit = 1`,
`new Spline([[0,0],[8,0]], 3, 0.025, 1, spline_type_linear)`; the weights are the
ones `recalculate` leaves. -/
def stall_example (K : Type) [LinearOrderedField K] : Spline K :=
  { points := [⟨0, 0, 8⟩, ⟨8, 0, 1⟩]
    step := 3
    tolerance_factor := 0.025
    iteration_limit := 1
    spline_type := spline_type_linear }

/-- The write `this.points[i][2] = w`.  The constructor keeps the caller's point
arrays by reference, so the same array object may sit at several indices: `ident j`
names the array object held at index `j`, and a write into the object at index `i`
is seen at every index that holds that object. -/
def write_weight (ident : ℕ → ℕ) (points : List (Point K)) (i : ℕ) (w : K) :
    List (Point K) :=
  points.mapIdx fun j p => if ident j = ident i then ⟨p.x, p.y, w⟩ else p

/-- The `for` loop of `recalculate` from index `i` on (source lines 104-107): every
read is inside the array, because `i + 1 < points.length`. -/
def recalculate_loop (sqrt : K → K) (ident : ℕ → ℕ) (points : List (Point K)) (i : ℕ) :
    List (Point K) :=
  if h : i + 1 < points.length then
    let p := points.get ⟨i, Nat.lt_of_succ_lt h⟩
    let q := points.get ⟨i + 1, h⟩
    recalculate_loop sqrt ident
      (write_weight ident points i (Max.max 1 (_v_len_between sqrt p.xy q.xy))) (i + 1)
  else points
termination_by points.length - i
decreasing_by
  simp_wf
  unfold write_weight
  rw [List.length_mapIdx]
  omega

/-- Source `Spline.prototype.recalculate`, on the array of points.  On an empty
array the last statement writes a property of `undefined`, a `TypeError`. -/
def recalculate_points (sqrt : K → K) (ident : ℕ → ℕ) (points : List (Point K)) :
    Except Fault (List (Point K)) :=
  let points := recalculate_loop sqrt ident points 0
  match lookup points ((points.length : ℤ) - 1) with
  | .error e => .error e
  | .ok _ => .ok (write_weight ident points (points.length - 1) 1)

/-- Source `Spline.prototype.recalculate`; `ident j` names the array object held at
index `j` of `this.points`. -/
def recalculate (sqrt : K → K) (ident : ℕ → ℕ) (s : Spline K) : Except Fault (Spline K) :=
  match recalculate_points sqrt ident s.points with
  | .error e => .error e
  | .ok points => .ok { s with points := points }

/-- The `while` loop of the constructor (source lines 90-92), which pushes
`[0, this.points.length]`; the slot of the weight is not set before `recalculate`
and holds 0 here. -/
def fill_points (points : List (Point K)) : List (Point K) :=
  if points.length < 2 then
    fill_points (points ++ [⟨0, (points.length : K), 0⟩])
  else points
termination_by 2 - points.length
decreasing_by
  simp_wf
  omega

/-- Source constructor `Spline(points, step, tolerance, iteration_limit,
spline_type)`; an argument that is `undefined` is `none`.  The points are given as
arrays `[x, y]`, their weight slot is not set before `recalculate` and holds 0 here.
`ident j` names the array object at index `j` of the array passed in; the arrays
pushed by the `while` loop are new objects, so an array filled up to two points
holds two different objects. -/
def Spline.new (sqrt : K → K) (ident : ℕ → ℕ) (points : Option (List (Vec2 K)))
    (step tolerance : Option K) (iteration_limit : Option ℕ)
    (spline_type : Option SplineType) : Except Fault (Spline K) :=
  let this : Spline K :=
    { points := match points with
        | some points => points.map fun v => ⟨v.x, v.y, 0⟩
        | none => []
      step := match step with
        | some step => step
        | none => 3
      tolerance_factor := match tolerance with
        | some tolerance => tolerance
        | none => 0.025
      iteration_limit := match iteration_limit with
        | some iteration_limit => iteration_limit
        | none => 20
      spline_type := match spline_type with
        | some spline_type => spline_type
        | none => spline_type_normalised_dif }
  recalculate sqrt (if this.points.length < 2 then fun j => j else ident)
    { this with points := fill_points this.points }

/-- The comparison `a < b` of two values that may be `NaN`: false when one is. -/
def nan_lt_nan (a b : Option K) : Prop :=
  match a, b with
  | some x, some y => x < y
  | _, _ => False

instance nan_lt_nan_decidable (a b : Option K) : Decidable (nan_lt_nan a b) := by
  cases a <;> cases b <;> unfold nan_lt_nan <;> infer_instance

/-- Source `_v_len_between(pos, this.at(...))`: `NaN` when the coordinates of the
sample are. -/
def pos_len_between (sqrt : K → K) (pos : Vec2 K) (a : Sample K) : Option K :=
  match a.xy with
  | some v => some (_v_len_between sqrt pos v)
  | none => none

/-- The variables of the `while` loop of `nearest_t`.  `minimum_distance` is a
number: it starts as the distance to a control point and is only assigned a
distance that has compared smaller. -/
structure NearestState (K : Type) where
  chosen_t : K
  minimum_distance : K
  step_size : K
  difference_delta : K

/-- The first `if` of the loop of `nearest_t` (source lines 293-298). -/
def nearest_decrease (st : NearestState K) (increase_distance decrease_distance : Option K) :
    NearestState K :=
  match decrease_distance with
  | some d =>
    if nan_lt_nan decrease_distance increase_distance ∧ d < st.minimum_distance then
      { st with chosen_t := st.chosen_t - st.step_size
                difference_delta := st.minimum_distance - d
                minimum_distance := d }
    else st
  | none => st

/-- The second `if` of the loop of `nearest_t` (source lines 299-304). -/
def nearest_increase (st : NearestState K) (increase_distance decrease_distance : Option K) :
    NearestState K :=
  match increase_distance with
  | some d =>
    if nan_lt_nan increase_distance decrease_distance ∧ d < st.minimum_distance then
      { st with chosen_t := st.chosen_t + st.step_size
                difference_delta := st.minimum_distance - d
                minimum_distance := d }
    else st
  | none => st

/-- The body of the `while` loop of `nearest_t` (source lines 291-305), from the two
samples. -/
def nearest_round (sqrt : K → K) (pos : Vec2 K) (st : NearestState K)
    (increase_sample decrease_sample : Sample K) : NearestState K :=
  let increase_distance := pos_len_between sqrt pos increase_sample
  let decrease_distance := pos_len_between sqrt pos decrease_sample
  let st1 := nearest_decrease st increase_distance decrease_distance
  let st2 := nearest_increase st1 increase_distance decrease_distance
  { st2 with step_size := st2.step_size * 0.9 }

/-- The `while` loop of `nearest_t` for at most `fuel` rounds: `none` when the
loop is still running after `fuel` rounds. -/
def nearest_t_loop (sqrt : K → K) (s : Spline K) (pos : Vec2 K) (min_step : K) :
    ℕ → NearestState K → Option (Except Fault K)
  | fuel, st =>
    if st.step_size > min_step ∧ st.difference_delta > 0.00001 then
      match fuel with
      | 0 => none
      | fuel + 1 =>
        match Spline.at sqrt s (st.chosen_t + st.step_size) with
        | .error e => some (.error e)
        | .ok increase_sample =>
          match Spline.at sqrt s (st.chosen_t - st.step_size) with
          | .error e => some (.error e)
          | .ok decrease_sample =>
            nearest_t_loop sqrt s pos min_step fuel
              (nearest_round sqrt pos st increase_sample decrease_sample)
    else some (.ok st.chosen_t)

/-- Source `Spline.prototype.nearest_t`, its loop bounded by `fuel` rounds.  With a
single control point the divisor `this.points.length - 1` is zero, a `div_zero`
fault. -/
def nearest_t (sqrt : K → K) (s : Spline K) (pos : Vec2 K) (fuel : ℕ) :
    Option (Except Fault K) :=
  let chosen_i := nearest_control_point_i sqrt s pos
  match lookup s.points (chosen_i : ℕ) with
  | .error e => some (.error e)
  | .ok p =>
    let minimum_distance := _v_len_between sqrt pos p.xy
    if (((s.points.length : ℤ) - 1 : ℤ) : K) = 0 then some (.error Fault.div_zero)
    else
      let chosen_t := (chosen_i : K) / (((s.points.length : ℤ) - 1 : ℤ) : K)
      let step_size := 0.1 / (((s.points.length : ℤ) - 1 : ℤ) : K)
      let min_step := 0.00001 / (((s.points.length : ℤ) - 1 : ℤ) : K)
      nearest_t_loop sqrt s pos min_step fuel ⟨chosen_t, minimum_distance, step_size, 1⟩

/-- Source `Spline.prototype.nearest_point`, the loop of `nearest_t` bounded by
`fuel` rounds. -/
def nearest_point (sqrt : K → K) (s : Spline K) (pos : Vec2 K) (fuel : ℕ) :
    Option (Except Fault (Sample K)) :=
  match nearest_t sqrt s pos fuel with
  | none => none
  | some (.error e) => some (.error e)
  | some (.ok t) => some (Spline.at sqrt s t)

/-- The entry at index `j` of the array that `recalculate` leaves when the point
arrays are different objects, from the array it starts with: the coordinates are
kept, the weight is `max(1, distance to the next point)`, and 1 on the last point. -/
def recalculated_at (sqrt : K → K) (points : List (Point K)) (j : ℕ) : Option (Point K) :=
  match points[j]?, points[j + 1]? with
  | some p, some q => some ⟨p.x, p.y, Max.max 1 (_v_len_between sqrt p.xy q.xy)⟩
  | some p, none => some ⟨p.x, p.y, 1⟩
  | none, _ => none

/-- The loop of `nearest_t` stays near its seed: the step is positive and the
distance of `chosen_t` to the seed plus ten times the step is at most ten times the
first step. -/
def NearestNear (seed step0 : K) (st : NearestState K) : Prop :=
  0 < st.step_size ∧ |st.chosen_t - seed| + 10 * st.step_size ≤ 10 * step0

/-- The loop of `nearest_t` has not stepped below the parameter 0, and
`minimum_distance` is at most the distance to `at(0)` when that is a number. -/
def NearestLow (sqrt : K → K) (s : Spline K) (pos : Vec2 K) (st : NearestState K) : Prop :=
  0 ≤ st.chosen_t ∧
  ∀ smp d, Spline.at sqrt s 0 = .ok smp → pos_len_between sqrt pos smp = some d →
    st.minimum_distance ≤ d

/-- The loop of `nearest_t` has not stepped above the parameter 1, and
`minimum_distance` is at most the distance to `at(1)` when that is a number. -/
def NearestHigh (sqrt : K → K) (s : Spline K) (pos : Vec2 K) (st : NearestState K) : Prop :=
  st.chosen_t ≤ 1 ∧
  ∀ smp d, Spline.at sqrt s 1 = .ok smp → pos_len_between sqrt pos smp = some d →
    st.minimum_distance ≤ d

/-- In the loop of `nearest_t`, `minimum_distance` is the distance from `pos` to
`at(chosen_t)` and is at most its first value. -/
def NearestMin (sqrt : K → K) (s : Spline K) (pos : Vec2 K) (min0 : K)
    (st : NearestState K) : Prop :=
  st.minimum_distance ≤ min0 ∧
  ∃ smp, Spline.at sqrt s st.chosen_t = .ok smp ∧
    pos_len_between sqrt pos smp = some st.minimum_distance

/-- The array objects of `var a = [0,0]; new Spline([a, [10,0], a])`: index 2 holds
the array object of index 0. -/
def shared_ident (j : ℕ) : ℕ := if j = 2 then 0 else j

/-- The curve that `var a = [0,0]; new Spline([a, [10,0], a])` builds, with the
default parameters: the weight 1 written last into `a` is the weight of point 0 too. -/
def shared_example (K : Type) [LinearOrderedField K] : Spline K :=
  { points := [⟨0, 0, 1⟩, ⟨10, 0, 10⟩, ⟨0, 0, 1⟩]
    step := 3
    tolerance_factor := 0.025
    iteration_limit := 20
    spline_type := spline_type_normalised_dif }

/-! ## Clamping and array reads -/

theorem clamp_ge {α : Type} [LinearOrder α] (v lo hi : α) : lo ≤ _clamp v lo hi := by
  unfold _clamp
  exact le_max_left _ _

theorem clamp_le {α : Type} [LinearOrder α] (v lo hi : α) (h : lo ≤ hi) :
    _clamp v lo hi ≤ hi := by
  unfold _clamp
  exact max_le h (min_le_right _ _)

theorem clamp_idem {α : Type} [LinearOrder α] (v lo hi : α) (h : lo ≤ hi) :
    _clamp (_clamp v lo hi) lo hi = _clamp v lo hi := by
  unfold _clamp
  rw [min_eq_left (max_le h (min_le_right _ _)), max_eq_right (le_max_left _ _)]

theorem clamp_of_le_lo {α : Type} [LinearOrder α] (v lo hi : α) (h : lo ≤ hi) (hv : v ≤ lo) :
    _clamp v lo hi = lo := by
  unfold _clamp
  rw [min_eq_left (le_trans hv h), max_eq_left hv]

theorem clamp_of_ge_hi {α : Type} [LinearOrder α] (v lo hi : α) (h : lo ≤ hi) (hv : hi ≤ v) :
    _clamp v lo hi = hi := by
  unfold _clamp
  rw [min_eq_right hv, max_eq_right h]

theorem clamp_of_mem {α : Type} [LinearOrder α] (v lo hi : α) (h1 : lo ≤ v) (h2 : v ≤ hi) :
    _clamp v lo hi = v := by
  unfold _clamp
  rw [min_eq_left h2, max_eq_right h1]

theorem lookup_ok (points : List (Point K)) (i : ℤ) (h0 : 0 ≤ i)
    (h1 : i ≤ (points.length : ℤ) - 1) : ∃ p, lookup points i = .ok p := by
  have hlt : i.toNat < points.length := by omega
  refine ⟨points.get ⟨i.toNat, hlt⟩, ?_⟩
  unfold lookup
  rw [if_pos h0, List.get?_eq_get hlt]

theorem lookup_natCast (points : List (Point K)) (i : ℕ) (h : i < points.length) :
    lookup points (i : ℤ) = .ok (points.get ⟨i, h⟩) := by
  unfold lookup
  rw [if_pos (Int.natCast_nonneg i)]
  simp [List.getElem?_eq_getElem h]

/-- The segment index of `index_frac` lies in `[0, n-1]` as soon as there is a point. -/
theorem index_frac_bounds (s : Spline K) (t : K) (hn : 1 ≤ s.points.length) :
    0 ≤ (index_frac s t).1 ∧ (index_frac s t).1 ≤ (s.points.length : ℤ) - 1 := by
  have hn1 : (0 : K) ≤ (((s.points.length : ℤ) - 1 : ℤ) : K) := by
    have : (0 : ℤ) ≤ (s.points.length : ℤ) - 1 := by omega
    exact_mod_cast this
  have ht0 : (0 : K) ≤ Max.max 0 (Min.min t 1) := le_max_left _ _
  have ht1 : Max.max 0 (Min.min t 1) ≤ (1 : K) := max_le zero_le_one (min_le_right _ _)
  constructor
  · show 0 ≤ ⌊_⌋
    exact Int.floor_nonneg.mpr (mul_nonneg hn1 ht0)
  · show ⌊_⌋ ≤ _
    have h : (((s.points.length : ℤ) - 1 : ℤ) : K) * Max.max 0 (Min.min t 1)
        ≤ (((s.points.length : ℤ) - 1 : ℤ) : K) := by
      calc _ ≤ (((s.points.length : ℤ) - 1 : ℤ) : K) * 1 := mul_le_mul_of_nonneg_left ht1 hn1
        _ = _ := mul_one _
    have := Int.floor_mono h
    rwa [Int.floor_intCast] at this

/-- Every tangent is computed without a failed array read as soon as there is a point. -/
theorem tangent_at_ok (sqrt : K → K) (s : Spline K) (index : K) (hn : 1 ≤ s.points.length) :
    ∃ m, tangent_at sqrt s index = .ok m := by
  have hlo : (0 : ℤ) ≤ (s.points.length : ℤ) - 1 := by omega
  obtain ⟨p, hp⟩ := lookup_ok s.points
    (_clamp (_clamp ⌊index⌋ 0 ((s.points.length : ℤ) - 1) - 1) 0 ((s.points.length : ℤ) - 1))
    (clamp_ge _ _ _) (clamp_le _ _ _ hlo)
  obtain ⟨q, hq⟩ := lookup_ok s.points (_clamp ⌊index⌋ 0 ((s.points.length : ℤ) - 1))
    (clamp_ge _ _ _) (clamp_le _ _ _ hlo)
  obtain ⟨r, hr⟩ := lookup_ok s.points
    (_clamp (_clamp ⌊index⌋ 0 ((s.points.length : ℤ) - 1) + 1) 0 ((s.points.length : ℤ) - 1))
    (clamp_ge _ _ _) (clamp_le _ _ _ hlo)
  unfold tangent_at
  cases hmode : s.spline_type <;> simp only [hp, hq, hr, bind, Except.bind, pure, Except.pure]
  · simp
  · simp only [reduceCtorEq, if_false]
    split <;> exact ⟨_, rfl⟩
  · exact ⟨_, rfl⟩
  · exact ⟨_, rfl⟩

/-- With at least one point `at` makes no failed array read, whatever `t` is. -/
theorem at_ok (sqrt : K → K) (s : Spline K) (t : K) (hn : 1 ≤ s.points.length) :
    ∃ r, Spline.at sqrt s t = .ok r := by
  have hlo : (0 : ℤ) ≤ (s.points.length : ℤ) - 1 := by omega
  have hb := index_frac_bounds s (_clamp t 0 1) hn
  obtain ⟨p0, hp0⟩ := lookup_ok s.points (index_frac s (_clamp t 0 1)).1 hb.1 hb.2
  obtain ⟨p1, hp1⟩ := lookup_ok s.points
    (Min.min ((s.points.length : ℤ) - 1) ((index_frac s (_clamp t 0 1)).1 + 1))
    (le_min hlo (by omega)) (min_le_left _ _)
  obtain ⟨m0, hm0⟩ := tangent_at_ok sqrt s (((index_frac s (_clamp t 0 1)).1 : ℤ) : K) hn
  obtain ⟨m1, hm1⟩ := tangent_at_ok sqrt s
    ((Min.min ((s.points.length : ℤ) - 1) ((index_frac s (_clamp t 0 1)).1 + 1) : ℤ) : K) hn
  unfold Spline.at
  simp only [hp0, hp1, hm0, hm1, bind, Except.bind, pure, Except.pure]
  exact ⟨_, rfl⟩

theorem at_congr_clamp (sqrt : K → K) (s : Spline K) (t u : K)
    (h : _clamp t 0 1 = _clamp u 0 1) : Spline.at sqrt s t = Spline.at sqrt s u := by
  unfold Spline.at
  rw [h]

theorem index_frac_clamp (s : Spline K) (t : K) :
    (index_frac s (_clamp t 0 1)).1
      = ⌊(((s.points.length : ℤ) - 1 : ℤ) : K) * _clamp t 0 1⌋ := by
  have h := clamp_idem t (0 : K) 1 zero_le_one
  unfold _clamp at h
  unfold index_frac _clamp
  simp only [h]

/-! ## The evaluator `at` -/

/-- C3: `at` clamps its parameter: for every curve, `at(t) = at(0)` when `t ≤ 0`
and `at(t) = at(1)` when `t ≥ 1`, position and weight both equal. -/
theorem at_clamps_parameter (sqrt : K → K) (s : Spline K) (t : K) :
    (t ≤ 0 → Spline.at sqrt s t = Spline.at sqrt s 0) ∧
    (1 ≤ t → Spline.at sqrt s t = Spline.at sqrt s 1) := by
  constructor
  · intro ht
    apply at_congr_clamp
    rw [clamp_of_le_lo t 0 1 zero_le_one ht, clamp_of_le_lo 0 0 1 zero_le_one le_rfl]
  · intro ht
    apply at_congr_clamp
    rw [clamp_of_ge_hi t 0 1 zero_le_one ht, clamp_of_ge_hi 1 0 1 zero_le_one le_rfl]

theorem at_clamps_parameter_witness :
    ((-1 : ℝ) ≤ 0 ∧ Spline.at Real.sqrt (header_example ℝ) (-1)
        = Spline.at Real.sqrt (header_example ℝ) 0) ∧
    ((1 : ℝ) ≤ 2 ∧ Spline.at Real.sqrt (header_example ℝ) 2
        = Spline.at Real.sqrt (header_example ℝ) 1) :=
  ⟨⟨by norm_num, (at_clamps_parameter Real.sqrt (header_example ℝ) (-1)).1 (by norm_num)⟩,
   ⟨by norm_num, (at_clamps_parameter Real.sqrt (header_example ℝ) 2).2 (by norm_num)⟩⟩

/-- C4: for a curve with `n ≥ 2` points and every `t`, the segment index
`floor((n-1)*clamp(t,0,1))` computed by `index_frac`, the next index used by `at`,
and the current, previous and next indices that `tangent_at` derives from either
of them all lie in `[0, n-1]`; every read of `points` at such an index succeeds,
and `at(t)` returns without a failed read. -/
theorem at_array_reads_in_range (sqrt : K → K) (s : Spline K) (t : K)
    (hn : 2 ≤ s.points.length) :
    let n1 : ℤ := (s.points.length : ℤ) - 1
    let index : ℤ := ⌊((n1 : ℤ) : K) * _clamp t 0 1⌋
    let nindex : ℤ := Min.min n1 (index + 1)
    (index_frac s (_clamp t 0 1)).1 = index ∧
    (0 ≤ index ∧ index ≤ n1) ∧
    (0 ≤ nindex ∧ nindex ≤ n1) ∧
    (∀ j : ℤ, j = index ∨ j = nindex →
      (0 ≤ _clamp ⌊(j : K)⌋ 0 n1 ∧ _clamp ⌊(j : K)⌋ 0 n1 ≤ n1) ∧
      (0 ≤ _clamp (_clamp ⌊(j : K)⌋ 0 n1 - 1) 0 n1 ∧
        _clamp (_clamp ⌊(j : K)⌋ 0 n1 - 1) 0 n1 ≤ n1) ∧
      (0 ≤ _clamp (_clamp ⌊(j : K)⌋ 0 n1 + 1) 0 n1 ∧
        _clamp (_clamp ⌊(j : K)⌋ 0 n1 + 1) 0 n1 ≤ n1)) ∧
    (∀ i : ℤ, 0 ≤ i → i ≤ n1 → ∃ p, lookup s.points i = .ok p) ∧
    ∃ r, Spline.at sqrt s t = .ok r := by
  intro n1 index nindex
  have hlo : (0 : ℤ) ≤ n1 := by
    show (0 : ℤ) ≤ (s.points.length : ℤ) - 1
    omega
  have hidx : (index_frac s (_clamp t 0 1)).1 = index := index_frac_clamp s t
  have hb := index_frac_bounds s (_clamp t 0 1) (by omega)
  rw [hidx] at hb
  refine ⟨hidx, hb, ⟨le_min hlo (by omega), min_le_left _ _⟩, ?_, ?_, at_ok sqrt s t (by omega)⟩
  · intro j _
    exact ⟨⟨clamp_ge _ _ _, clamp_le _ _ _ hlo⟩, ⟨clamp_ge _ _ _, clamp_le _ _ _ hlo⟩,
      ⟨clamp_ge _ _ _, clamp_le _ _ _ hlo⟩⟩
  · intro i h0 h1
    exact lookup_ok s.points i h0 h1

theorem at_array_reads_in_range_witness :
    2 ≤ (header_example ℝ).points.length ∧
    ∃ r, Spline.at Real.sqrt (header_example ℝ) 7 = .ok r :=
  ⟨by decide,
   (at_array_reads_in_range Real.sqrt (header_example ℝ) 7 (by decide)).2.2.2.2.2⟩

/-- The value of `at` from the values of its four reads and two tangents. -/
theorem at_eq (sqrt : K → K) (s : Spline K) (t : K) (index : ℤ) (frac : K)
    (p0 p1 : Point K) (m0 m1 : Option (Vec2 K))
    (hif : index_frac s (_clamp t 0 1) = (index, frac))
    (h0 : lookup s.points index = .ok p0)
    (h1 : lookup s.points (Min.min ((s.points.length : ℤ) - 1) (index + 1)) = .ok p1)
    (hm0 : tangent_at sqrt s ((index : ℤ) : K) = .ok m0)
    (hm1 : tangent_at sqrt s
      ((Min.min ((s.points.length : ℤ) - 1) (index + 1) : ℤ) : K) = .ok m1) :
    Spline.at sqrt s t = .ok ⟨hermite_xy p0 p1 m0 m1 frac, p0.w⟩ := by
  unfold Spline.at
  simp only [hif, h0, h1, hm0, hm1, bind, Except.bind, pure, Except.pure]
  cases m0 <;> cases m1 <;> rfl

theorem index_frac_eq (s : Spline K) (t : K) (index : ℤ) (h0 : 0 ≤ t) (h1 : t ≤ 1)
    (hlo : (index : K) ≤ (((s.points.length : ℤ) - 1 : ℤ) : K) * t)
    (hhi : (((s.points.length : ℤ) - 1 : ℤ) : K) * t < (index : K) + 1) :
    index_frac s (_clamp t 0 1)
      = (index, (((s.points.length : ℤ) - 1 : ℤ) : K) * t - (index : K)) := by
  have hc : _clamp t 0 1 = t := clamp_of_mem t 0 1 h0 h1
  have hfl : ⌊(((s.points.length : ℤ) - 1 : ℤ) : K) * t⌋ = index :=
    Int.floor_eq_iff.mpr ⟨hlo, hhi⟩
  rw [hc]
  unfold index_frac
  simp only [min_eq_left h1, max_eq_right h0, hfl]

/-- In Linear mode every tangent is the zero vector. -/
theorem tangent_at_linear (sqrt : K → K) (s : Spline K) (index : K)
    (hmode : s.spline_type = spline_type_linear) :
    tangent_at sqrt s index = .ok (some ⟨0, 0⟩) := by
  unfold tangent_at
  simp only [hmode]
  rfl

/-- The value of `at` in Linear mode, on a curve with at least two points. -/
theorem at_linear_eq (sqrt : K → K) (s : Spline K) (t : K)
    (hmode : s.spline_type = spline_type_linear) (hn : 2 ≤ s.points.length)
    (h0 : 0 ≤ t) (h1 : t ≤ 1) :
    ∃ p0 p1,
      lookup s.points ⌊(((s.points.length : ℤ) - 1 : ℤ) : K) * t⌋ = .ok p0 ∧
      lookup s.points (Min.min ((s.points.length : ℤ) - 1)
        (⌊(((s.points.length : ℤ) - 1 : ℤ) : K) * t⌋ + 1)) = .ok p1 ∧
      Spline.at sqrt s t = .ok
        ⟨hermite_xy p0 p1 (some ⟨0, 0⟩) (some ⟨0, 0⟩)
          ((((s.points.length : ℤ) - 1 : ℤ) : K) * t
            - (⌊(((s.points.length : ℤ) - 1 : ℤ) : K) * t⌋ : K)), p0.w⟩ := by
  have hlo : (0 : ℤ) ≤ (s.points.length : ℤ) - 1 := by omega
  have hif := index_frac_eq s t ⌊(((s.points.length : ℤ) - 1 : ℤ) : K) * t⌋ h0 h1
    (Int.floor_le _) (Int.lt_floor_add_one _)
  have hb := index_frac_bounds s (_clamp t 0 1) (by omega)
  rw [hif] at hb
  obtain ⟨p0, hp0⟩ := lookup_ok s.points _ hb.1 hb.2
  obtain ⟨p1, hp1⟩ := lookup_ok s.points
    (Min.min ((s.points.length : ℤ) - 1) (⌊(((s.points.length : ℤ) - 1 : ℤ) : K) * t⌋ + 1))
    (le_min hlo (by have := hb.1; simp only at this; omega)) (min_le_left _ _)
  exact ⟨p0, p1, hp0, hp1, at_eq sqrt s t _ _ p0 p1 _ _ hif hp0 hp1
    (tangent_at_linear sqrt s _ hmode) (tangent_at_linear sqrt s _ hmode)⟩

/-- C2, as stated, fails: on the Linear curve through `(0,0)` and `(8,0)`, at
`t = 1/4` the segment is `index = 0`, `frac = 1/4`, `p0 = (0,0)`, `p1 = (8,0)`;
`at` returns `(5/4, 0)`, not the straight-line interpolation `(2, 0)`. -/
theorem at_linear_not_straight_line :
    index_frac (linear_example ℝ) (_clamp (1 / 4) 0 1) = (0, 1 / 4) ∧
    lookup (linear_example ℝ).points 0 = .ok ⟨0, 0, 8⟩ ∧
    lookup (linear_example ℝ).points (Min.min (((linear_example ℝ).points.length : ℤ) - 1) (0 + 1))
      = .ok ⟨8, 0, 1⟩ ∧
    Spline.at Real.sqrt (linear_example ℝ) (1 / 4) = .ok ⟨some ⟨5 / 4, 0⟩, 8⟩ ∧
    Spline.at Real.sqrt (linear_example ℝ) (1 / 4)
      ≠ .ok ⟨some ⟨(1 - 1 / 4) * 0 + 1 / 4 * 8, (1 - 1 / 4) * 0 + 1 / 4 * 0⟩, 8⟩ := by
  have hif : index_frac (linear_example ℝ) (_clamp (1 / 4) 0 1) = (0, 1 / 4) := by
    have h := index_frac_eq (linear_example ℝ) (1 / 4) 0 (by norm_num) (by norm_num)
      (by simp [linear_example]) (by simp [linear_example]; norm_num)
    rw [h]
    simp [linear_example]
  have hp0 : lookup (linear_example ℝ).points 0 = .ok ⟨0, 0, 8⟩ := rfl
  have hp1 : lookup (linear_example ℝ).points
      (Min.min (((linear_example ℝ).points.length : ℤ) - 1) (0 + 1)) = .ok ⟨8, 0, 1⟩ := rfl
  have hat : Spline.at Real.sqrt (linear_example ℝ) (1 / 4) = .ok ⟨some ⟨5 / 4, 0⟩, 8⟩ := by
    rw [at_eq Real.sqrt (linear_example ℝ) (1 / 4) 0 (1 / 4) _ _ _ _ hif hp0 hp1
      (tangent_at_linear _ _ _ rfl) (tangent_at_linear _ _ _ rfl)]
    simp only [hermite_xy]
    norm_num
  refine ⟨hif, hp0, hp1, hat, ?_⟩
  rw [hat]
  intro h
  injection h with h
  injection h with h _
  injection h with h
  injection h with h _
  norm_num at h

/-- C2 (amended): in Linear mode, for `t` in `[0,1]`, with `index = floor((n-1)*t)`,
`frac = (n-1)*t - index`, `p0 = points[index]` and `p1 = points[min(n-1, index+1)]`,
`at(t)` returns the position `(1-e)*p0 + e*p1` at the eased fraction
`e = 3*frac^2 - 2*frac^3`, with the weight of `p0`; `e = frac`, the straight-line
interpolation, when `frac = 0` or `frac = 1/2`. -/
theorem at_linear_eased (sqrt : K → K) (s : Spline K) (t : K)
    (hmode : s.spline_type = spline_type_linear) (hn : 2 ≤ s.points.length)
    (h0 : 0 ≤ t) (h1 : t ≤ 1) :
    let n1 : ℤ := (s.points.length : ℤ) - 1
    let index : ℤ := ⌊((n1 : ℤ) : K) * t⌋
    let frac : K := ((n1 : ℤ) : K) * t - (index : K)
    let e : K := 3 * frac ^ 2 - 2 * frac ^ 3
    ∃ p0 p1,
      lookup s.points index = .ok p0 ∧
      lookup s.points (Min.min n1 (index + 1)) = .ok p1 ∧
      Spline.at sqrt s t
        = .ok ⟨some ⟨(1 - e) * p0.x + e * p1.x, (1 - e) * p0.y + e * p1.y⟩, p0.w⟩ ∧
      (frac = 0 ∨ frac = 1 / 2 → e = frac) := by
  intro n1 index frac e
  obtain ⟨p0, p1, hp0, hp1, hat⟩ := at_linear_eq sqrt s t hmode hn h0 h1
  refine ⟨p0, p1, hp0, hp1, ?_, ?_⟩
  · rw [hat]
    simp only [hermite_xy]
    have hx : (2 * (frac * frac * frac) - 3 * (frac * frac) + 1) * p0.x
        + (frac * frac * frac - 2 * (frac * frac) + frac) * 0
        + (-2 * (frac * frac * frac) + 3 * (frac * frac)) * p1.x
        + (frac * frac * frac - frac * frac) * 0 = (1 - e) * p0.x + e * p1.x := by
      show _ = (1 - (3 * frac ^ 2 - 2 * frac ^ 3)) * p0.x + (3 * frac ^ 2 - 2 * frac ^ 3) * p1.x
      ring
    have hy : (2 * (frac * frac * frac) - 3 * (frac * frac) + 1) * p0.y
        + (frac * frac * frac - 2 * (frac * frac) + frac) * 0
        + (-2 * (frac * frac * frac) + 3 * (frac * frac)) * p1.y
        + (frac * frac * frac - frac * frac) * 0 = (1 - e) * p0.y + e * p1.y := by
      show _ = (1 - (3 * frac ^ 2 - 2 * frac ^ 3)) * p0.y + (3 * frac ^ 2 - 2 * frac ^ 3) * p1.y
      ring
    show Except.ok _ = Except.ok _
    rw [← hx, ← hy]
  · show frac = 0 ∨ frac = 1 / 2 → 3 * frac ^ 2 - 2 * frac ^ 3 = frac
    rintro (h | h) <;> rw [h] <;> norm_num

theorem at_linear_eased_witness :
    (linear_example ℝ).spline_type = spline_type_linear ∧
    2 ≤ (linear_example ℝ).points.length ∧ (0 : ℝ) ≤ 1 / 4 ∧ (1 / 4 : ℝ) ≤ 1 ∧
    ∃ r, Spline.at Real.sqrt (linear_example ℝ) (1 / 4) = .ok r :=
  ⟨rfl, by decide, by norm_num, by norm_num,
    (at_linear_eased Real.sqrt (linear_example ℝ) (1 / 4) rfl (by decide)
      (by norm_num) (by norm_num)).elim fun _ h => h.elim fun _ h => ⟨_, h.2.2.1⟩⟩

/-- In the header example the tangent at control point 2, whose two neighbours
coincide, is `0/0`: both components are `NaN`. -/
theorem tangent_at_header_two :
    tangent_at Real.sqrt (header_example ℝ) ((2 : ℤ) : ℝ) = .ok none := by
  unfold tangent_at
  rw [Int.floor_intCast]
  simp [header_example, _clamp, lookup, _v_dif_between, _v_len, Point.xy, bind, Except.bind,
    pure, Except.pure]

/-- C1 fails on the header example of the source: control point 2 is `(90, 90)` and
`2/(n-1) = 2/3`, but `at(2/3)` returns `NaN` coordinates (with the weight 80). -/
theorem at_header_knot_is_nan :
    lookup (header_example ℝ).points 2 = .ok ⟨90, 90, 80⟩ ∧
    Spline.at Real.sqrt (header_example ℝ) (2 / 3) = .ok ⟨none, 80⟩ := by
  have hif : index_frac (header_example ℝ) (_clamp (2 / 3) 0 1) = (2, 0) := by
    have h := index_frac_eq (header_example ℝ) (2 / 3) 2 (by norm_num) (by norm_num)
      (by simp [header_example]; norm_num) (by simp [header_example]; norm_num)
    rw [h]
    simp [header_example]
    norm_num
  have hp0 : lookup (header_example ℝ).points 2 = .ok ⟨90, 90, 80⟩ := rfl
  have hp1 : lookup (header_example ℝ).points
      (Min.min (((header_example ℝ).points.length : ℤ) - 1) (2 + 1)) = .ok ⟨90, 10, 1⟩ := rfl
  obtain ⟨m1, hm1⟩ := tangent_at_ok Real.sqrt (header_example ℝ)
    ((Min.min (((header_example ℝ).points.length : ℤ) - 1) (2 + 1) : ℤ) : ℝ) (by decide)
  refine ⟨hp0, ?_⟩
  rw [at_eq Real.sqrt (header_example ℝ) (2 / 3) 2 0 _ _ _ _ hif hp0 hp1
    tangent_at_header_two hm1]
  rfl

/-- Outside NormalizedDifference mode no tangent is `NaN`. -/
theorem tangent_at_some (sqrt : K → K) (s : Spline K) (index : K) (hn : 1 ≤ s.points.length)
    (hmode : s.spline_type ≠ spline_type_normalised_dif) :
    ∃ m, tangent_at sqrt s index = .ok (some m) := by
  have hlo : (0 : ℤ) ≤ (s.points.length : ℤ) - 1 := by omega
  obtain ⟨p, hp⟩ := lookup_ok s.points
    (_clamp (_clamp ⌊index⌋ 0 ((s.points.length : ℤ) - 1) - 1) 0 ((s.points.length : ℤ) - 1))
    (clamp_ge _ _ _) (clamp_le _ _ _ hlo)
  obtain ⟨q, hq⟩ := lookup_ok s.points (_clamp ⌊index⌋ 0 ((s.points.length : ℤ) - 1))
    (clamp_ge _ _ _) (clamp_le _ _ _ hlo)
  obtain ⟨r, hr⟩ := lookup_ok s.points
    (_clamp (_clamp ⌊index⌋ 0 ((s.points.length : ℤ) - 1) + 1) 0 ((s.points.length : ℤ) - 1))
    (clamp_ge _ _ _) (clamp_le _ _ _ hlo)
  unfold tangent_at
  cases hmode2 : s.spline_type <;> simp only [hp, hq, hr, bind, Except.bind, pure, Except.pure]
  · simp
  · exact absurd hmode2 hmode
  · exact ⟨_, rfl⟩
  · exact ⟨_, rfl⟩

/-- At the parameter `i/(n-1)` of control point `i`, when the two tangents that
`at` uses there are numbers, `at` returns the coordinates and weight of point `i`. -/
theorem at_knot (sqrt : K → K) (s : Spline K) (i : ℕ) (hn : 2 ≤ s.points.length)
    (hi : i < s.points.length) (m0 m1 : Vec2 K)
    (hm0 : tangent_at sqrt s (((i : ℕ) : ℤ) : K) = .ok (some m0))
    (hm1 : tangent_at sqrt s
      ((Min.min ((s.points.length : ℤ) - 1) ((i : ℤ) + 1) : ℤ) : K) = .ok (some m1)) :
    Spline.at sqrt s ((((i : ℕ) : ℤ) : K) / (((s.points.length : ℤ) - 1 : ℤ) : K))
      = .ok ⟨some (s.points.get ⟨i, hi⟩).xy, (s.points.get ⟨i, hi⟩).w⟩ := by
  have hlo : (0 : ℤ) ≤ (s.points.length : ℤ) - 1 := by omega
  have hpos : (0 : K) < (((s.points.length : ℤ) - 1 : ℤ) : K) := by
    have : (0 : ℤ) < (s.points.length : ℤ) - 1 := by omega
    exact_mod_cast this
  have hile : (((i : ℕ) : ℤ) : K) ≤ (((s.points.length : ℤ) - 1 : ℤ) : K) := by
    have : ((i : ℕ) : ℤ) ≤ (s.points.length : ℤ) - 1 := by omega
    exact_mod_cast this
  have hi0 : (0 : K) ≤ (((i : ℕ) : ℤ) : K) := by
    have : (0 : ℤ) ≤ ((i : ℕ) : ℤ) := Int.natCast_nonneg i
    exact_mod_cast this
  have hmul : (((s.points.length : ℤ) - 1 : ℤ) : K)
      * ((((i : ℕ) : ℤ) : K) / (((s.points.length : ℤ) - 1 : ℤ) : K)) = (((i : ℕ) : ℤ) : K) :=
    mul_div_cancel₀ _ (ne_of_gt hpos)
  have hif := index_frac_eq s ((((i : ℕ) : ℤ) : K) / (((s.points.length : ℤ) - 1 : ℤ) : K))
    (i : ℤ) (div_nonneg hi0 (le_of_lt hpos)) ((div_le_one hpos).mpr hile)
    (by rw [hmul]) (by rw [hmul]; exact lt_add_one _)
  rw [hmul, sub_self] at hif
  have hp0 := lookup_natCast s.points i hi
  obtain ⟨p1, hp1⟩ := lookup_ok s.points
    (Min.min ((s.points.length : ℤ) - 1) ((i : ℤ) + 1)) (le_min hlo (by omega)) (min_le_left _ _)
  rw [at_eq sqrt s _ (i : ℤ) 0 _ p1 _ _ hif hp0 hp1 hm0 hm1]
  simp [hermite_xy, Point.xy]

/-- Outside NormalizedDifference mode the curve passes through every control point:
`at(i/(n-1))` is point `i`. -/
theorem at_knot_of_mode (sqrt : K → K) (s : Spline K) (i : ℕ) (hn : 2 ≤ s.points.length)
    (hi : i < s.points.length) (hmode : s.spline_type ≠ spline_type_normalised_dif) :
    Spline.at sqrt s ((((i : ℕ) : ℤ) : K) / (((s.points.length : ℤ) - 1 : ℤ) : K))
      = .ok ⟨some (s.points.get ⟨i, hi⟩).xy, (s.points.get ⟨i, hi⟩).w⟩ := by
  obtain ⟨m0, hm0⟩ := tangent_at_some sqrt s (((i : ℕ) : ℤ) : K) (by omega) hmode
  obtain ⟨m1, hm1⟩ := tangent_at_some sqrt s
    ((Min.min ((s.points.length : ℤ) - 1) ((i : ℤ) + 1) : ℤ) : K) (by omega) hmode
  exact at_knot sqrt s i hn hi m0 m1 hm0 hm1

/-! ## Nearest control point -/

theorem real_isSqrt : IsSqrt Real.sqrt := fun x hx =>
  ⟨Real.sqrt_nonneg x, Real.mul_self_sqrt hx⟩

theorem v_len_between_nonneg (sqrt : K → K) (hsqrt : IsSqrt sqrt) (a b : Vec2 K) :
    0 ≤ _v_len_between sqrt a b :=
  (hsqrt _ (add_nonneg (mul_self_nonneg _) (mul_self_nonneg _))).1

theorem v_len_between_self (sqrt : K → K) (hsqrt : IsSqrt sqrt) (a : Vec2 K) :
    _v_len_between sqrt a a = 0 := by
  have h := (hsqrt 0 le_rfl).2
  have h0 : sqrt 0 = 0 := mul_self_eq_zero.mp h
  simp [_v_len_between, _v_len, _v_dif_between, h0]

theorem v_len_between_eq_zero (sqrt : K → K) (hsqrt : IsSqrt sqrt) (a b : Vec2 K)
    (h : _v_len_between sqrt a b = 0) : b.x = a.x ∧ b.y = a.y := by
  have hs := (hsqrt ((b.x - a.x) * (b.x - a.x) + (b.y - a.y) * (b.y - a.y))
    (add_nonneg (mul_self_nonneg _) (mul_self_nonneg _))).2
  have h2 : sqrt ((b.x - a.x) * (b.x - a.x) + (b.y - a.y) * (b.y - a.y)) = 0 := h
  rw [h2, mul_zero] at hs
  have hx : (b.x - a.x) * (b.x - a.x) = 0 := by
    nlinarith [mul_self_nonneg (b.x - a.x), mul_self_nonneg (b.y - a.y)]
  have hy : (b.y - a.y) * (b.y - a.y) = 0 := by
    nlinarith [mul_self_nonneg (b.x - a.x), mul_self_nonneg (b.y - a.y)]
  exact ⟨sub_eq_zero.mp (mul_self_eq_zero.mp hx), sub_eq_zero.mp (mul_self_eq_zero.mp hy)⟩

/-- What the scan of `nearest_control_point_i` returns from any loop state: the
chosen index is kept when no remaining point is strictly nearer than
`minimum_distance`; otherwise the result is the first remaining point of least
distance. -/
theorem nearest_loop_spec (sqrt : K → K) (pos : Vec2 K) (l : List (Point K)) :
    ∀ (i : ℕ) (md : K) (chosen : ℕ),
      (nearest_control_point_i_loop sqrt pos l i md chosen = chosen ∧
        ∀ p ∈ l, md ≤ _v_len_between sqrt pos p.xy) ∨
      (∃ (k : ℕ) (q : Point K), l[k]? = some q ∧
        nearest_control_point_i_loop sqrt pos l i md chosen = i + k ∧
        _v_len_between sqrt pos q.xy < md ∧
        (∀ p ∈ l, _v_len_between sqrt pos q.xy ≤ _v_len_between sqrt pos p.xy) ∧
        (∀ (j : ℕ) (p : Point K), j < k → l[j]? = some p →
          _v_len_between sqrt pos q.xy < _v_len_between sqrt pos p.xy)) := by
  induction l with
  | nil =>
    intro i md chosen
    left
    exact ⟨rfl, fun p hp => absurd hp (List.not_mem_nil p)⟩
  | cons p rest ih =>
    intro i md chosen
    by_cases hd : _v_len_between sqrt pos p.xy < md
    · have hstep : nearest_control_point_i_loop sqrt pos (p :: rest) i md chosen
          = nearest_control_point_i_loop sqrt pos rest (i + 1) (_v_len_between sqrt pos p.xy) i := by
        simp only [nearest_control_point_i_loop, if_pos hd]
      rcases ih (i + 1) (_v_len_between sqrt pos p.xy) i with ⟨hr, hall⟩ | ⟨k, q, hq, hr, hlt, hmin, hfirst⟩
      · right
        refine ⟨0, p, by simp, by rw [hstep, hr]; rfl, hd, ?_, ?_⟩
        · intro p2 hp2
          rcases List.mem_cons.mp hp2 with h | h
          · rw [h]
          · exact hall p2 h
        · intro j p2 hj
          exact absurd hj (Nat.not_lt_zero j)
      · right
        refine ⟨k + 1, q, by simpa using hq, by rw [hstep, hr]; omega, lt_trans hlt hd, ?_, ?_⟩
        · intro p2 hp2
          rcases List.mem_cons.mp hp2 with h | h
          · rw [h]; exact le_of_lt hlt
          · exact hmin p2 h
        · intro j p2 hj hp2
          cases j with
          | zero =>
            have : p = p2 := by simpa using hp2
            rw [← this]; exact hlt
          | succ j => exact hfirst j p2 (by omega) (by simpa using hp2)
    · have hstep : nearest_control_point_i_loop sqrt pos (p :: rest) i md chosen
          = nearest_control_point_i_loop sqrt pos rest (i + 1) md chosen := by
        simp only [nearest_control_point_i_loop, if_neg hd]
      have hd2 : md ≤ _v_len_between sqrt pos p.xy := not_lt.mp hd
      rcases ih (i + 1) md chosen with ⟨hr, hall⟩ | ⟨k, q, hq, hr, hlt, hmin, hfirst⟩
      · left
        refine ⟨by rw [hstep, hr], ?_⟩
        intro p2 hp2
        rcases List.mem_cons.mp hp2 with h | h
        · rw [h]; exact hd2
        · exact hall p2 h
      · right
        refine ⟨k + 1, q, by simpa using hq, by rw [hstep, hr]; omega, hlt, ?_, ?_⟩
        · intro p2 hp2
          rcases List.mem_cons.mp hp2 with h | h
          · rw [h]; exact le_of_lt (lt_of_lt_of_le hlt hd2)
          · exact hmin p2 h
        · intro j p2 hj hp2
          cases j with
          | zero =>
            have : p = p2 := by simpa using hp2
            rw [← this]; exact lt_of_lt_of_le hlt hd2
          | succ j => exact hfirst j p2 (by omega) (by simpa using hp2)

theorem lookup_of_getElem? (points : List (Point K)) (k : ℕ) (q : Point K)
    (h : points[k]? = some q) : lookup points (k : ℤ) = .ok q := by
  unfold lookup
  rw [if_pos (Int.natCast_nonneg k)]
  simp [h]

/-- The length from the origin to a point `(a, 0)` with `a ≥ 0` is `a`. -/
theorem v_len_between_axis (sqrt : K → K) (hsqrt : IsSqrt sqrt) (a : K) (ha : 0 ≤ a) :
    _v_len_between sqrt ⟨0, 0⟩ ⟨a, 0⟩ = a := by
  have h := hsqrt (a * a) (mul_self_nonneg a)
  have hs : _v_len_between sqrt ⟨0, 0⟩ ⟨a, 0⟩ = sqrt (a * a) := by
    simp [_v_len_between, _v_len, _v_dif_between]
  rw [hs]
  rcases mul_self_eq_mul_self_iff.mp h.2 with h1 | h1
  · exact h1
  · have h2 := h.1
    rw [h1] at h2
    have : a = 0 := le_antisymm (by linarith) ha
    rw [h1, this, neg_zero]

/-- When some control point is nearer to `pos` than the initial
`minimum_distance = 10000000.0`, `nearest_control_point_i` returns the first
control point of least distance to `pos`. -/
theorem nearest_control_point_i_spec (sqrt : K → K) (s : Spline K) (pos : Vec2 K)
    (hnear : ∃ p ∈ s.points, _v_len_between sqrt pos p.xy < 10000000.0) :
    ∃ q, s.points[nearest_control_point_i sqrt s pos]? = some q ∧
      (∀ p ∈ s.points, _v_len_between sqrt pos q.xy ≤ _v_len_between sqrt pos p.xy) ∧
      (∀ (j : ℕ) (p : Point K), j < nearest_control_point_i sqrt s pos →
        s.points[j]? = some p →
        _v_len_between sqrt pos q.xy < _v_len_between sqrt pos p.xy) := by
  obtain ⟨p, hp, hlt⟩ := hnear
  unfold nearest_control_point_i
  rcases nearest_loop_spec sqrt pos s.points 0 10000000.0 0 with
    ⟨_, hall⟩ | ⟨k, q, hq, hr, _, hmin, hfirst⟩
  · exact absurd hlt (not_lt.mpr (hall p hp))
  · rw [hr, Nat.zero_add]
    exact ⟨q, hq, hmin, hfirst⟩

/-- C6: for every curve and every index `i` of a control point,
`nearest_control_point` called with the coordinates of control point `i` returns a
control point with the same coordinates, at distance zero. -/
theorem nearest_control_point_of_control_point (sqrt : K → K) (hsqrt : IsSqrt sqrt)
    (s : Spline K) (i : ℕ) (hi : i < s.points.length) :
    ∃ p, nearest_control_point sqrt s (s.points.get ⟨i, hi⟩).xy = .ok p ∧
      p ∈ s.points ∧
      p.x = (s.points.get ⟨i, hi⟩).x ∧ p.y = (s.points.get ⟨i, hi⟩).y ∧
      _v_len_between sqrt (s.points.get ⟨i, hi⟩).xy p.xy = 0 := by
  have hself := v_len_between_self sqrt hsqrt (s.points.get ⟨i, hi⟩).xy
  have hmem : s.points.get ⟨i, hi⟩ ∈ s.points := List.get_mem _ _ _
  obtain ⟨q, hq, hmin, _⟩ := nearest_control_point_i_spec sqrt s (s.points.get ⟨i, hi⟩).xy
    ⟨_, hmem, by rw [hself]; norm_num⟩
  have hle := hmin _ hmem
  rw [hself] at hle
  have hzero : _v_len_between sqrt (s.points.get ⟨i, hi⟩).xy q.xy = 0 :=
    le_antisymm hle (v_len_between_nonneg sqrt hsqrt _ _)
  have hxy := v_len_between_eq_zero sqrt hsqrt _ _ hzero
  refine ⟨q, lookup_of_getElem? _ _ _ hq, List.getElem?_mem hq, hxy.1, hxy.2, hzero⟩

theorem nearest_control_point_of_control_point_witness :
    IsSqrt Real.sqrt ∧ 2 < (header_example ℝ).points.length ∧
    ∃ p, nearest_control_point Real.sqrt (header_example ℝ)
        ((header_example ℝ).points.get ⟨2, by decide⟩).xy = .ok p ∧
      p ∈ (header_example ℝ).points ∧
      p.x = ((header_example ℝ).points.get ⟨2, by decide⟩).x ∧
      p.y = ((header_example ℝ).points.get ⟨2, by decide⟩).y ∧
      _v_len_between Real.sqrt ((header_example ℝ).points.get ⟨2, by decide⟩).xy p.xy = 0 :=
  ⟨real_isSqrt, by decide,
    nearest_control_point_of_control_point Real.sqrt real_isSqrt (header_example ℝ) 2
      (by decide)⟩

/-- C5 fails when every control point is farther from `pos` than the initial
`minimum_distance = 10000000.0`: on the curve through `(20000000, 0)` and
`(15000000, 0)`, for `pos = (0, 0)`, `nearest_control_point` returns point 0 although
point 1 is strictly nearer. -/
theorem nearest_control_point_far :
    nearest_control_point Real.sqrt (far_example ℝ) ⟨0, 0⟩ = .ok ⟨20000000, 0, 5000000⟩ ∧
    lookup (far_example ℝ).points 1 = .ok ⟨15000000, 0, 1⟩ ∧
    _v_len_between Real.sqrt ⟨0, 0⟩ (⟨15000000, 0, 1⟩ : Point ℝ).xy
      < _v_len_between Real.sqrt ⟨0, 0⟩ (⟨20000000, 0, 5000000⟩ : Point ℝ).xy := by
  have h0 : _v_len_between Real.sqrt ⟨0, 0⟩ (⟨20000000, 0, 5000000⟩ : Point ℝ).xy = 20000000 :=
    v_len_between_axis Real.sqrt real_isSqrt 20000000 (by norm_num)
  have h1 : _v_len_between Real.sqrt ⟨0, 0⟩ (⟨15000000, 0, 1⟩ : Point ℝ).xy = 15000000 :=
    v_len_between_axis Real.sqrt real_isSqrt 15000000 (by norm_num)
  refine ⟨?_, rfl, by rw [h0, h1]; norm_num⟩
  have hi : nearest_control_point_i Real.sqrt (far_example ℝ) ⟨0, 0⟩ = 0 := by
    unfold nearest_control_point_i
    simp only [far_example, nearest_control_point_i_loop, h0, h1]
    norm_num
  unfold nearest_control_point
  rw [hi]
  rfl

/-! ## The arc-length stepper -/

theorem lookup_mem (points : List (Point K)) (i : ℤ) (p : Point K)
    (h : lookup points i = .ok p) : p ∈ points := by
  unfold lookup at h
  split at h
  · split at h
    · rename_i q hq
      injection h with h
      rw [← h]
      exact List.get?_mem hq
    · exact absurd h (by simp)
  · exact absurd h (by simp)

/-- The weight returned by `at` is the weight of a control point. -/
theorem at_ok_weight (sqrt : K → K) (s : Spline K) (t : K) (hn : 1 ≤ s.points.length) :
    ∃ r p, Spline.at sqrt s t = .ok r ∧ p ∈ s.points ∧ r.w = p.w := by
  have hlo : (0 : ℤ) ≤ (s.points.length : ℤ) - 1 := by omega
  have hb := index_frac_bounds s (_clamp t 0 1) hn
  obtain ⟨p0, hp0⟩ := lookup_ok s.points (index_frac s (_clamp t 0 1)).1 hb.1 hb.2
  obtain ⟨p1, hp1⟩ := lookup_ok s.points
    (Min.min ((s.points.length : ℤ) - 1) ((index_frac s (_clamp t 0 1)).1 + 1))
    (le_min hlo (by omega)) (min_le_left _ _)
  obtain ⟨m0, hm0⟩ := tangent_at_ok sqrt s (((index_frac s (_clamp t 0 1)).1 : ℤ) : K) hn
  obtain ⟨m1, hm1⟩ := tangent_at_ok sqrt s
    ((Min.min ((s.points.length : ℤ) - 1) ((index_frac s (_clamp t 0 1)).1 + 1) : ℤ) : K) hn
  exact ⟨_, p0, at_eq sqrt s t _ _ p0 p1 m0 m1 rfl hp0 hp1 hm0 hm1, lookup_mem _ _ _ hp0, rfl⟩

/-- One unfolding of the loop when its condition holds and the weight is not zero. -/
theorem iterate_loop_step (sqrt : K → K) (s : Spline K) (prev_t : K) (pos : Sample K)
    (step_over step_under weight_factor : K) (st : IterState K)
    (hc : iterate_cond s step_over step_under st) (hw : weight_factor ≠ 0)
    (next_pos : Sample K)
    (hat : Spline.at sqrt s (round_t s prev_t step_over step_under weight_factor st)
      = .ok next_pos) :
    iterate_loop sqrt s prev_t pos step_over step_under weight_factor st
      = iterate_loop sqrt s prev_t pos step_over step_under weight_factor
          ⟨round_t s prev_t step_over step_under weight_factor st,
            sample_len_between sqrt next_pos pos, st.refine + 1, some next_pos,
            (round_t s prev_t step_over step_under weight_factor st,
              sample_len_between sqrt next_pos pos) :: st.sampled⟩ := by
  conv_lhs => rw [iterate_loop]
  unfold iterate_cond at hc
  unfold round_t at hat ⊢
  rw [dif_pos hc, if_neg hw]
  simp only [hat]

/-- The loop returns its state when its condition fails. -/
theorem iterate_loop_stop (sqrt : K → K) (s : Spline K) (prev_t : K) (pos : Sample K)
    (step_over step_under weight_factor : K) (st : IterState K)
    (hc : ¬ iterate_cond s step_over step_under st) :
    iterate_loop sqrt s prev_t pos step_over step_under weight_factor st = .ok st := by
  rw [iterate_loop]
  unfold iterate_cond at hc
  rw [dif_neg hc]

theorem round_t_ge (s : Spline K) (prev_t step_over step_under weight_factor : K)
    (st : IterState K) (hw : 0 < weight_factor) (hstep : 0 ≤ s.step) (ht : prev_t ≤ st.t) :
    prev_t ≤ round_t s prev_t step_over step_under weight_factor st := by
  have hdt : 0 ≤ (s.step / weight_factor) * (2.0 / (st.refine : K)) * 0.1 :=
    mul_nonneg (mul_nonneg (div_nonneg hstep (le_of_lt hw))
      (div_nonneg (by norm_num) (Nat.cast_nonneg _))) (by norm_num)
  have hdt2 : 0 ≤ (s.step / weight_factor) * (2.0 / (st.refine : K)) * 0.1
      / (st.refine : K) := div_nonneg hdt (Nat.cast_nonneg _)
  unfold round_t
  split_ifs with ha hb hd
  · linarith
  · linarith
  · exact not_lt.mp hd
  · exact ht

/-- The loop of `iterate_next_point` from any state satisfying `IterInv`, on a curve
with a point, a positive weight and a non-negative step: it returns a state
satisfying `IterInv` in which the loop condition is false; `refine` never
decreases, passes the limit only if it had already, and increases if a round is run. -/
theorem iterate_loop_spec (sqrt : K → K) (s : Spline K) (prev_t : K) (pos : Sample K)
    (step_over step_under weight_factor : K)
    (hn : 1 ≤ s.points.length) (hw : 0 < weight_factor) (hstep : 0 ≤ s.step) :
    ∀ (n : ℕ) (st : IterState K), s.iteration_limit - st.refine = n →
      IterInv sqrt s prev_t pos st →
      ∃ st', iterate_loop sqrt s prev_t pos step_over step_under weight_factor st = .ok st' ∧
        IterInv sqrt s prev_t pos st' ∧
        ¬ iterate_cond s step_over step_under st' ∧
        st.refine ≤ st'.refine ∧
        (st.refine ≤ s.iteration_limit → st'.refine ≤ s.iteration_limit) ∧
        (iterate_cond s step_over step_under st → st.refine < st'.refine) := by
  intro n
  induction n using Nat.strong_induction_on with
  | _ n ih =>
    intro st hm hinv
    by_cases hc : iterate_cond s step_over step_under st
    · obtain ⟨np, hnp⟩ := at_ok sqrt s
        (round_t s prev_t step_over step_under weight_factor st) hn
      rw [iterate_loop_step sqrt s prev_t pos step_over step_under weight_factor st hc
        (ne_of_gt hw) np hnp]
      have hlt : st.refine < s.iteration_limit := hc.1
      have hinv2 : IterInv sqrt s prev_t pos
          ⟨round_t s prev_t step_over step_under weight_factor st,
            sample_len_between sqrt np pos, st.refine + 1, some np,
            (round_t s prev_t step_over step_under weight_factor st,
              sample_len_between sqrt np pos) :: st.sampled⟩ := by
        refine ⟨round_t_ge s prev_t step_over step_under weight_factor st hw hstep hinv.1,
          ?_, Or.inr ⟨np, st.sampled, hnp, rfl, rfl, rfl⟩⟩
        show (List.length _) + 1 = st.refine + 1
        rw [List.length_cons, hinv.2.1]
      obtain ⟨st', hr, hi', hc', hle, hlim, _⟩ :=
        ih (s.iteration_limit - (st.refine + 1)) (by omega) _ rfl hinv2
      refine ⟨st', hr, hi', hc', ?_, ?_, ?_⟩
      · exact le_trans (Nat.le_succ _) hle
      · intro _
        exact hlim hlt
      · intro _
        exact lt_of_lt_of_le (Nat.lt_succ_self _) hle
    · rw [iterate_loop_stop sqrt s prev_t pos step_over step_under weight_factor st hc]
      exact ⟨st, rfl, hinv, hc, le_rfl, id, fun h => absurd h hc⟩

/-- What `iterate_next_point` does on a curve with a point, weights at least 1 and
a non-negative step: `at(t_current)` is `pos`; the loop stops in a state where its
condition is false; the parameter is not below `t_current`; `refine` is between 1
and the limit (when the limit is at least 1); the history has one entry per round. -/
theorem iterate_next_point_state_spec (sqrt : K → K) (s : Spline K) (t_current : K)
    (hn : 1 ≤ s.points.length) (hstep : 0 ≤ s.step) (hw : ∀ p ∈ s.points, 1 ≤ p.w) :
    ∃ pos st, Spline.at sqrt s t_current = .ok pos ∧
      iterate_next_point_state sqrt s t_current = .ok st ∧
      iterate_next_point sqrt s t_current = .ok (st.t, st.next_pos) ∧
      IterInv sqrt s t_current pos st ∧
      ¬ iterate_cond s (s.step * (1 + s.tolerance_factor))
        (s.step * (1 - s.tolerance_factor)) st ∧
      1 ≤ st.refine ∧
      (1 ≤ s.iteration_limit → st.refine ≤ s.iteration_limit) ∧
      (1 < s.iteration_limit → 0 < s.step * (1 - s.tolerance_factor) → 1 < st.refine) := by
  obtain ⟨pos, p, hpos, hp, hpw⟩ := at_ok_weight sqrt s t_current hn
  have hwf : 0 < pos.w := by
    rw [hpw]
    exact lt_of_lt_of_le zero_lt_one (hw p hp)
  have hinit : IterInv sqrt s t_current pos ⟨t_current, some 0, 1, none, []⟩ :=
    ⟨le_rfl, rfl, Or.inl ⟨rfl, rfl, rfl, rfl⟩⟩
  obtain ⟨st, hr, hinv, hc, hle, hlim, hlt⟩ :=
    iterate_loop_spec sqrt s t_current pos (s.step * (1 + s.tolerance_factor))
      (s.step * (1 - s.tolerance_factor)) pos.w hn hwf hstep _ _ rfl hinit
  have hst : iterate_next_point_state sqrt s t_current = .ok st := by
    unfold iterate_next_point_state
    simp only [hpos, bind, Except.bind]
    exact hr
  refine ⟨pos, st, hpos, hst, ?_, hinv, hc, hle, hlim, ?_⟩
  · unfold iterate_next_point
    simp only [hst, bind, Except.bind, pure, Except.pure]
  · intro h1 h2
    exact hlt ⟨h1, Or.inl h2⟩

/-- C7: for every curve with `step > 0` and all weights at least 1 (as `recalculate`
leaves them), every `iteration_limit` and `tolerance_factor` and every `t_current`,
`iterate_next_point(t_current)` returns a parameter `t_next ≥ t_current`. -/
theorem iterate_next_point_never_backward (sqrt : K → K) (s : Spline K) (t_current : K)
    (hn : 1 ≤ s.points.length) (hstep : 0 < s.step) (hw : ∀ p ∈ s.points, 1 ≤ p.w) :
    ∃ t_next pos_next, iterate_next_point sqrt s t_current = .ok (t_next, pos_next) ∧
      t_current ≤ t_next := by
  obtain ⟨pos, st, _, _, hr, hinv, _⟩ :=
    iterate_next_point_state_spec sqrt s t_current hn (le_of_lt hstep) hw
  exact ⟨st.t, st.next_pos, hr, hinv.1⟩

theorem iterate_next_point_never_backward_witness :
    1 ≤ (header_example ℝ).points.length ∧ 0 < (header_example ℝ).step ∧
    (∀ p ∈ (header_example ℝ).points, 1 ≤ p.w) ∧
    ∃ t_next pos_next,
      iterate_next_point Real.sqrt (header_example ℝ) (1 / 2) = .ok (t_next, pos_next) ∧
      1 / 2 ≤ t_next :=
  ⟨by decide, by norm_num [header_example], by norm_num [header_example],
    iterate_next_point_never_backward Real.sqrt (header_example ℝ) (1 / 2) (by decide)
      (by norm_num [header_example]) (by norm_num [header_example])⟩

/-- What holds of `iterate_next_point` under the hypotheses of C8 on a curve with
weights at least 1: it runs between 1 and `iteration_limit - 1` rounds, one entry of
the history per round, it returns `pos_next = at(t_next)`, and when it stops before
the limit the measured step is either `NaN` or within
`[step*(1-tolerance_factor), step*(1+tolerance_factor)]`. -/
theorem iterate_next_point_rounds (sqrt : K → K) (s : Spline K) (t_current : K)
    (hn : 1 ≤ s.points.length) (hstep : 0 < s.step) (hw : ∀ p ∈ s.points, 1 ≤ p.w)
    (htol : s.tolerance_factor < 1) (hlimit : 2 ≤ s.iteration_limit) :
    ∃ pos st np rest, Spline.at sqrt s t_current = .ok pos ∧
      iterate_next_point_state sqrt s t_current = .ok st ∧
      iterate_next_point sqrt s t_current = .ok (st.t, some np) ∧
      Spline.at sqrt s st.t = .ok np ∧
      st.step_taken = sample_len_between sqrt np pos ∧
      st.sampled = (st.t, st.step_taken) :: rest ∧
      st.sampled.length + 1 = st.refine ∧
      2 ≤ st.refine ∧ st.refine ≤ s.iteration_limit ∧
      (st.refine < s.iteration_limit →
        match st.step_taken with
        | some d => s.step * (1 - s.tolerance_factor) ≤ d ∧
            d ≤ s.step * (1 + s.tolerance_factor)
        | none => True) := by
  obtain ⟨pos, st, hpos, hst, hr, hinv, hc, h1, hlim, hgt⟩ :=
    iterate_next_point_state_spec sqrt s t_current hn (le_of_lt hstep) hw
  have hunder : 0 < s.step * (1 - s.tolerance_factor) := mul_pos hstep (by linarith)
  have h2 : 1 < st.refine := hgt (by omega) hunder
  rcases hinv.2.2 with ⟨_, _, _, hnil⟩ | ⟨np, rest, hnp, hnext, htaken, hsampled⟩
  · have hlen := hinv.2.1
    rw [hnil] at hlen
    simp at hlen
    omega
  · refine ⟨pos, st, np, rest, hpos, hst, by rw [hr, hnext], hnp, htaken, hsampled,
      hinv.2.1, h2, hlim (by omega), ?_⟩
    intro hlt
    unfold iterate_cond at hc
    cases hd : st.step_taken with
    | none => trivial
    | some d =>
      rw [hd] at hc
      have hc2 : ¬ (d < s.step * (1 - s.tolerance_factor) ∨
          d > s.step * (1 + s.tolerance_factor)) := fun h => hc ⟨hlt, h⟩
      exact ⟨not_lt.mp (fun h => hc2 (Or.inl h)), not_lt.mp (fun h => hc2 (Or.inr h))⟩

/-- On the second segment of the header example `at` returns `NaN` coordinates:
the segment ends at control point 2, whose tangent is `0/0`. -/
theorem at_header_segment_one (t : ℝ) (h1 : 1 / 3 ≤ t) (h2 : t < 2 / 3) :
    Spline.at Real.sqrt (header_example ℝ) t = .ok ⟨none, 80⟩ := by
  have hif := index_frac_eq (header_example ℝ) t 1 (by linarith) (by linarith)
    (by simp [header_example]; linarith)
    (by simp [header_example]; norm_num; linarith)
  have hp0 : lookup (header_example ℝ).points 1 = .ok ⟨90, 10, 80⟩ := rfl
  have hp1 : lookup (header_example ℝ).points
      (Min.min (((header_example ℝ).points.length : ℤ) - 1) (1 + 1)) = .ok ⟨90, 90, 80⟩ := rfl
  obtain ⟨m0, hm0⟩ := tangent_at_ok Real.sqrt (header_example ℝ) (((1 : ℤ) : ℤ) : ℝ)
    (by decide)
  have hm1 : tangent_at Real.sqrt (header_example ℝ)
      ((Min.min (((header_example ℝ).points.length : ℤ) - 1) (1 + 1) : ℤ) : ℝ) = .ok none :=
    tangent_at_header_two
  rw [at_eq Real.sqrt (header_example ℝ) t 1 _ _ _ _ _ hif hp0 hp1 hm0 hm1]
  cases m0 <;> rfl

/-- C8 fails on the header example of the source: from `t_current = 1/2` the loop
of `iterate_next_point` stops after one round (`refine = 2`, far below the limit 20)
at `t_next = 203/400`, and the measured step between `at(t_current)` and `pos_next`
is `NaN`, not a number within `[step*(1-tolerance_factor), step*(1+tolerance_factor)]`. -/
theorem iterate_next_point_header_nan :
    Spline.at Real.sqrt (header_example ℝ) (1 / 2) = .ok ⟨none, 80⟩ ∧
    iterate_next_point_state Real.sqrt (header_example ℝ) (1 / 2)
      = .ok ⟨203 / 400, none, 2, some ⟨none, 80⟩, [(203 / 400, none)]⟩ ∧
    iterate_next_point Real.sqrt (header_example ℝ) (1 / 2)
      = .ok (203 / 400, some ⟨none, 80⟩) ∧
    sample_len_between Real.sqrt (⟨none, 80⟩ : Sample ℝ) ⟨none, 80⟩ = none ∧
    (2 : ℕ) < (header_example ℝ).iteration_limit := by
  have hpos : Spline.at Real.sqrt (header_example ℝ) (1 / 2) = .ok ⟨none, 80⟩ :=
    at_header_segment_one (1 / 2) (by norm_num) (by norm_num)
  have hc : iterate_cond (header_example ℝ)
      ((header_example ℝ).step * (1 + (header_example ℝ).tolerance_factor))
      ((header_example ℝ).step * (1 - (header_example ℝ).tolerance_factor))
      ⟨1 / 2, some 0, 1, none, []⟩ := by
    refine ⟨by decide, Or.inl ?_⟩
    show (0 : ℝ) < _
    norm_num [header_example]
  have hrt : round_t (header_example ℝ) (1 / 2)
      ((header_example ℝ).step * (1 + (header_example ℝ).tolerance_factor))
      ((header_example ℝ).step * (1 - (header_example ℝ).tolerance_factor)) 80
      ⟨1 / 2, some 0, 1, none, []⟩ = 203 / 400 := by
    have hlt : nan_lt (some (0 : ℝ))
        ((header_example ℝ).step * (1 - (header_example ℝ).tolerance_factor)) := by
      show (0 : ℝ) < _
      norm_num [header_example]
    unfold round_t
    rw [if_pos hlt]
    norm_num [header_example]
  have hnext : Spline.at Real.sqrt (header_example ℝ)
      (round_t (header_example ℝ) (1 / 2)
        ((header_example ℝ).step * (1 + (header_example ℝ).tolerance_factor))
        ((header_example ℝ).step * (1 - (header_example ℝ).tolerance_factor)) 80
        ⟨1 / 2, some 0, 1, none, []⟩) = .ok ⟨none, 80⟩ := by
    rw [hrt]
    exact at_header_segment_one (203 / 400) (by norm_num) (by norm_num)
  have hstate : iterate_next_point_state Real.sqrt (header_example ℝ) (1 / 2)
      = .ok ⟨203 / 400, none, 2, some ⟨none, 80⟩, [(203 / 400, none)]⟩ := by
    unfold iterate_next_point_state
    simp only [hpos, bind, Except.bind]
    rw [iterate_loop_step Real.sqrt (header_example ℝ) (1 / 2) ⟨none, 80⟩ _ _ 80
      ⟨1 / 2, some 0, 1, none, []⟩ hc (by norm_num) ⟨none, 80⟩ hnext, hrt]
    have hsl : sample_len_between Real.sqrt (⟨none, 80⟩ : Sample ℝ) ⟨none, 80⟩ = none := rfl
    rw [hsl]
    apply iterate_loop_stop
    rintro ⟨_, h | h⟩
    · exact h
    · exact h
  refine ⟨hpos, hstate, ?_, rfl, by decide⟩
  unfold iterate_next_point
  simp only [hstate, bind, Except.bind, pure, Except.pure]

/-- The length between two points of the same ordinate is the absolute difference
of their abscissas. -/
theorem v_len_between_horizontal (sqrt : K → K) (hsqrt : IsSqrt sqrt) (a b y : K) :
    _v_len_between sqrt ⟨a, y⟩ ⟨b, y⟩ = |b - a| := by
  have h := hsqrt ((b - a) * (b - a)) (mul_self_nonneg _)
  have hs : _v_len_between sqrt ⟨a, y⟩ ⟨b, y⟩ = sqrt ((b - a) * (b - a)) := by
    simp [_v_len_between, _v_len, _v_dif_between]
  rw [hs]
  have h2 : sqrt ((b - a) * (b - a)) * sqrt ((b - a) * (b - a)) = |b - a| * |b - a| := by
    rw [h.2, abs_mul_abs_self]
  rcases mul_self_eq_mul_self_iff.mp h2 with h1 | h1
  · exact h1
  · have h3 := h.1
    rw [h1] at h3
    have h4 : |b - a| = 0 := le_antisymm (by linarith) (abs_nonneg _)
    rw [h1, h4, neg_zero]

theorem stepper_example_at_zero :
    Spline.at Real.sqrt (stepper_example ℝ) 0 = .ok ⟨some ⟨0, 0⟩, 1⟩ := by
  have h := at_knot_of_mode Real.sqrt (stepper_example ℝ) 0 (by decide) (by decide)
    (by decide)
  simpa [stepper_example, Point.xy] using h

theorem stepper_example_at_half :
    Spline.at Real.sqrt (stepper_example ℝ) (1 / 2) = .ok ⟨some ⟨3, 0⟩, 1⟩ := by
  have h := at_knot_of_mode Real.sqrt (stepper_example ℝ) 3 (by decide) (by decide)
    (by decide)
  have e : ((((3 : ℕ) : ℤ) : ℝ) / (((((stepper_example ℝ).points.length : ℤ) - 1 : ℤ)) : ℝ))
      = 1 / 2 := by
    norm_num [stepper_example]
  rw [e] at h
  simpa [stepper_example, Point.xy] using h

theorem stepper_example_at_one :
    Spline.at Real.sqrt (stepper_example ℝ) 1 = .ok ⟨some ⟨6, 0⟩, 1⟩ := by
  have h := at_knot_of_mode Real.sqrt (stepper_example ℝ) 6 (by decide) (by decide)
    (by decide)
  have e : ((((6 : ℕ) : ℤ) : ℝ) / (((((stepper_example ℝ).points.length : ℤ) - 1 : ℤ)) : ℝ))
      = 1 := by
    norm_num [stepper_example]
  rw [e] at h
  simpa [stepper_example, Point.xy] using h

/-- C9 fails: on seven points one unit apart (Linear mode, `step = 5`,
`iteration_limit = 3`), from `t_current = 0` the loop samples `t = 1` (measured
step 6) and then `t = 1/2` (measured step 3), stops because `refine` has reached
the limit, and returns the last sample `t = 1/2`, although the first one was
nearer to the target step 5. -/
theorem iterate_next_point_returns_last_not_best :
    iterate_next_point_state Real.sqrt (stepper_example ℝ) 0
      = .ok ⟨1 / 2, some 3, 3, some ⟨some ⟨3, 0⟩, 1⟩, [(1 / 2, some 3), (1, some 6)]⟩ ∧
    iterate_next_point Real.sqrt (stepper_example ℝ) 0
      = .ok (1 / 2, some ⟨some ⟨3, 0⟩, 1⟩) ∧
    (stepper_example ℝ).iteration_limit = 3 ∧
    |(6 : ℝ) - (stepper_example ℝ).step| < |(3 : ℝ) - (stepper_example ℝ).step| := by
  have hc0 : iterate_cond (stepper_example ℝ)
      ((stepper_example ℝ).step * (1 + (stepper_example ℝ).tolerance_factor))
      ((stepper_example ℝ).step * (1 - (stepper_example ℝ).tolerance_factor))
      ⟨0, some 0, 1, none, []⟩ := by
    refine ⟨by decide, Or.inl ?_⟩
    show (0 : ℝ) < _
    norm_num [stepper_example]
  have hrt0 : round_t (stepper_example ℝ) 0
      ((stepper_example ℝ).step * (1 + (stepper_example ℝ).tolerance_factor))
      ((stepper_example ℝ).step * (1 - (stepper_example ℝ).tolerance_factor)) 1
      ⟨0, some 0, 1, none, []⟩ = 1 := by
    have hlt : nan_lt (some (0 : ℝ))
        ((stepper_example ℝ).step * (1 - (stepper_example ℝ).tolerance_factor)) := by
      show (0 : ℝ) < _
      norm_num [stepper_example]
    unfold round_t
    rw [if_pos hlt]
    norm_num [stepper_example]
  have hsl0 : sample_len_between Real.sqrt (⟨some ⟨6, 0⟩, 1⟩ : Sample ℝ) ⟨some ⟨0, 0⟩, 1⟩
      = some 6 := by
    show some (_v_len_between Real.sqrt ⟨6, 0⟩ ⟨0, 0⟩) = some 6
    rw [v_len_between_horizontal Real.sqrt real_isSqrt]
    norm_num
  have hc1 : iterate_cond (stepper_example ℝ)
      ((stepper_example ℝ).step * (1 + (stepper_example ℝ).tolerance_factor))
      ((stepper_example ℝ).step * (1 - (stepper_example ℝ).tolerance_factor))
      ⟨1, some 6, 2, some ⟨some ⟨6, 0⟩, 1⟩, [(1, some 6)]⟩ := by
    refine ⟨by decide, Or.inr ?_⟩
    show (6 : ℝ) > _
    norm_num [stepper_example]
  have hrt1 : round_t (stepper_example ℝ) 0
      ((stepper_example ℝ).step * (1 + (stepper_example ℝ).tolerance_factor))
      ((stepper_example ℝ).step * (1 - (stepper_example ℝ).tolerance_factor)) 1
      ⟨1, some 6, 2, some ⟨some ⟨6, 0⟩, 1⟩, [(1, some 6)]⟩ = 1 / 2 := by
    have hnlt : ¬ nan_lt (some (6 : ℝ))
        ((stepper_example ℝ).step * (1 - (stepper_example ℝ).tolerance_factor)) := by
      show ¬ ((6 : ℝ) < _)
      norm_num [stepper_example]
    have hgt : nan_gt (some (6 : ℝ))
        ((stepper_example ℝ).step * (1 + (stepper_example ℝ).tolerance_factor)) := by
      show (6 : ℝ) > _
      norm_num [stepper_example]
    unfold round_t
    rw [if_neg hnlt, if_pos hgt]
    norm_num [stepper_example]
  have hsl1 : sample_len_between Real.sqrt (⟨some ⟨3, 0⟩, 1⟩ : Sample ℝ) ⟨some ⟨0, 0⟩, 1⟩
      = some 3 := by
    show some (_v_len_between Real.sqrt ⟨3, 0⟩ ⟨0, 0⟩) = some 3
    rw [v_len_between_horizontal Real.sqrt real_isSqrt]
    norm_num
  have hstate : iterate_next_point_state Real.sqrt (stepper_example ℝ) 0
      = .ok ⟨1 / 2, some 3, 3, some ⟨some ⟨3, 0⟩, 1⟩, [(1 / 2, some 3), (1, some 6)]⟩ := by
    unfold iterate_next_point_state
    simp only [stepper_example_at_zero, bind, Except.bind]
    rw [iterate_loop_step Real.sqrt (stepper_example ℝ) 0 ⟨some ⟨0, 0⟩, 1⟩ _ _ 1
      ⟨0, some 0, 1, none, []⟩ hc0 one_ne_zero ⟨some ⟨6, 0⟩, 1⟩
      (by rw [hrt0]; exact stepper_example_at_one), hrt0, hsl0]
    rw [iterate_loop_step Real.sqrt (stepper_example ℝ) 0 ⟨some ⟨0, 0⟩, 1⟩ _ _ 1
      ⟨1, some 6, 2, some ⟨some ⟨6, 0⟩, 1⟩, [(1, some 6)]⟩ hc1 one_ne_zero ⟨some ⟨3, 0⟩, 1⟩
      (by rw [hrt1]; exact stepper_example_at_half), hrt1, hsl1]
    apply iterate_loop_stop
    rintro ⟨h, _⟩
    exact absurd h (by decide)
  refine ⟨hstate, ?_, rfl, by norm_num [stepper_example]⟩
  unfold iterate_next_point
  simp only [hstate, bind, Except.bind, pure, Except.pure]

/-- C9 (amended): for every curve with `step > 0`, `tolerance_factor < 1`,
`iteration_limit ≥ 2` and weights at least 1, and every `t_current`,
`iterate_next_point` returns the parameter sampled in its last round, with
`pos_next = at(t_next)`: the returned pair heads the history of the samples, which
has `refine - 1` entries, `iteration_limit - 1` when the limit is reached. -/
theorem iterate_next_point_returns_last (sqrt : K → K) (s : Spline K) (t_current : K)
    (hn : 1 ≤ s.points.length) (hstep : 0 < s.step) (hw : ∀ p ∈ s.points, 1 ≤ p.w)
    (htol : s.tolerance_factor < 1) (hlimit : 2 ≤ s.iteration_limit) :
    ∃ pos st np rest, Spline.at sqrt s t_current = .ok pos ∧
      iterate_next_point_state sqrt s t_current = .ok st ∧
      iterate_next_point sqrt s t_current = .ok (st.t, some np) ∧
      Spline.at sqrt s st.t = .ok np ∧
      st.sampled = (st.t, sample_len_between sqrt np pos) :: rest ∧
      st.sampled.length + 1 = st.refine ∧
      (st.refine = s.iteration_limit → st.sampled.length = s.iteration_limit - 1) := by
  obtain ⟨pos, st, np, rest, hpos, hst, hr, hnp, htaken, hsampled, hlen, _⟩ :=
    iterate_next_point_rounds sqrt s t_current hn hstep hw htol hlimit
  refine ⟨pos, st, np, rest, hpos, hst, hr, hnp, by rw [hsampled, htaken], hlen, ?_⟩
  intro h
  omega

theorem iterate_next_point_returns_last_witness :
    1 ≤ (stepper_example ℝ).points.length ∧ 0 < (stepper_example ℝ).step ∧
    (∀ p ∈ (stepper_example ℝ).points, 1 ≤ p.w) ∧
    (stepper_example ℝ).tolerance_factor < 1 ∧ 2 ≤ (stepper_example ℝ).iteration_limit ∧
    ∃ pos st np rest, Spline.at Real.sqrt (stepper_example ℝ) 0 = .ok pos ∧
      iterate_next_point_state Real.sqrt (stepper_example ℝ) 0 = .ok st ∧
      iterate_next_point Real.sqrt (stepper_example ℝ) 0 = .ok (st.t, some np) ∧
      Spline.at Real.sqrt (stepper_example ℝ) st.t = .ok np ∧
      st.sampled = (st.t, sample_len_between Real.sqrt np pos) :: rest ∧
      st.sampled.length + 1 = st.refine ∧
      (st.refine = (stepper_example ℝ).iteration_limit →
        st.sampled.length = (stepper_example ℝ).iteration_limit - 1) :=
  ⟨by decide, by norm_num [stepper_example], by norm_num [stepper_example],
    by norm_num [stepper_example], by decide,
    iterate_next_point_returns_last Real.sqrt (stepper_example ℝ) 0 (by decide)
      (by norm_num [stepper_example]) (by norm_num [stepper_example])
      (by norm_num [stepper_example]) (by decide)⟩

/-! ## The polyline producer -/

/-- With `iteration_limit ≤ 1` the loop of `iterate_next_point` runs no round:
the parameter comes back unchanged and `next_pos` is still `undefined`. -/
theorem iterate_next_point_no_round (sqrt : K → K) (s : Spline K) (t : K)
    (hn : 1 ≤ s.points.length) (hlimit : s.iteration_limit ≤ 1) :
    iterate_next_point sqrt s t = .ok (t, none) := by
  obtain ⟨pos, hpos⟩ := at_ok sqrt s t hn
  unfold iterate_next_point iterate_next_point_state
  simp only [hpos, bind, Except.bind]
  rw [iterate_loop_stop]
  · rfl
  · rintro ⟨h, _⟩
    have h2 : (1 : ℕ) < s.iteration_limit := h
    omega

/-- With `iteration_limit ≤ 1` the loop of `to_points` is still running after any
number of rounds. -/
theorem to_points_loop_no_round (sqrt : K → K) (s : Spline K)
    (hn : 1 ≤ s.points.length) (hlimit : s.iteration_limit ≤ 1) :
    ∀ (fuel : ℕ) (spline_points : List (Option (Sample K))),
      to_points_loop sqrt s fuel 0 spline_points = none := by
  intro fuel
  induction fuel with
  | zero =>
    intro acc
    unfold to_points_loop
    simp
  | succ fuel ih =>
    intro acc
    unfold to_points_loop
    simp only [iterate_next_point_no_round sqrt s 0 hn hlimit]
    rw [if_pos ⟨le_rfl, zero_lt_one⟩]
    exact ih _

theorem to_points_no_round (sqrt : K → K) (s : Spline K)
    (hn : 1 ≤ s.points.length) (hlimit : s.iteration_limit ≤ 1) (fuel : ℕ) :
    to_points sqrt s fuel = none := by
  obtain ⟨pos, hpos⟩ := at_ok sqrt s 0 hn
  unfold to_points
  simp only [hpos]
  exact to_points_loop_no_round sqrt s hn hlimit fuel _

/-- C10 fails for `iteration_limit = 1`: on the two-point curve with that limit,
`iterate_next_point(0)` returns `[0, undefined]`, so `t` never leaves 0 and the loop
of `to_points` is still running after any number of rounds. -/
theorem to_points_stalls :
    0 < (stall_example ℝ).step ∧ 0 ≤ (stall_example ℝ).tolerance_factor ∧
    (stall_example ℝ).tolerance_factor < 1 ∧ (stall_example ℝ).iteration_limit = 1 ∧
    iterate_next_point Real.sqrt (stall_example ℝ) 0 = .ok (0, none) ∧
    ∀ fuel : ℕ, to_points Real.sqrt (stall_example ℝ) fuel = none :=
  ⟨by norm_num [stall_example], by norm_num [stall_example], by norm_num [stall_example],
    rfl, iterate_next_point_no_round Real.sqrt (stall_example ℝ) 0 (by decide) (by decide),
    to_points_no_round Real.sqrt (stall_example ℝ) (by decide) (by decide)⟩

/-! ## The point store: `recalculate` and the constructor -/

theorem write_weight_length (ident : ℕ → ℕ) (points : List (Point K)) (i : ℕ) (w : K) :
    (write_weight ident points i w).length = points.length := by
  unfold write_weight
  rw [List.length_mapIdx]

theorem write_weight_getElem? (ident : ℕ → ℕ) (points : List (Point K)) (i : ℕ) (w : K)
    (j : ℕ) (pj : Point K) (h : points[j]? = some pj) :
    (write_weight ident points i w)[j]?
      = some (if ident j = ident i then ⟨pj.x, pj.y, w⟩ else pj) := by
  unfold write_weight
  rw [List.getElem?_mapIdx, h]
  rfl

theorem write_weight_xy (c : Prop) [Decidable c] (p : Point K) (w : K) :
    (if c then (⟨p.x, p.y, w⟩ : Point K) else p).xy = p.xy := by
  split <;> rfl

theorem recalculate_loop_length (sqrt : K → K) (ident : ℕ → ℕ) :
    ∀ (m : ℕ) (points : List (Point K)) (i : ℕ), points.length - i = m →
      (recalculate_loop sqrt ident points i).length = points.length := by
  intro m
  induction m using Nat.strong_induction_on with
  | _ m ih =>
    intro points i hm
    rw [recalculate_loop]
    by_cases h : i + 1 < points.length
    · rw [dif_pos h]
      have := ih (points.length - (i + 1)) (by omega)
        (write_weight ident points i
          (Max.max 1 (_v_len_between sqrt (points.get ⟨i, Nat.lt_of_succ_lt h⟩).xy
            (points.get ⟨i + 1, h⟩).xy))) (i + 1) (by rw [write_weight_length])
      rw [write_weight_length] at this
      exact this
    · rw [dif_neg h]

/-- The array left by the `for` loop of `recalculate` started at index `i`: every
entry keeps its coordinates; an entry whose array object is at none of the indices
still to visit keeps its weight; otherwise its weight is the one written at the
last visited index `i'` that holds its array object, `max(1, distance from point
i' to point i'+1)`. -/
theorem recalculate_loop_spec (sqrt : K → K) (ident : ℕ → ℕ) :
    ∀ (m : ℕ) (points : List (Point K)) (i : ℕ), points.length - i = m →
      ∀ (j : ℕ) (pj : Point K), points[j]? = some pj →
        ∃ r, (recalculate_loop sqrt ident points i)[j]? = some r ∧
          r.x = pj.x ∧ r.y = pj.y ∧
          ((∀ i', i ≤ i' → i' + 1 < points.length → ident i' ≠ ident j) → r.w = pj.w) ∧
          (∀ (i' : ℕ) (p' q' : Point K), i ≤ i' → ident i' = ident j →
            (∀ k, i' < k → k + 1 < points.length → ident k ≠ ident j) →
            points[i']? = some p' → points[i' + 1]? = some q' →
            r.w = Max.max 1 (_v_len_between sqrt p'.xy q'.xy)) := by
  intro m
  induction m using Nat.strong_induction_on with
  | _ m ih =>
    intro points i hm j pj hpj
    rw [recalculate_loop]
    by_cases h : i + 1 < points.length
    · rw [dif_pos h]
      have hi : i < points.length := Nat.lt_of_succ_lt h
      have hpi : points[i]? = some (points.get ⟨i, hi⟩) := by
        simp [List.getElem?_eq_getElem hi]
      have hpi1 : points[i + 1]? = some (points.get ⟨i + 1, h⟩) := by
        simp [List.getElem?_eq_getElem h]
      obtain ⟨r, hr, hx, hy, ha, hb⟩ := ih (points.length - (i + 1)) (by omega)
        (write_weight ident points i
          (Max.max 1 (_v_len_between sqrt (points.get ⟨i, hi⟩).xy (points.get ⟨i + 1, h⟩).xy)))
        (i + 1) (by rw [write_weight_length]) j _
        (write_weight_getElem? ident points i _ j pj hpj)
      rw [write_weight_length] at ha hb
      refine ⟨r, hr, ?_, ?_, ?_, ?_⟩
      · rw [hx]
        split <;> rfl
      · rw [hy]
        split <;> rfl
      · intro hno
        rw [ha (fun i' hi' h' => hno i' (by omega) h')]
        rw [if_neg (fun e => hno i le_rfl h e.symm)]
      · intro i' p' q' hi' hid hlast hp' hq'
        by_cases hii : i' = i
        · subst hii
          rw [ha (fun k hk h' => hlast k (by omega) h')]
          rw [if_pos hid.symm]
          rw [hpi] at hp'
          rw [hpi1] at hq'
          injection hp' with hp'
          injection hq' with hq'
          rw [← hp', ← hq']
        · have := hb i' _ _ (by omega) hid (fun k hk h' => hlast k hk h')
            (write_weight_getElem? ident points i _ i' p' hp')
            (write_weight_getElem? ident points i _ (i' + 1) q' hq')
          rw [this, write_weight_xy, write_weight_xy]
    · rw [dif_neg h]
      refine ⟨pj, hpj, rfl, rfl, fun _ => rfl, ?_⟩
      intro i' p' q' hi' _ _ _ hq'
      have := (List.getElem?_eq_some.mp hq').1
      omega

/-- Every index has a last index that holds the same array object. -/
theorem last_alias (ident : ℕ → ℕ) (n : ℕ) :
    ∀ (m j : ℕ), n - j = m → j < n →
      ∃ jl, j ≤ jl ∧ jl < n ∧ ident jl = ident j ∧
        ∀ k, jl < k → k < n → ident k ≠ ident j := by
  intro m
  induction m using Nat.strong_induction_on with
  | _ m ih =>
    intro j hm hj
    by_cases h : ∃ k, j < k ∧ k < n ∧ ident k = ident j
    · obtain ⟨k, hjk, hkn, hk⟩ := h
      obtain ⟨jl, h1, h2, h3, h4⟩ := ih (n - k) (by omega) k rfl hkn
      exact ⟨jl, by omega, h2, by rw [h3, hk], fun k' hk' hk'n => by rw [← hk]; exact h4 k' hk' hk'n⟩
    · exact ⟨j, le_rfl, hj, rfl, fun k hk hkn hid => h ⟨k, hk, hkn, hid⟩⟩

/-- What `recalculate` leaves, on an array with a point: the length and every
coordinate are kept, and the weight at index `j` is the one written at the last
index `jl` that holds the array object of index `j`: `max(1, distance from point
jl to point jl+1)` when `jl` is not the last index, 1 when it is. -/
theorem recalculate_points_spec (sqrt : K → K) (ident : ℕ → ℕ) (points : List (Point K))
    (hn : 1 ≤ points.length) :
    ∃ r, recalculate_points sqrt ident points = .ok r ∧ r.length = points.length ∧
      ∀ (j : ℕ) (pj : Point K), points[j]? = some pj →
        ∃ rj, r[j]? = some rj ∧ rj.x = pj.x ∧ rj.y = pj.y ∧
          ∀ (jl : ℕ) (pl : Point K), points[jl]? = some pl → ident jl = ident j →
            (∀ k, jl < k → k < points.length → ident k ≠ ident j) →
            (∀ q, points[jl + 1]? = some q →
              rj.w = Max.max 1 (_v_len_between sqrt pl.xy q.xy)) ∧
            (jl + 1 = points.length → rj.w = 1) := by
  have hlen := recalculate_loop_length sqrt ident _ points 0 rfl
  obtain ⟨p, hp⟩ := lookup_ok (recalculate_loop sqrt ident points 0)
    (((recalculate_loop sqrt ident points 0).length : ℤ) - 1) (by omega) le_rfl
  refine ⟨write_weight ident (recalculate_loop sqrt ident points 0)
      ((recalculate_loop sqrt ident points 0).length - 1) 1,
    by unfold recalculate_points; simp only [hp],
    by rw [write_weight_length, hlen], ?_⟩
  intro j pj hpj
  obtain ⟨r, hr, hx, hy, ha, hb⟩ := recalculate_loop_spec sqrt ident _ points 0 rfl j pj hpj
  refine ⟨_, write_weight_getElem? ident _ _ 1 j r hr, ?_, ?_, ?_⟩
  · rw [← hx]
    split <;> rfl
  · rw [← hy]
    split <;> rfl
  · intro jl pl hpl hid hlast
    have hjl : jl < points.length := (List.getElem?_eq_some.mp hpl).1
    rw [hlen]
    by_cases hend : jl + 1 = points.length
    · have e : points.length - 1 = jl := by omega
      rw [e, if_pos hid.symm]
      refine ⟨?_, fun _ => rfl⟩
      intro q hq
      have := (List.getElem?_eq_some.mp hq).1
      omega
    · have hne : ident j ≠ ident (points.length - 1) := fun e =>
        hlast (points.length - 1) (by omega) (by omega) e.symm
      rw [if_neg hne]
      refine ⟨?_, fun h => absurd h hend⟩
      intro q hq
      exact hb jl pl q (Nat.zero_le _) hid (fun k hk hk1 => hlast k hk (by omega)) hpl hq

/-- After `recalculate` every weight is at least 1. -/
theorem recalculate_points_weight_ge (sqrt : K → K) (ident : ℕ → ℕ)
    (points r : List (Point K)) (hn : 1 ≤ points.length)
    (hr : recalculate_points sqrt ident points = .ok r) (j : ℕ) (rj : Point K)
    (hrj : r[j]? = some rj) : 1 ≤ rj.w := by
  obtain ⟨r2, hr2, hlen, hspec⟩ := recalculate_points_spec sqrt ident points hn
  rw [hr] at hr2
  injection hr2 with hr2
  subst hr2
  have hj : j < points.length := by
    rw [← hlen]
    exact (List.getElem?_eq_some.mp hrj).1
  obtain ⟨rj2, hrj2, _, _, hw⟩ := hspec j (points.get ⟨j, hj⟩)
    (by simp [List.getElem?_eq_getElem hj])
  rw [hrj] at hrj2
  injection hrj2 with hrj2
  subst hrj2
  obtain ⟨jl, _, hjl, hid, hlast⟩ := last_alias ident points.length _ j rfl hj
  have h := hw jl (points.get ⟨jl, hjl⟩) (by simp [List.getElem?_eq_getElem hjl]) hid hlast
  by_cases hend : jl + 1 = points.length
  · rw [h.2 hend]
  · have hq : jl + 1 < points.length := by omega
    rw [h.1 (points.get ⟨jl + 1, hq⟩) (by simp [List.getElem?_eq_getElem hq])]
    exact le_max_left _ _

/-- When the point arrays are different objects, the array that `recalculate`
leaves has the entries of `recalculated_at`. -/
theorem recalculate_points_getElem? (sqrt : K → K) (ident : ℕ → ℕ)
    (hident : ∀ a b, ident a = ident b → a = b) (points : List (Point K))
    (hn : 1 ≤ points.length) :
    ∃ r, recalculate_points sqrt ident points = .ok r ∧ r.length = points.length ∧
      ∀ j : ℕ, r[j]? = recalculated_at sqrt points j := by
  obtain ⟨r, hr, hlen, hspec⟩ := recalculate_points_spec sqrt ident points hn
  refine ⟨r, hr, hlen, ?_⟩
  intro j
  unfold recalculated_at
  cases hpj : points[j]? with
  | none =>
    have : points.length ≤ j := List.getElem?_eq_none_iff.mp hpj
    exact List.getElem?_eq_none (by omega)
  | some pj =>
    obtain ⟨rj, hrj, hx, hy, hw⟩ := hspec j pj hpj
    have h := hw j pj hpj rfl (fun k hk _ e => by have := hident k j e; omega)
    have hj : j < points.length := (List.getElem?_eq_some.mp hpj).1
    rw [hrj]
    cases hq : points[j + 1]? with
    | none =>
      have hend : j + 1 = points.length := by
        have : points.length ≤ j + 1 := List.getElem?_eq_none_iff.mp hq
        omega
      have hw1 := h.2 hend
      cases rj with
      | mk x y w =>
        simp only at hx hy hw1
        rw [hx, hy, hw1]
    | some q =>
      have hw1 := h.1 q hq
      cases rj with
      | mk x y w =>
        simp only at hx hy hw1
        rw [hx, hy, hw1]

theorem point_eq (a b : Point K) (hx : a.x = b.x) (hy : a.y = b.y) (hw : a.w = b.w) :
    a = b := by
  cases a
  cases b
  simp only at hx hy hw
  rw [hx, hy, hw]

theorem xy_eq (a b : Point K) (hx : a.x = b.x) (hy : a.y = b.y) : a.xy = b.xy := by
  unfold Point.xy
  rw [hx, hy]

/-- A second run of `recalculate` leaves the array of the first run, whichever
indices share an array object. -/
theorem recalculate_points_idem (sqrt : K → K) (ident : ℕ → ℕ) (points r : List (Point K))
    (hn : 1 ≤ points.length) (hr : recalculate_points sqrt ident points = .ok r) :
    recalculate_points sqrt ident r = .ok r := by
  obtain ⟨r1, hr1, hlen1, hs1⟩ := recalculate_points_spec sqrt ident points hn
  rw [hr] at hr1
  injection hr1 with hr1
  subst hr1
  obtain ⟨r2, hr2, hlen2, hs2⟩ := recalculate_points_spec sqrt ident r (by omega)
  rw [hr2]
  congr 1
  apply List.ext_getElem?
  intro j
  by_cases hj : j < points.length
  · have hpj : points[j]? = some (points.get ⟨j, hj⟩) := by
      simp [List.getElem?_eq_getElem hj]
    obtain ⟨rj1, hrj1, hx1, hy1, hw1⟩ := hs1 j _ hpj
    obtain ⟨rj2, hrj2, hx2, hy2, hw2⟩ := hs2 j rj1 hrj1
    obtain ⟨jl, _, hjl, hid, hlast⟩ := last_alias ident points.length _ j rfl hj
    have hpl : points[jl]? = some (points.get ⟨jl, hjl⟩) := by
      simp [List.getElem?_eq_getElem hjl]
    obtain ⟨rl, hrl, hxl, hyl, _⟩ := hs1 jl _ hpl
    have h1 := hw1 jl _ hpl hid hlast
    have h2 := hw2 jl rl hrl hid (fun k hk hkn => hlast k hk (by omega))
    rw [hrj2, hrj1]
    congr 1
    apply point_eq _ _ hx2 hy2
    by_cases hend : jl + 1 = points.length
    · rw [h1.2 hend, h2.2 (by omega)]
    · have hq : jl + 1 < points.length := by omega
      have hpq : points[jl + 1]? = some (points.get ⟨jl + 1, hq⟩) := by
        simp [List.getElem?_eq_getElem hq]
      obtain ⟨rq, hrq, hxq, hyq, _⟩ := hs1 (jl + 1) _ hpq
      rw [h1.1 _ hpq, h2.1 rq hrq, xy_eq rl _ hxl hyl, xy_eq rq _ hxq hyq]
  · rw [List.getElem?_eq_none (by omega), List.getElem?_eq_none (by omega)]

/-- C11: `recalculate` is idempotent: on a curve with `n ≥ 2` points, whichever
indices hold the same array object, applying it twice leaves exactly the point
store (coordinates and weights) that applying it once leaves. -/
theorem recalculate_idempotent (sqrt : K → K) (ident : ℕ → ℕ) (s : Spline K)
    (hn : 2 ≤ s.points.length) :
    ∃ s1, recalculate sqrt ident s = .ok s1 ∧ recalculate sqrt ident s1 = .ok s1 := by
  obtain ⟨r, hr, hlen, _⟩ := recalculate_points_spec sqrt ident s.points (by omega)
  have hr2 := recalculate_points_idem sqrt ident s.points r (by omega) hr
  refine ⟨{ s with points := r }, ?_, ?_⟩
  · unfold recalculate
    simp only [hr]
  · unfold recalculate
    simp only [hr2]

theorem recalculate_idempotent_witness :
    2 ≤ (header_example ℝ).points.length ∧
    (∃ s1, recalculate Real.sqrt (fun j => j) (header_example ℝ) = .ok s1 ∧
      recalculate Real.sqrt (fun j => j) s1 = .ok s1) ∧
    ∃ s1, recalculate Real.sqrt shared_ident (shared_example ℝ) = .ok s1 ∧
      recalculate Real.sqrt shared_ident s1 = .ok s1 :=
  ⟨by decide, recalculate_idempotent Real.sqrt (fun j => j) (header_example ℝ) (by decide),
    recalculate_idempotent Real.sqrt shared_ident (shared_example ℝ) (by decide)⟩

theorem fill_points_nil : fill_points ([] : List (Point K)) = [⟨0, 0, 0⟩, ⟨0, 1, 0⟩] := by
  rw [fill_points, if_pos (by simp)]
  rw [fill_points, if_pos (by simp)]
  rw [fill_points, if_neg (by simp)]
  simp

theorem fill_points_one (p : Point K) : fill_points [p] = [p, ⟨0, 1, 0⟩] := by
  rw [fill_points, if_pos (by simp)]
  rw [fill_points, if_neg (by simp)]
  simp

theorem fill_points_of_two_le (points : List (Point K)) (h : 2 ≤ points.length) :
    fill_points points = points := by
  rw [fill_points, if_neg (by omega)]

theorem fill_points_two_le (points : List (Point K)) : 2 ≤ (fill_points points).length := by
  match points with
  | [] => rw [fill_points_nil]; simp
  | [p] => rw [fill_points_one]; simp
  | p :: q :: rest =>
    rw [fill_points_of_two_le _ (by simp)]
    simp

/-- What `recalculate` leaves on the three arrays `[a, [10,0], a]` with `a = [0,0]`:
the weight 1 of the last point is written into `a`, the array of point 0. -/
theorem shared_example_points (w0 w1 : ℝ) :
    recalculate_points Real.sqrt shared_ident [⟨0, 0, w0⟩, ⟨10, 0, w1⟩, ⟨0, 0, w0⟩]
      = .ok (shared_example ℝ).points := by
  obtain ⟨r, hr, hlen, hs⟩ := recalculate_points_spec Real.sqrt shared_ident
    [⟨0, 0, w0⟩, ⟨10, 0, w1⟩, ⟨0, 0, w0⟩] (by simp)
  rw [hr]
  congr 1
  have hd : Max.max (1 : ℝ) (_v_len_between Real.sqrt (⟨10, 0⟩ : Vec2 ℝ) ⟨0, 0⟩) = 10 := by
    rw [v_len_between_horizontal Real.sqrt real_isSqrt]
    norm_num
  match r, hlen, hs with
  | [r0, r1, r2], _, hs =>
    obtain ⟨a0, ha0, hx0, hy0, hw0⟩ := hs 0 ⟨0, 0, w0⟩ rfl
    obtain ⟨a1, ha1, hx1, hy1, hw1⟩ := hs 1 ⟨10, 0, w1⟩ rfl
    obtain ⟨a2, ha2, hx2, hy2, hw2⟩ := hs 2 ⟨0, 0, w0⟩ rfl
    have e0 : r0 = a0 := by simpa using ha0
    have e1 : r1 = a1 := by simpa using ha1
    have e2 : r2 = a2 := by simpa using ha2
    subst e0 e1 e2
    have k0 := (hw0 2 ⟨0, 0, w0⟩ rfl (by decide) (fun k h1 h2 => by
      simp only [List.length_cons, List.length_nil] at h2
      omega)).2 rfl
    have k1 := (hw1 1 ⟨10, 0, w1⟩ rfl rfl (fun k h1 h2 => by
      simp only [List.length_cons, List.length_nil] at h2
      have : k = 2 := by omega
      subst this
      decide)).1 ⟨0, 0, w0⟩ rfl
    have k2 := (hw2 2 ⟨0, 0, w0⟩ rfl rfl (fun k h1 h2 => by
      simp only [List.length_cons, List.length_nil] at h2
      omega)).2 rfl
    rw [show (⟨10, 0, w1⟩ : Point ℝ).xy = ⟨10, 0⟩ from rfl,
      show (⟨0, 0, w0⟩ : Point ℝ).xy = ⟨0, 0⟩ from rfl, hd] at k1
    unfold shared_example
    simp only
    rw [point_eq r0 ⟨0, 0, 1⟩ hx0 hy0 k0, point_eq r1 ⟨10, 0, 10⟩ hx1 hy1 k1,
      point_eq r2 ⟨0, 0, 1⟩ hx2 hy2 k2]

/-- The constructor on an array of at least two points, from the array that
`recalculate` leaves. -/
theorem new_eq_of_recalculate (sqrt : K → K) (ident : ℕ → ℕ) (points : List (Vec2 K))
    (step tolerance : Option K) (iteration_limit : Option ℕ)
    (spline_type : Option SplineType) (expected : List (Point K)) (hn : 2 ≤ points.length)
    (h : recalculate_points sqrt ident (points.map fun v => ⟨v.x, v.y, 0⟩) = .ok expected) :
    Spline.new sqrt ident (some points) step tolerance iteration_limit spline_type = .ok
      { points := expected
        step := match step with
          | some step => step
          | none => 3
        tolerance_factor := match tolerance with
          | some tolerance => tolerance
          | none => 0.025
        iteration_limit := match iteration_limit with
          | some iteration_limit => iteration_limit
          | none => 20
        spline_type := match spline_type with
          | some spline_type => spline_type
          | none => spline_type_normalised_dif } := by
  have hlen : 2 ≤ (points.map fun v => (⟨v.x, v.y, 0⟩ : Point K)).length := by
    rw [List.length_map]
    exact hn
  have hlt : ¬ (points.map fun v => (⟨v.x, v.y, 0⟩ : Point K)).length < 2 := by omega
  unfold Spline.new recalculate
  simp only [fill_points_of_two_le _ hlen, if_neg hlt, h]

/-- C12, counterexample: `var a = [0,0]; new Spline([a, [10,0], a])` returns the
curve `shared_example` of 3 points, and `recalculate` leaves that curve as it is;
point 0 is not the last point and lies at distance 10 from point 1, yet its
weight is 1 and not `max(1, 10)`: the weight 1 of the last point is written into
the array `a`, which is the array of point 0 as well. -/
theorem recalculate_weights_shared_array :
    Spline.new Real.sqrt shared_ident (some [⟨0, 0⟩, ⟨10, 0⟩, ⟨0, 0⟩]) none none none none
      = .ok (shared_example ℝ) ∧
    recalculate Real.sqrt shared_ident (shared_example ℝ) = .ok (shared_example ℝ) ∧
    (shared_example ℝ).points.length = 3 ∧
    ∃ p q, (shared_example ℝ).points[0]? = some p ∧ (shared_example ℝ).points[1]? = some q ∧
      p.w = 1 ∧ Max.max 1 (_v_len_between Real.sqrt p.xy q.xy) = 10 ∧
      p.w ≠ Max.max 1 (_v_len_between Real.sqrt p.xy q.xy) := by
  have hd : Max.max (1 : ℝ) (_v_len_between Real.sqrt (⟨0, 0⟩ : Vec2 ℝ) ⟨10, 0⟩) = 10 := by
    rw [v_len_between_horizontal Real.sqrt real_isSqrt]
    norm_num
  refine ⟨?_, ?_, rfl, ⟨0, 0, 1⟩, ⟨10, 0, 10⟩, rfl, rfl, rfl, hd, ?_⟩
  · rw [new_eq_of_recalculate Real.sqrt shared_ident [⟨0, 0⟩, ⟨10, 0⟩, ⟨0, 0⟩] none none none
      none (shared_example ℝ).points (by simp) (shared_example_points 0 0)]
    rfl
  · unfold recalculate
    have h := shared_example_points 1 10
    have e : (shared_example ℝ).points = [⟨0, 0, 1⟩, ⟨10, 0, 10⟩, ⟨0, 0, 1⟩] := rfl
    rw [← e] at h
    simp only [h]
  · show (1 : ℝ) ≠ Max.max 1 (_v_len_between Real.sqrt (⟨0, 0⟩ : Vec2 ℝ) ⟨10, 0⟩)
    rw [hd]
    norm_num

/-- C12 (amended): after `recalculate`, on a curve with `n ≥ 2` points, whichever
indices hold the same array object: the number of points and every `x`, `y` are
unchanged and every weight is at least 1; the weight of point `i` is the one
written at the last index `j ≥ i` that holds the array object of index `i`:
`max(1, distance from point j to point j+1)` when `j < n-1`, and 1 when `j = n-1`.
In particular, when the array of index `i` sits at no later index, the weight of
point `i` is `max(1, distance from point i to point i+1)` for `i < n-1` and 1 for
`i = n-1`. -/
theorem recalculate_weights (sqrt : K → K) (ident : ℕ → ℕ) (s : Spline K)
    (hn : 2 ≤ s.points.length) :
    ∃ s1, recalculate sqrt ident s = .ok s1 ∧
      s1.points.length = s.points.length ∧
      ∀ (i : ℕ) (p : Point K), s.points[i]? = some p →
        ∃ p1, s1.points[i]? = some p1 ∧ p1.x = p.x ∧ p1.y = p.y ∧ 1 ≤ p1.w ∧
          (∃ (j : ℕ) (pj : Point K), i ≤ j ∧ s.points[j]? = some pj ∧ ident j = ident i ∧
            (∀ k, j < k → k < s.points.length → ident k ≠ ident i) ∧
            (∀ q, s.points[j + 1]? = some q →
              p1.w = Max.max 1 (_v_len_between sqrt pj.xy q.xy)) ∧
            (j + 1 = s.points.length → p1.w = 1)) ∧
          ((∀ k, i < k → k < s.points.length → ident k ≠ ident i) →
            (∀ q, s.points[i + 1]? = some q →
              p1.w = Max.max 1 (_v_len_between sqrt p.xy q.xy)) ∧
            (i + 1 = s.points.length → p1.w = 1)) := by
  obtain ⟨r, hr, hlen, hspec⟩ := recalculate_points_spec sqrt ident s.points (by omega)
  refine ⟨{ s with points := r }, ?_, hlen, ?_⟩
  · unfold recalculate
    simp only [hr]
  · intro i p hp
    obtain ⟨p1, hp1, hx, hy, hw⟩ := hspec i p hp
    have hi : i < s.points.length := (List.getElem?_eq_some.mp hp).1
    obtain ⟨j, hij, hj, hid, hlast⟩ := last_alias ident s.points.length _ i rfl hi
    have hpj : s.points[j]? = some (s.points.get ⟨j, hj⟩) := by
      simp [List.getElem?_eq_getElem hj]
    have h1 := hw j _ hpj hid hlast
    exact ⟨p1, hp1, hx, hy,
      recalculate_points_weight_ge sqrt ident s.points r (by omega) hr i p1 hp1,
      ⟨j, _, hij, hpj, hid, hlast, h1.1, h1.2⟩, fun h => hw i p hp rfl h⟩

theorem recalculate_weights_witness :
    2 ≤ (shared_example ℝ).points.length ∧
    ∃ s1, recalculate Real.sqrt shared_ident (shared_example ℝ) = .ok s1 ∧
      s1.points.length = (shared_example ℝ).points.length ∧
      ∀ (i : ℕ) (p : Point ℝ), (shared_example ℝ).points[i]? = some p →
        ∃ p1, s1.points[i]? = some p1 ∧ p1.x = p.x ∧ p1.y = p.y ∧ 1 ≤ p1.w ∧
          (∃ (j : ℕ) (pj : Point ℝ), i ≤ j ∧ (shared_example ℝ).points[j]? = some pj ∧
            shared_ident j = shared_ident i ∧
            (∀ k, j < k → k < (shared_example ℝ).points.length →
              shared_ident k ≠ shared_ident i) ∧
            (∀ q, (shared_example ℝ).points[j + 1]? = some q →
              p1.w = Max.max 1 (_v_len_between Real.sqrt pj.xy q.xy)) ∧
            (j + 1 = (shared_example ℝ).points.length → p1.w = 1)) ∧
          ((∀ k, i < k → k < (shared_example ℝ).points.length →
              shared_ident k ≠ shared_ident i) →
            (∀ q, (shared_example ℝ).points[i + 1]? = some q →
              p1.w = Max.max 1 (_v_len_between Real.sqrt p.xy q.xy)) ∧
            (i + 1 = (shared_example ℝ).points.length → p1.w = 1)) :=
  ⟨by decide, recalculate_weights Real.sqrt shared_ident (shared_example ℝ) (by decide)⟩

theorem recalculate_points_map_xy (points r : List (Point K))
    (hlen : r.length = points.length)
    (hr : ∀ (j : ℕ) (pj : Point K), points[j]? = some pj →
      ∃ rj, r[j]? = some rj ∧ rj.x = pj.x ∧ rj.y = pj.y) :
    r.map Point.xy = points.map Point.xy := by
  apply List.ext_getElem?
  intro j
  rw [List.getElem?_map, List.getElem?_map]
  cases hp : points[j]? with
  | none =>
    have : points.length ≤ j := List.getElem?_eq_none_iff.mp hp
    rw [List.getElem?_eq_none (by omega)]
  | some pj =>
    obtain ⟨rj, hrj, hx, hy⟩ := hr j pj hp
    rw [hrj]
    simp only [Option.map_some', Option.some.injEq]
    exact xy_eq rj pj hx hy

/-- On a curve with a point `recalculate` returns a curve with the same number of
points and the same coordinates, whichever indices hold the same array object. -/
theorem recalculate_keeps_xy (sqrt : K → K) (ident : ℕ → ℕ) (s0 : Spline K)
    (hn : 1 ≤ s0.points.length) :
    ∃ s, recalculate sqrt ident s0 = .ok s ∧ s.points.length = s0.points.length ∧
      s.points.map Point.xy = s0.points.map Point.xy := by
  obtain ⟨r, hr, hlen, hspec⟩ := recalculate_points_spec sqrt ident s0.points hn
  refine ⟨{ s0 with points := r }, ?_, hlen, recalculate_points_map_xy _ r hlen ?_⟩
  · unfold recalculate
    simp only [hr]
  · intro j pj hpj
    obtain ⟨rj, hrj, hx, hy, _⟩ := hspec j pj hpj
    exact ⟨rj, hrj, hx, hy⟩

/-- C13: the constructor always returns a curve with at least 2 control points,
whichever indices of the array passed in hold the same array object: no array or
an empty one becomes `[(0,0),(0,1)]`, a one-point array `[p]` becomes `[p,(0,1)]`,
and an array of 2 or more points keeps its points, in order, with their
coordinates. -/
theorem constructor_points (sqrt : K → K) (ident : ℕ → ℕ) (points : Option (List (Vec2 K)))
    (step tolerance : Option K) (iteration_limit : Option ℕ)
    (spline_type : Option SplineType) :
    ∃ s, Spline.new sqrt ident points step tolerance iteration_limit spline_type = .ok s ∧
      2 ≤ s.points.length ∧
      s.points.map Point.xy =
        (match points with
          | none => [⟨0, 0⟩, ⟨0, 1⟩]
          | some [] => [⟨0, 0⟩, ⟨0, 1⟩]
          | some [p] => [p, ⟨0, 1⟩]
          | some (p :: q :: rest) => p :: q :: rest) := by
  obtain ⟨s, hs, hlen, hxy⟩ := recalculate_keeps_xy sqrt
    (if (match points with
        | some points => points.map fun v : Vec2 K => (⟨v.x, v.y, 0⟩ : Point K)
        | none => []).length < 2 then fun j => j else ident)
    { points := fill_points (match points with
        | some points => points.map fun v => ⟨v.x, v.y, 0⟩
        | none => [])
      step := match step with
        | some step => step
        | none => 3
      tolerance_factor := match tolerance with
        | some tolerance => tolerance
        | none => 0.025
      iteration_limit := match iteration_limit with
        | some iteration_limit => iteration_limit
        | none => 20
      spline_type := match spline_type with
        | some spline_type => spline_type
        | none => spline_type_normalised_dif }
    (le_trans (by decide) (fill_points_two_le _))
  refine ⟨s, hs, ?_, ?_⟩
  · rw [hlen]
    exact fill_points_two_le _
  · rw [hxy]
    match points with
    | none =>
      show (fill_points ([] : List (Point K))).map Point.xy = _
      rw [fill_points_nil]
      rfl
    | some [] =>
      show (fill_points ([] : List (Point K))).map Point.xy = _
      rw [fill_points_nil]
      rfl
    | some [p] =>
      show (fill_points [(⟨p.x, p.y, 0⟩ : Point K)]).map Point.xy = _
      rw [fill_points_one]
      rfl
    | some (p :: q :: rest) =>
      show (fill_points ((p :: q :: rest).map fun v => (⟨v.x, v.y, 0⟩ : Point K))).map
        Point.xy = _
      rw [fill_points_of_two_le _ (by simp)]
      simp only [List.map_map]
      have : (Point.xy ∘ fun v : Vec2 K => (⟨v.x, v.y, 0⟩ : Point K)) = id := by
        funext v
        rfl
      rw [this, List.map_id]

/-! ## The tangent estimator -/

theorem clamp_pred (i n1 : ℤ) (h : i ≤ n1) : _clamp (i - 1) 0 n1 = Max.max (i - 1) 0 := by
  unfold _clamp
  rw [min_eq_left (by omega), max_comm]

theorem clamp_succ (i n1 : ℤ) (h0 : 0 ≤ i) (h1 : 0 ≤ n1) :
    _clamp (i + 1) 0 n1 = Min.min (i + 1) n1 := by
  unfold _clamp
  exact max_eq_right (le_min (by omega) h1)

/-- C14: on a curve with `n ≥ 2` points, for every integer `index`, with
`i = clamp(index, 0, n-1)`, `prev = max(i-1, 0)` and `next = min(i+1, n-1)`,
`tangent_at(index)` is `0.5*((p_i - p_prev) + (p_next - p_i))` in FiniteDifference
mode, `p_next - p_prev` in CatmullRom mode and the zero vector in Linear mode; it
is the tangent at `i`, so an index outside the array gives the tangent of the
nearest endpoint, and at an endpoint the missing neighbour is the endpoint itself. -/
theorem tangent_at_modes (sqrt : K → K) (s : Spline K) (index : ℤ)
    (hn : 2 ≤ s.points.length) :
    let n1 : ℤ := (s.points.length : ℤ) - 1
    let i : ℤ := _clamp index 0 n1
    ∃ pp p pn,
      lookup s.points (Max.max (i - 1) 0) = .ok pp ∧
      lookup s.points i = .ok p ∧
      lookup s.points (Min.min (i + 1) n1) = .ok pn ∧
      (s.spline_type = spline_type_finite_dif →
        tangent_at sqrt s (index : K) = .ok (some
          ⟨0.5 * ((p.x - pp.x) + (pn.x - p.x)), 0.5 * ((p.y - pp.y) + (pn.y - p.y))⟩)) ∧
      (s.spline_type = spline_type_catmull_rom →
        tangent_at sqrt s (index : K) = .ok (some ⟨pn.x - pp.x, pn.y - pp.y⟩)) ∧
      (s.spline_type = spline_type_linear →
        tangent_at sqrt s (index : K) = .ok (some ⟨0, 0⟩)) ∧
      tangent_at sqrt s (index : K) = tangent_at sqrt s ((i : ℤ) : K) ∧
      (i = 0 → pp = p) ∧ (i = n1 → pn = p) := by
  intro n1 i
  have hlo : (0 : ℤ) ≤ n1 := by
    show (0 : ℤ) ≤ (s.points.length : ℤ) - 1
    omega
  have hi0 : 0 ≤ i := clamp_ge _ _ _
  have hi1 : i ≤ n1 := clamp_le _ _ _ hlo
  obtain ⟨pp, hpp⟩ := lookup_ok s.points (Max.max (i - 1) 0) (le_max_right _ _)
    (max_le (by omega) hlo)
  obtain ⟨p, hp⟩ := lookup_ok s.points i hi0 hi1
  obtain ⟨pn, hpn⟩ := lookup_ok s.points (Min.min (i + 1) n1) (le_min (by omega) hlo)
    (min_le_right _ _)
  have hpp2 : lookup s.points (_clamp (_clamp index 0 ((s.points.length : ℤ) - 1) - 1) 0
      ((s.points.length : ℤ) - 1)) = .ok pp := by
    rw [clamp_pred i n1 hi1]
    exact hpp
  have hpn2 : lookup s.points (_clamp (_clamp index 0 ((s.points.length : ℤ) - 1) + 1) 0
      ((s.points.length : ℤ) - 1)) = .ok pn := by
    rw [clamp_succ i n1 hi0 hlo]
    exact hpn
  have hp2 : lookup s.points (_clamp index 0 ((s.points.length : ℤ) - 1)) = .ok p := hp
  refine ⟨pp, p, pn, hpp, hp, hpn, ?_, ?_, ?_, ?_, ?_, ?_⟩
  · intro hmode
    unfold tangent_at
    rw [Int.floor_intCast]
    simp only [hmode, hpp2, hp2, hpn2, bind, Except.bind, pure, Except.pure, if_true,
      _v_dif_between, Point.xy]
  · intro hmode
    unfold tangent_at
    rw [Int.floor_intCast]
    simp only [hmode, hpp2, hpn2, bind, Except.bind, pure, Except.pure,
      _v_dif_between, Point.xy]
  · intro hmode
    exact tangent_at_linear sqrt s _ hmode
  · unfold tangent_at
    rw [Int.floor_intCast, Int.floor_intCast]
    have hc : _clamp i 0 ((s.points.length : ℤ) - 1) = i := clamp_idem index 0 n1 hlo
    rw [hc]
  · intro h
    have e : Max.max (i - 1) 0 = i := by rw [h]; rfl
    rw [e, hp] at hpp
    injection hpp with hpp
    exact hpp.symm
  · intro h
    have e : Min.min (i + 1) n1 = i := by rw [h]; exact min_eq_right (by omega)
    rw [e, hp] at hpn
    injection hpn with hpn
    exact hpn.symm

theorem tangent_at_modes_witness :
    2 ≤ (stepper_example ℝ).points.length ∧
    ∃ pp p pn : Point ℝ,
      lookup (stepper_example ℝ).points
        (Max.max (_clamp 9 0 (((stepper_example ℝ).points.length : ℤ) - 1) - 1) 0) = .ok pp ∧
      lookup (stepper_example ℝ).points
        (_clamp 9 0 (((stepper_example ℝ).points.length : ℤ) - 1)) = .ok p ∧
      lookup (stepper_example ℝ).points
        (Min.min (_clamp 9 0 (((stepper_example ℝ).points.length : ℤ) - 1) + 1)
          (((stepper_example ℝ).points.length : ℤ) - 1)) = .ok pn ∧
      tangent_at Real.sqrt (stepper_example ℝ) ((9 : ℤ) : ℝ) = .ok (some ⟨0, 0⟩) :=
  ⟨by decide,
    (tangent_at_modes Real.sqrt (stepper_example ℝ) 9 (by decide)).elim fun pp h =>
      h.elim fun p h => h.elim fun pn h => ⟨pp, p, pn, h.1, h.2.1, h.2.2.1, h.2.2.2.2.2.1 rfl⟩⟩

/-- A non-negative number whose square is `y` is `sqrt y`. -/
theorem sqrt_eq_of_mul_self (sqrt : K → K) (hsqrt : IsSqrt sqrt) (r y : K) (hr : 0 ≤ r)
    (h : r * r = y) : sqrt y = r := by
  have hy : 0 ≤ y := by rw [← h]; exact mul_self_nonneg r
  have hs := hsqrt y hy
  have h2 : sqrt y * sqrt y = r * r := by rw [hs.2, h]
  rcases mul_self_eq_mul_self_iff.mp h2 with h1 | h1
  · exact h1
  · have h3 := hs.1
    rw [h1] at h3
    have : r = 0 := le_antisymm (by linarith) hr
    rw [h1, this, neg_zero]

theorem v_len_nonneg (sqrt : K → K) (hsqrt : IsSqrt sqrt) (v : Vec2 K) : 0 ≤ _v_len sqrt v :=
  (hsqrt _ (add_nonneg (mul_self_nonneg _) (mul_self_nonneg _))).1

theorem v_len_mul_self (sqrt : K → K) (hsqrt : IsSqrt sqrt) (v : Vec2 K) :
    _v_len sqrt v * _v_len sqrt v = v.x * v.x + v.y * v.y :=
  (hsqrt _ (add_nonneg (mul_self_nonneg _) (mul_self_nonneg _))).2

theorem v_len_ne_zero (sqrt : K → K) (hsqrt : IsSqrt sqrt) (v : Vec2 K)
    (hv : v ≠ ⟨0, 0⟩) : _v_len sqrt v ≠ 0 := by
  intro h
  have h2 := v_len_mul_self sqrt hsqrt v
  rw [h, mul_zero] at h2
  have hx : v.x * v.x = 0 := by nlinarith [mul_self_nonneg v.x, mul_self_nonneg v.y]
  have hy : v.y * v.y = 0 := by nlinarith [mul_self_nonneg v.x, mul_self_nonneg v.y]
  apply hv
  cases v with
  | mk x y =>
    simp only at hx hy
    rw [mul_self_eq_zero.mp hx, mul_self_eq_zero.mp hy]

theorem normalise_len_sq (dx dy D L : K) (hD : D ≠ 0) (hsq : D * D = dx * dx + dy * dy) :
    L * L = dx / D * L * (dx / D * L) + dy / D * L * (dy / D * L) := by
  have h : dx / D * L * (dx / D * L) + dy / D * L * (dy / D * L)
      = (dx * dx + dy * dy) / (D * D) * (L * L) := by
    field_simp
    ring
  rw [h, ← hsq, div_self (mul_ne_zero hD hD), one_mul]

/-- The value of `tangent_at` in NormalizedDifference mode from its three reads,
when the length of the averaged difference is not zero. -/
theorem tangent_at_normalised_eq (sqrt : K → K) (s : Spline K) (index : K)
    (hmode : s.spline_type = spline_type_normalised_dif) (pp p pn : Point K)
    (hpp : lookup s.points (_clamp (_clamp ⌊index⌋ 0 ((s.points.length : ℤ) - 1) - 1) 0
      ((s.points.length : ℤ) - 1)) = .ok pp)
    (hp : lookup s.points (_clamp ⌊index⌋ 0 ((s.points.length : ℤ) - 1)) = .ok p)
    (hpn : lookup s.points (_clamp (_clamp ⌊index⌋ 0 ((s.points.length : ℤ) - 1) + 1) 0
      ((s.points.length : ℤ) - 1)) = .ok pn)
    (hlen : _v_len sqrt (⟨0.5 * ((p.x - pp.x) + (pn.x - p.x)),
      0.5 * ((p.y - pp.y) + (pn.y - p.y))⟩ : Vec2 K) ≠ 0) :
    tangent_at sqrt s index = .ok (some
      ⟨(0.5 * ((p.x - pp.x) + (pn.x - p.x))
          / _v_len sqrt ⟨0.5 * ((p.x - pp.x) + (pn.x - p.x)),
              0.5 * ((p.y - pp.y) + (pn.y - p.y))⟩)
        * (0.5 * (_v_len sqrt ⟨p.x - pp.x, p.y - pp.y⟩
            + _v_len sqrt ⟨pn.x - p.x, pn.y - p.y⟩)),
       (0.5 * ((p.y - pp.y) + (pn.y - p.y))
          / _v_len sqrt ⟨0.5 * ((p.x - pp.x) + (pn.x - p.x)),
              0.5 * ((p.y - pp.y) + (pn.y - p.y))⟩)
        * (0.5 * (_v_len sqrt ⟨p.x - pp.x, p.y - pp.y⟩
            + _v_len sqrt ⟨pn.x - p.x, pn.y - p.y⟩))⟩) := by
  unfold tangent_at
  simp only [hmode, hpp, hp, hpn, bind, Except.bind, pure, Except.pure, _v_dif_between,
    Point.xy, reduceCtorEq, if_false, if_neg hlen]

/-- C15: in NormalizedDifference mode, on a curve with a point, for every index:
when the averaged difference `d = 0.5*((p_i - p_prev) + (p_next - p_i))` is not the
zero vector, `tangent_at` returns `c*d` for a scalar `c ≥ 0`, a vector whose length
is the average `0.5*(|p_i - p_prev| + |p_next - p_i|)` of the two segment lengths. -/
theorem tangent_at_normalised (sqrt : K → K) (hsqrt : IsSqrt sqrt) (s : Spline K)
    (index : K) (hn : 1 ≤ s.points.length)
    (hmode : s.spline_type = spline_type_normalised_dif) :
    ∃ pp p pn,
      lookup s.points (_clamp (_clamp ⌊index⌋ 0 ((s.points.length : ℤ) - 1) - 1) 0
        ((s.points.length : ℤ) - 1)) = .ok pp ∧
      lookup s.points (_clamp ⌊index⌋ 0 ((s.points.length : ℤ) - 1)) = .ok p ∧
      lookup s.points (_clamp (_clamp ⌊index⌋ 0 ((s.points.length : ℤ) - 1) + 1) 0
        ((s.points.length : ℤ) - 1)) = .ok pn ∧
      ((⟨0.5 * ((p.x - pp.x) + (pn.x - p.x)), 0.5 * ((p.y - pp.y) + (pn.y - p.y))⟩ : Vec2 K)
          ≠ ⟨0, 0⟩ →
        ∃ c m, 0 ≤ c ∧ tangent_at sqrt s index = .ok (some m) ∧
          m.x = c * (0.5 * ((p.x - pp.x) + (pn.x - p.x))) ∧
          m.y = c * (0.5 * ((p.y - pp.y) + (pn.y - p.y))) ∧
          _v_len sqrt m = 0.5 * (_v_len sqrt ⟨p.x - pp.x, p.y - pp.y⟩
            + _v_len sqrt ⟨pn.x - p.x, pn.y - p.y⟩)) := by
  have hlo : (0 : ℤ) ≤ (s.points.length : ℤ) - 1 := by omega
  obtain ⟨pp, hpp⟩ := lookup_ok s.points
    (_clamp (_clamp ⌊index⌋ 0 ((s.points.length : ℤ) - 1) - 1) 0 ((s.points.length : ℤ) - 1))
    (clamp_ge _ _ _) (clamp_le _ _ _ hlo)
  obtain ⟨p, hp⟩ := lookup_ok s.points (_clamp ⌊index⌋ 0 ((s.points.length : ℤ) - 1))
    (clamp_ge _ _ _) (clamp_le _ _ _ hlo)
  obtain ⟨pn, hpn⟩ := lookup_ok s.points
    (_clamp (_clamp ⌊index⌋ 0 ((s.points.length : ℤ) - 1) + 1) 0 ((s.points.length : ℤ) - 1))
    (clamp_ge _ _ _) (clamp_le _ _ _ hlo)
  refine ⟨pp, p, pn, hpp, hp, hpn, ?_⟩
  intro hd
  have hlen := v_len_ne_zero sqrt hsqrt _ hd
  have hl1 := v_len_nonneg sqrt hsqrt ⟨p.x - pp.x, p.y - pp.y⟩
  have hl2 := v_len_nonneg sqrt hsqrt ⟨pn.x - p.x, pn.y - p.y⟩
  have hdpos : 0 < _v_len sqrt
      (⟨0.5 * ((p.x - pp.x) + (pn.x - p.x)), 0.5 * ((p.y - pp.y) + (pn.y - p.y))⟩ : Vec2 K) :=
    lt_of_le_of_ne (v_len_nonneg sqrt hsqrt _) (Ne.symm hlen)
  have hL : 0 ≤ 0.5 * (_v_len sqrt ⟨p.x - pp.x, p.y - pp.y⟩
      + _v_len sqrt ⟨pn.x - p.x, pn.y - p.y⟩) := mul_nonneg (by norm_num) (add_nonneg hl1 hl2)
  have htan := tangent_at_normalised_eq sqrt s index hmode pp p pn hpp hp hpn hlen
  refine ⟨(0.5 * (_v_len sqrt ⟨p.x - pp.x, p.y - pp.y⟩
      + _v_len sqrt ⟨pn.x - p.x, pn.y - p.y⟩))
      / _v_len sqrt ⟨0.5 * ((p.x - pp.x) + (pn.x - p.x)),
          0.5 * ((p.y - pp.y) + (pn.y - p.y))⟩, _, div_nonneg hL (le_of_lt hdpos), htan,
      ?_, ?_, ?_⟩
  · show _ / _ * _ = _ / _ * _
    rw [div_mul_eq_mul_div, div_mul_eq_mul_div, mul_comm]
  · show _ / _ * _ = _ / _ * _
    rw [div_mul_eq_mul_div, div_mul_eq_mul_div, mul_comm]
  · apply sqrt_eq_of_mul_self sqrt hsqrt _ _ hL
    exact normalise_len_sq _ _ _ _ hlen (v_len_mul_self sqrt hsqrt
      (⟨0.5 * ((p.x - pp.x) + (pn.x - p.x)), 0.5 * ((p.y - pp.y) + (pn.y - p.y))⟩ : Vec2 K))

theorem tangent_at_normalised_witness :
    IsSqrt Real.sqrt ∧ 1 ≤ (header_example ℝ).points.length ∧
    (header_example ℝ).spline_type = spline_type_normalised_dif ∧
    ((⟨0.5 * ((90 - 10) + (90 - 90)), 0.5 * ((10 - 10) + (90 - 10))⟩ : Vec2 ℝ) ≠ ⟨0, 0⟩) ∧
    ∃ c m, 0 ≤ c ∧ tangent_at Real.sqrt (header_example ℝ) 1 = .ok (some m) ∧
      m.x = c * (0.5 * ((90 - 10) + (90 - 90))) ∧
      m.y = c * (0.5 * ((10 - 10) + (90 - 10))) ∧
      _v_len Real.sqrt m = 0.5 * (_v_len Real.sqrt ⟨90 - 10, 10 - 10⟩
        + _v_len Real.sqrt ⟨90 - 90, 90 - 10⟩) := by
  have hd : (⟨0.5 * ((90 - 10) + (90 - 90)), 0.5 * ((10 - 10) + (90 - 10))⟩ : Vec2 ℝ)
      ≠ ⟨0, 0⟩ := by
    intro h
    injection h with h _
    norm_num at h
  refine ⟨real_isSqrt, by decide, rfl, hd, ?_⟩
  obtain ⟨pp, p, pn, hpp, hp, hpn, h⟩ :=
    tangent_at_normalised Real.sqrt real_isSqrt (header_example ℝ) 1 (by decide) rfl
  have e1 : pp = ⟨10, 10, 80⟩ := by
    rw [Int.floor_one] at hpp
    have : lookup (header_example ℝ).points
        (_clamp (_clamp 1 0 (((header_example ℝ).points.length : ℤ) - 1) - 1) 0
          (((header_example ℝ).points.length : ℤ) - 1)) = .ok ⟨10, 10, 80⟩ := rfl
    rw [this] at hpp
    injection hpp with hpp
    exact hpp.symm
  have e2 : p = ⟨90, 10, 80⟩ := by
    rw [Int.floor_one] at hp
    have : lookup (header_example ℝ).points
        (_clamp 1 0 (((header_example ℝ).points.length : ℤ) - 1)) = .ok ⟨90, 10, 80⟩ := rfl
    rw [this] at hp
    injection hp with hp
    exact hp.symm
  have e3 : pn = ⟨90, 90, 80⟩ := by
    rw [Int.floor_one] at hpn
    have : lookup (header_example ℝ).points
        (_clamp (_clamp 1 0 (((header_example ℝ).points.length : ℤ) - 1) + 1) 0
          (((header_example ℝ).points.length : ℤ) - 1)) = .ok ⟨90, 90, 80⟩ := rfl
    rw [this] at hpn
    injection hpn with hpn
    exact hpn.symm
  subst e1 e2 e3
  exact h hd

/-- C16 fails on the header example of the source: at control point 2, whose
previous and next points coincide, the averaged difference is the zero vector and
its length is 0; `tangent_at(2)` divides by that length and returns `NaN`
components, not the averaged difference `(0, 0)`. -/
theorem tangent_at_header_divides_by_zero :
    lookup (header_example ℝ).points 1 = .ok ⟨90, 10, 80⟩ ∧
    lookup (header_example ℝ).points 2 = .ok ⟨90, 90, 80⟩ ∧
    lookup (header_example ℝ).points 3 = .ok ⟨90, 10, 1⟩ ∧
    ((⟨0.5 * ((90 - 90) + (90 - 90)), 0.5 * ((90 - 10) + (10 - 90))⟩ : Vec2 ℝ) = ⟨0, 0⟩) ∧
    _v_len Real.sqrt (⟨0, 0⟩ : Vec2 ℝ) = 0 ∧
    tangent_at Real.sqrt (header_example ℝ) 2 = .ok none ∧
    tangent_at Real.sqrt (header_example ℝ) 2 ≠ .ok (some ⟨0, 0⟩) := by
  have h : tangent_at Real.sqrt (header_example ℝ) 2 = .ok none := by
    have h2 := tangent_at_header_two
    have e : (((2 : ℤ) : ℝ)) = 2 := by norm_num
    rw [e] at h2
    exact h2
  refine ⟨rfl, rfl, rfl, ?_, ?_, h, ?_⟩
  · norm_num
  · simp [_v_len]
  · rw [h]
    intro h3
    injection h3 with h3
    exact absurd h3 (by simp)

/-! ## Linear mode -/

/-- C20: in Linear mode, for every curve (with `n ≥ 2` points) and every `t`, with
`index = floor((n-1)*clamp(t,0,1))`, `frac = (n-1)*clamp(t,0,1) - index`,
`p0 = points[index]` and `p1 = points[min(n-1, index+1)]`, the position returned
by `at(t)` is `p0 + e*(p1 - p0)` with `e = 3*frac^2 - 2*frac^3`, and `0 ≤ e ≤ 1`:
it lies on the closed straight segment from `p0` to `p1`. -/
theorem at_linear_on_segment (sqrt : K → K) (s : Spline K) (t : K)
    (hmode : s.spline_type = spline_type_linear) (hn : 2 ≤ s.points.length) :
    let n1 : ℤ := (s.points.length : ℤ) - 1
    let index : ℤ := ⌊((n1 : ℤ) : K) * _clamp t 0 1⌋
    let frac : K := ((n1 : ℤ) : K) * _clamp t 0 1 - (index : K)
    let e : K := 3 * frac ^ 2 - 2 * frac ^ 3
    ∃ p0 p1,
      lookup s.points index = .ok p0 ∧
      lookup s.points (Min.min n1 (index + 1)) = .ok p1 ∧
      Spline.at sqrt s t
        = .ok ⟨some ⟨p0.x + e * (p1.x - p0.x), p0.y + e * (p1.y - p0.y)⟩, p0.w⟩ ∧
      0 ≤ e ∧ e ≤ 1 := by
  intro n1 index frac e
  have hc0 : (0 : K) ≤ _clamp t 0 1 := clamp_ge _ _ _
  have hc1 : _clamp t 0 1 ≤ (1 : K) := clamp_le _ _ _ zero_le_one
  obtain ⟨p0, p1, hp0, hp1, hat⟩ := at_linear_eq sqrt s (_clamp t 0 1) hmode hn hc0 hc1
  have hcongr : Spline.at sqrt s t = Spline.at sqrt s (_clamp t 0 1) :=
    at_congr_clamp sqrt s t _ (clamp_idem t 0 1 zero_le_one).symm
  have hf0 : 0 ≤ frac := sub_nonneg.mpr (Int.floor_le _)
  have hf1 : frac < 1 := by
    have := Int.lt_floor_add_one (((n1 : ℤ) : K) * _clamp t 0 1)
    show ((n1 : ℤ) : K) * _clamp t 0 1 - (index : K) < 1
    linarith
  refine ⟨p0, p1, hp0, hp1, ?_, ?_, ?_⟩
  · rw [hcongr, hat]
    simp only [hermite_xy]
    have hx : (2 * (frac * frac * frac) - 3 * (frac * frac) + 1) * p0.x
        + (frac * frac * frac - 2 * (frac * frac) + frac) * 0
        + (-2 * (frac * frac * frac) + 3 * (frac * frac)) * p1.x
        + (frac * frac * frac - frac * frac) * 0 = p0.x + e * (p1.x - p0.x) := by
      show _ = p0.x + (3 * frac ^ 2 - 2 * frac ^ 3) * (p1.x - p0.x)
      ring
    have hy : (2 * (frac * frac * frac) - 3 * (frac * frac) + 1) * p0.y
        + (frac * frac * frac - 2 * (frac * frac) + frac) * 0
        + (-2 * (frac * frac * frac) + 3 * (frac * frac)) * p1.y
        + (frac * frac * frac - frac * frac) * 0 = p0.y + e * (p1.y - p0.y) := by
      show _ = p0.y + (3 * frac ^ 2 - 2 * frac ^ 3) * (p1.y - p0.y)
      ring
    show Except.ok _ = Except.ok _
    rw [← hx, ← hy]
  · show 0 ≤ 3 * frac ^ 2 - 2 * frac ^ 3
    nlinarith [mul_nonneg (mul_nonneg hf0 hf0) (show (0 : K) ≤ 3 - 2 * frac by linarith)]
  · show 3 * frac ^ 2 - 2 * frac ^ 3 ≤ 1
    nlinarith [mul_nonneg (mul_self_nonneg (1 - frac)) (show (0 : K) ≤ 1 + 2 * frac by linarith)]

theorem at_linear_on_segment_witness :
    (linear_example ℝ).spline_type = spline_type_linear ∧
    2 ≤ (linear_example ℝ).points.length ∧
    ∃ r, Spline.at Real.sqrt (linear_example ℝ) (3 / 4) = .ok r :=
  ⟨rfl, by decide,
    (at_linear_on_segment Real.sqrt (linear_example ℝ) (3 / 4) rfl (by decide)).elim
      fun _ h => h.elim fun _ h => ⟨_, h.2.2.1⟩⟩

/-! ## Continuity of `at` -/

/-- The segment formula of `at` at `frac = 1` is the end point of the segment, when
the two tangents are numbers. -/
theorem hermite_xy_one (p0 p1 : Point K) (m0 m1 : Vec2 K) :
    hermite_xy p0 p1 (some m0) (some m1) 1 = some p1.xy := by
  simp [hermite_xy, Point.xy]
  constructor <;> ring

/-- The segment formula of `at` at `frac = 0` is the start point of the segment,
when the two tangents are numbers. -/
theorem hermite_xy_zero (p0 p1 : Point K) (m0 m1 : Vec2 K) :
    hermite_xy p0 p1 (some m0) (some m1) 0 = some p0.xy := by
  simp [hermite_xy, Point.xy]

/-- Within segment `i`, that is for `i ≤ (n-1)*t < i+1` with `t` in `[0,1]`, `at(t)`
is the cubic `hermite_xy` in `frac = (n-1)*t - i` of the two end points of the
segment and their two tangents, which do not depend on `t`. -/
theorem at_on_segment (sqrt : K → K) (s : Spline K) (t : K) (i : ℤ)
    (hn : 1 ≤ s.points.length) (h0 : 0 ≤ t) (h1 : t ≤ 1)
    (hlo : (i : K) ≤ (((s.points.length : ℤ) - 1 : ℤ) : K) * t)
    (hhi : (((s.points.length : ℤ) - 1 : ℤ) : K) * t < (i : K) + 1) :
    ∃ p0 p1 m0 m1,
      lookup s.points i = .ok p0 ∧
      lookup s.points (Min.min ((s.points.length : ℤ) - 1) (i + 1)) = .ok p1 ∧
      tangent_at sqrt s ((i : ℤ) : K) = .ok m0 ∧
      tangent_at sqrt s ((Min.min ((s.points.length : ℤ) - 1) (i + 1) : ℤ) : K) = .ok m1 ∧
      Spline.at sqrt s t = .ok ⟨hermite_xy p0 p1 m0 m1
        ((((s.points.length : ℤ) - 1 : ℤ) : K) * t - (i : K)), p0.w⟩ := by
  have hlo2 : (0 : ℤ) ≤ (s.points.length : ℤ) - 1 := by omega
  have hif := index_frac_eq s t i h0 h1 hlo hhi
  have hb := index_frac_bounds s (_clamp t 0 1) hn
  rw [hif] at hb
  obtain ⟨p0, hp0⟩ := lookup_ok s.points i hb.1 hb.2
  obtain ⟨p1, hp1⟩ := lookup_ok s.points (Min.min ((s.points.length : ℤ) - 1) (i + 1))
    (le_min hlo2 (by have := hb.1; simp only at this; omega)) (min_le_left _ _)
  obtain ⟨m0, hm0⟩ := tangent_at_ok sqrt s ((i : ℤ) : K) hn
  obtain ⟨m1, hm1⟩ := tangent_at_ok sqrt s
    ((Min.min ((s.points.length : ℤ) - 1) (i + 1) : ℤ) : K) hn
  exact ⟨p0, p1, m0, m1, hp0, hp1, hm0, hm1, at_eq sqrt s t i _ p0 p1 m0 m1 hif hp0 hp1 hm0 hm1⟩

/-- On the third segment of the header example `at` returns `NaN` coordinates:
the segment starts at control point 2, whose tangent is `0/0`. -/
theorem at_header_segment_two (t : ℝ) (h1 : 2 / 3 ≤ t) (h2 : t < 1) :
    Spline.at Real.sqrt (header_example ℝ) t = .ok ⟨none, 80⟩ := by
  have hif := index_frac_eq (header_example ℝ) t 2 (by linarith) (by linarith)
    (by simp [header_example]; linarith)
    (by simp [header_example]; norm_num; linarith)
  have hp0 : lookup (header_example ℝ).points 2 = .ok ⟨90, 90, 80⟩ := rfl
  have hp1 : lookup (header_example ℝ).points
      (Min.min (((header_example ℝ).points.length : ℤ) - 1) (2 + 1)) = .ok ⟨90, 10, 1⟩ := rfl
  obtain ⟨m1, hm1⟩ := tangent_at_ok Real.sqrt (header_example ℝ)
    ((Min.min (((header_example ℝ).points.length : ℤ) - 1) (2 + 1) : ℤ) : ℝ) (by decide)
  rw [at_eq Real.sqrt (header_example ℝ) t 2 _ _ _ _ _ hif hp0 hp1 tangent_at_header_two hm1]
  rfl

/-- The last control point of the header example is reached: `at(1)` is `(90, 10)`. -/
theorem at_header_one :
    Spline.at Real.sqrt (header_example ℝ) 1 = .ok ⟨some ⟨90, 10⟩, 1⟩ := by
  have hd : (⟨0.5 * ((90 - 90) + (90 - 90)), 0.5 * ((10 - 90) + (10 - 10))⟩ : Vec2 ℝ)
      ≠ ⟨0, 0⟩ := by
    intro h
    injection h with _ h
    norm_num at h
  have hm := tangent_at_normalised_eq Real.sqrt (header_example ℝ) ((3 : ℤ) : ℝ) rfl
    ⟨90, 90, 80⟩ ⟨90, 10, 1⟩ ⟨90, 10, 1⟩ (by rw [Int.floor_intCast]; rfl)
    (by rw [Int.floor_intCast]; rfl) (by rw [Int.floor_intCast]; rfl)
    (v_len_ne_zero Real.sqrt real_isSqrt _ hd)
  have hk := at_knot Real.sqrt (header_example ℝ) 3 (by decide) (by decide) _ _ hm hm
  have e : ((((3 : ℕ) : ℤ) : ℝ) / (((((header_example ℝ).points.length : ℤ) - 1 : ℤ)) : ℝ))
      = 1 := by
    norm_num [header_example]
  rw [e] at hk
  simpa [header_example, Point.xy] using hk

/-- C17 fails on the header example of the source: on the second and third
segments, `1/3 ≤ t < 1`, the coordinates returned by `at(t)` are `NaN`, not a cubic
in `frac`; the formula of the third segment at `frac = 1` is `NaN` whatever the
tangent at control point 3, while `at(1)` is control point 3, `(90, 10)`. -/
theorem at_header_not_continuous :
    (∀ t : ℝ, 1 / 3 ≤ t → t < 1 →
      Spline.at Real.sqrt (header_example ℝ) t = .ok ⟨none, 80⟩) ∧
    Spline.at Real.sqrt (header_example ℝ) (5 / 6) = .ok ⟨none, 80⟩ ∧
    (∀ m1 : Option (Vec2 ℝ), hermite_xy ⟨90, 90, 80⟩ ⟨90, 10, 1⟩ none m1 1 = none) ∧
    Spline.at Real.sqrt (header_example ℝ) 1 = .ok ⟨some ⟨90, 10⟩, 1⟩ := by
  refine ⟨?_, at_header_segment_two (5 / 6) (by norm_num) (by norm_num), ?_, at_header_one⟩
  · intro t h1 h2
    by_cases h : t < 2 / 3
    · exact at_header_segment_one t h1 h
    · exact at_header_segment_two t (not_lt.mp h) h2
  · intro m1
    cases m1 <;> rfl

/-! ## The nearest-point search -/

/-- What a round of the loop of `nearest_t` does to its state: the step shrinks by
`0.9`, and either nothing else changes, or `chosen_t` moves down by `step_size` to
the decrease sample, or up by `step_size` to the increase sample; a move is made
only to a sample whose distance is a number strictly below `minimum_distance`, which
becomes that distance. -/
theorem nearest_round_cases (sqrt : K → K) (pos : Vec2 K) (st : NearestState K)
    (si sd : Sample K) :
    (nearest_round sqrt pos st si sd).step_size = st.step_size * 0.9 ∧
    (((nearest_round sqrt pos st si sd).chosen_t = st.chosen_t ∧
        (nearest_round sqrt pos st si sd).minimum_distance = st.minimum_distance) ∨
      ((nearest_round sqrt pos st si sd).chosen_t = st.chosen_t - st.step_size ∧
        pos_len_between sqrt pos sd = some (nearest_round sqrt pos st si sd).minimum_distance ∧
        (nearest_round sqrt pos st si sd).minimum_distance < st.minimum_distance) ∨
      ((nearest_round sqrt pos st si sd).chosen_t = st.chosen_t + st.step_size ∧
        pos_len_between sqrt pos si = some (nearest_round sqrt pos st si sd).minimum_distance ∧
        (nearest_round sqrt pos st si sd).minimum_distance < st.minimum_distance)) := by
  unfold nearest_round nearest_increase nearest_decrease
  cases hd : pos_len_between sqrt pos sd with
  | none =>
    cases hi : pos_len_between sqrt pos si with
    | none => exact ⟨rfl, Or.inl ⟨rfl, rfl⟩⟩
    | some i =>
      have hf : ¬ (nan_lt_nan (some i) (none : Option K) ∧ i < st.minimum_distance) :=
        fun h => h.1
      refine ⟨?_, Or.inl ⟨?_, ?_⟩⟩ <;> simp only [if_neg hf]
  | some d =>
    cases hi : pos_len_between sqrt pos si with
    | none =>
      have hf : ¬ (nan_lt_nan (some d) (none : Option K) ∧ d < st.minimum_distance) :=
        fun h => h.1
      refine ⟨?_, Or.inl ⟨?_, ?_⟩⟩ <;> simp only [if_neg hf]
    | some i =>
      by_cases h1 : nan_lt_nan (some d) (some i) ∧ d < st.minimum_distance
      · have hdi : d < i := h1.1
        have hf : ∀ x : K, ¬ (nan_lt_nan (some i) (some d) ∧ i < x) := fun x h => by
          have : i < d := h.1
          exact absurd hdi (not_lt.mpr (le_of_lt this))
        refine ⟨?_, Or.inr (Or.inl ⟨?_, ?_, ?_⟩)⟩ <;> simp only [if_pos h1, if_neg (hf _)]
        exact h1.2
      · by_cases h2 : nan_lt_nan (some i) (some d) ∧ i < st.minimum_distance
        · refine ⟨?_, Or.inr (Or.inr ⟨?_, ?_, ?_⟩)⟩ <;> simp only [if_neg h1, if_pos h2]
          exact h2.2
        · refine ⟨?_, Or.inl ⟨?_, ?_⟩⟩ <;> simp only [if_neg h1, if_neg h2]

/-- Any property of the loop state that every round preserves holds of the state in
which the loop of `nearest_t` stops, when it stops within `fuel` rounds. -/
theorem nearest_t_loop_inv (sqrt : K → K) (s : Spline K) (pos : Vec2 K) (min_step : K)
    (hn : 1 ≤ s.points.length) (P : NearestState K → Prop)
    (hP : ∀ st si sd, P st →
      Spline.at sqrt s (st.chosen_t + st.step_size) = .ok si →
      Spline.at sqrt s (st.chosen_t - st.step_size) = .ok sd →
      P (nearest_round sqrt pos st si sd)) :
    ∀ (fuel : ℕ) (st : NearestState K), P st →
      nearest_t_loop sqrt s pos min_step fuel st = none ∨
      ∃ fs, nearest_t_loop sqrt s pos min_step fuel st = some (.ok fs.chosen_t) ∧ P fs := by
  intro fuel
  induction fuel with
  | zero =>
    intro st hst
    unfold nearest_t_loop
    split_ifs with hc
    · exact Or.inl rfl
    · exact Or.inr ⟨st, rfl, hst⟩
  | succ fuel ih =>
    intro st hst
    unfold nearest_t_loop
    split_ifs with hc
    · obtain ⟨si, hsi⟩ := at_ok sqrt s (st.chosen_t + st.step_size) hn
      obtain ⟨sd, hsd⟩ := at_ok sqrt s (st.chosen_t - st.step_size) hn
      simp only [hsi, hsd]
      exact ih _ (hP st si sd hst hsi hsd)
    · exact Or.inr ⟨st, rfl, hst⟩

/-- The loop of `nearest_t` stops within `fuel` rounds as soon as
`step_size * 0.9^fuel ≤ min_step`. -/
theorem nearest_t_loop_terminates (sqrt : K → K) (s : Spline K) (pos : Vec2 K) (min_step : K)
    (hn : 1 ≤ s.points.length) :
    ∀ (fuel : ℕ) (st : NearestState K), st.step_size * 0.9 ^ fuel ≤ min_step →
      nearest_t_loop sqrt s pos min_step fuel st ≠ none := by
  intro fuel
  induction fuel with
  | zero =>
    intro st hst
    unfold nearest_t_loop
    rw [pow_zero, mul_one] at hst
    rw [if_neg (fun h => absurd h.1 (not_lt.mpr hst))]
    simp
  | succ fuel ih =>
    intro st hst
    unfold nearest_t_loop
    split_ifs with hc
    · obtain ⟨si, hsi⟩ := at_ok sqrt s (st.chosen_t + st.step_size) hn
      obtain ⟨sd, hsd⟩ := at_ok sqrt s (st.chosen_t - st.step_size) hn
      simp only [hsi, hsd]
      apply ih
      rw [(nearest_round_cases sqrt pos st si sd).1]
      calc st.step_size * 0.9 * 0.9 ^ fuel = st.step_size * 0.9 ^ (fuel + 1) := by ring
        _ ≤ min_step := hst
    · simp

theorem nearest_near_round (sqrt : K → K) (pos : Vec2 K) (seed step0 : K)
    (st : NearestState K) (si sd : Sample K) (h : NearestNear seed step0 st) :
    NearestNear seed step0 (nearest_round sqrt pos st si sd) := by
  obtain ⟨hstep, hcases⟩ := nearest_round_cases sqrt pos st si sd
  obtain ⟨hpos, hb⟩ := h
  unfold NearestNear
  rw [hstep]
  refine ⟨by linarith, ?_⟩
  rcases hcases with ⟨ht, _⟩ | ⟨ht, _⟩ | ⟨ht, _⟩
  · rw [ht]
    linarith
  · rw [ht]
    have : |st.chosen_t - st.step_size - seed| ≤ |st.chosen_t - seed| + st.step_size := by
      have h1 : st.chosen_t - st.step_size - seed = (st.chosen_t - seed) + (-st.step_size) := by
        ring
      rw [h1]
      calc |(st.chosen_t - seed) + (-st.step_size)|
          ≤ |st.chosen_t - seed| + |(-st.step_size)| := abs_add _ _
        _ = |st.chosen_t - seed| + st.step_size := by
            rw [abs_neg, abs_of_pos hpos]
    linarith
  · rw [ht]
    have : |st.chosen_t + st.step_size - seed| ≤ |st.chosen_t - seed| + st.step_size := by
      have h1 : st.chosen_t + st.step_size - seed = (st.chosen_t - seed) + st.step_size := by
        ring
      rw [h1]
      calc |(st.chosen_t - seed) + st.step_size|
          ≤ |st.chosen_t - seed| + |st.step_size| := abs_add _ _
        _ = |st.chosen_t - seed| + st.step_size := by rw [abs_of_pos hpos]
    linarith

theorem nearest_low_round (sqrt : K → K) (s : Spline K) (pos : Vec2 K)
    (st : NearestState K) (si sd : Sample K) (hstep : 0 ≤ st.step_size)
    (hsd : Spline.at sqrt s (st.chosen_t - st.step_size) = .ok sd)
    (h : NearestLow sqrt s pos st) :
    NearestLow sqrt s pos (nearest_round sqrt pos st si sd) := by
  obtain ⟨_, hcases⟩ := nearest_round_cases sqrt pos st si sd
  obtain ⟨h0, hmin⟩ := h
  unfold NearestLow
  rcases hcases with ⟨ht, hm⟩ | ⟨ht, hd, hm⟩ | ⟨ht, hd, hm⟩
  · rw [ht, hm]
    exact ⟨h0, hmin⟩
  · rw [ht]
    refine ⟨?_, fun smp d h1 h2 => le_trans (le_of_lt hm) (hmin smp d h1 h2)⟩
    by_contra hneg
    have hle : st.chosen_t - st.step_size ≤ 0 := le_of_lt (not_le.mp hneg)
    have hat0 := (at_congr_clamp sqrt s (st.chosen_t - st.step_size) 0
      (by rw [clamp_of_le_lo _ 0 1 zero_le_one hle, clamp_of_le_lo 0 0 1 zero_le_one le_rfl]))
    rw [hsd] at hat0
    have := hmin sd _ hat0.symm hd
    exact absurd hm (not_lt.mpr this)
  · rw [ht]
    exact ⟨by linarith, fun smp d h1 h2 => le_trans (le_of_lt hm) (hmin smp d h1 h2)⟩

theorem nearest_high_round (sqrt : K → K) (s : Spline K) (pos : Vec2 K)
    (st : NearestState K) (si sd : Sample K) (hstep : 0 ≤ st.step_size)
    (hsi : Spline.at sqrt s (st.chosen_t + st.step_size) = .ok si)
    (h : NearestHigh sqrt s pos st) :
    NearestHigh sqrt s pos (nearest_round sqrt pos st si sd) := by
  obtain ⟨_, hcases⟩ := nearest_round_cases sqrt pos st si sd
  obtain ⟨h0, hmin⟩ := h
  unfold NearestHigh
  rcases hcases with ⟨ht, hm⟩ | ⟨ht, hd, hm⟩ | ⟨ht, hd, hm⟩
  · rw [ht, hm]
    exact ⟨h0, hmin⟩
  · rw [ht]
    exact ⟨by linarith, fun smp d h1 h2 => le_trans (le_of_lt hm) (hmin smp d h1 h2)⟩
  · rw [ht]
    refine ⟨?_, fun smp d h1 h2 => le_trans (le_of_lt hm) (hmin smp d h1 h2)⟩
    by_contra hneg
    have hle : 1 ≤ st.chosen_t + st.step_size := le_of_lt (not_le.mp hneg)
    have hat1 := (at_congr_clamp sqrt s (st.chosen_t + st.step_size) 1
      (by rw [clamp_of_ge_hi _ 0 1 zero_le_one hle, clamp_of_ge_hi 1 0 1 zero_le_one le_rfl]))
    rw [hsi] at hat1
    have := hmin si _ hat1.symm hd
    exact absurd hm (not_lt.mpr this)

theorem nearest_min_round (sqrt : K → K) (s : Spline K) (pos : Vec2 K) (min0 : K)
    (st : NearestState K) (si sd : Sample K)
    (hsi : Spline.at sqrt s (st.chosen_t + st.step_size) = .ok si)
    (hsd : Spline.at sqrt s (st.chosen_t - st.step_size) = .ok sd)
    (h : NearestMin sqrt s pos min0 st) :
    NearestMin sqrt s pos min0 (nearest_round sqrt pos st si sd) := by
  obtain ⟨_, hcases⟩ := nearest_round_cases sqrt pos st si sd
  obtain ⟨h0, hmin⟩ := h
  unfold NearestMin
  rcases hcases with ⟨ht, hm⟩ | ⟨ht, hd, hm⟩ | ⟨ht, hd, hm⟩
  · rw [ht, hm]
    exact ⟨h0, hmin⟩
  · rw [ht]
    exact ⟨le_trans (le_of_lt hm) h0, sd, hsd, hd⟩
  · rw [ht]
    exact ⟨le_trans (le_of_lt hm) h0, si, hsi, hd⟩

/-- At the parameter `i/(n-1)` of control point `i`, `at` returns the weight of
point `i` and either `NaN` coordinates or the coordinates of point `i`. -/
theorem at_knot_xy (sqrt : K → K) (s : Spline K) (i : ℕ) (hn : 2 ≤ s.points.length)
    (hi : i < s.points.length) :
    ∃ smp, Spline.at sqrt s ((i : K) / (((s.points.length : ℤ) - 1 : ℤ) : K)) = .ok smp ∧
      (smp.xy = none ∨ smp.xy = some (s.points.get ⟨i, hi⟩).xy) := by
  have hlo : (0 : ℤ) ≤ (s.points.length : ℤ) - 1 := by omega
  have hpos : (0 : K) < (((s.points.length : ℤ) - 1 : ℤ) : K) := by
    have : (0 : ℤ) < (s.points.length : ℤ) - 1 := by omega
    exact_mod_cast this
  have hcast : (((i : ℕ) : ℤ) : K) = (i : K) := Int.cast_natCast i
  have hile : (i : K) ≤ (((s.points.length : ℤ) - 1 : ℤ) : K) := by
    have : ((i : ℕ) : ℤ) ≤ (s.points.length : ℤ) - 1 := by omega
    rw [← hcast]
    exact_mod_cast this
  have hi0 : (0 : K) ≤ (i : K) := Nat.cast_nonneg i
  have hmul : (((s.points.length : ℤ) - 1 : ℤ) : K)
      * ((i : K) / (((s.points.length : ℤ) - 1 : ℤ) : K)) = (((i : ℕ) : ℤ) : K) := by
    rw [hcast]
    exact mul_div_cancel₀ _ (ne_of_gt hpos)
  have hif := index_frac_eq s ((i : K) / (((s.points.length : ℤ) - 1 : ℤ) : K))
    (i : ℤ) (div_nonneg hi0 (le_of_lt hpos)) ((div_le_one hpos).mpr hile)
    (by rw [hmul]) (by rw [hmul]; exact lt_add_one _)
  rw [hmul, sub_self] at hif
  have hp0 := lookup_natCast s.points i hi
  obtain ⟨p1, hp1⟩ := lookup_ok s.points
    (Min.min ((s.points.length : ℤ) - 1) ((i : ℤ) + 1)) (le_min hlo (by omega)) (min_le_left _ _)
  obtain ⟨m0, hm0⟩ := tangent_at_ok sqrt s (((i : ℕ) : ℤ) : K) (by omega)
  obtain ⟨m1, hm1⟩ := tangent_at_ok sqrt s
    ((Min.min ((s.points.length : ℤ) - 1) ((i : ℤ) + 1) : ℤ) : K) (by omega)
  refine ⟨_, at_eq sqrt s _ (i : ℤ) 0 _ p1 m0 m1 hif hp0 hp1 hm0 hm1, ?_⟩
  cases m0 with
  | none => exact Or.inl rfl
  | some m0 =>
    cases m1 with
    | none => exact Or.inl rfl
    | some m1 => exact Or.inr (hermite_xy_zero _ _ _ _)

/-- The index returned by `nearest_control_point_i` is inside the array, when the
array is not empty. -/
theorem nearest_control_point_i_lt (sqrt : K → K) (s : Spline K) (pos : Vec2 K)
    (hn : 1 ≤ s.points.length) : nearest_control_point_i sqrt s pos < s.points.length := by
  unfold nearest_control_point_i
  rcases nearest_loop_spec sqrt pos s.points 0 10000000.0 0 with
    ⟨hr, _⟩ | ⟨k, q, hq, hr, _⟩
  · rw [hr]
    omega
  · rw [hr, Nat.zero_add]
    exact (List.getElem?_eq_some.mp hq).1

/-- The start of `nearest_t` on a curve with at least two points: the loop is
entered from the parameter of the nearest control point, with its distance. -/
theorem nearest_t_eq (sqrt : K → K) (s : Spline K) (pos : Vec2 K) (fuel : ℕ)
    (hn : 2 ≤ s.points.length) :
    nearest_t sqrt s pos fuel
      = nearest_t_loop sqrt s pos (0.00001 / (((s.points.length : ℤ) - 1 : ℤ) : K)) fuel
          ⟨(nearest_control_point_i sqrt s pos : K) / (((s.points.length : ℤ) - 1 : ℤ) : K),
            _v_len_between sqrt pos
              (s.points.get ⟨nearest_control_point_i sqrt s pos,
                nearest_control_point_i_lt sqrt s pos (by omega)⟩).xy,
            0.1 / (((s.points.length : ℤ) - 1 : ℤ) : K), 1⟩ := by
  have hpos : (((s.points.length : ℤ) - 1 : ℤ) : K) ≠ 0 := by
    have : (0 : ℤ) < (s.points.length : ℤ) - 1 := by omega
    have h2 : (0 : K) < (((s.points.length : ℤ) - 1 : ℤ) : K) := by exact_mod_cast this
    exact ne_of_gt h2
  unfold nearest_t
  simp only [lookup_natCast s.points _ (nearest_control_point_i_lt sqrt s pos (by omega)),
    if_neg hpos]

theorem pow_088 : ((0.9 : K) ^ 88) ≤ 0.0001 := by
  norm_num

/-- C19: on a curve with `n ≥ 2` points, for every query `pos`, `nearest_t(pos)`
stops within 88 rounds of its loop, and its result lies in `[0,1]` and differs from
the seed `i/(n-1)`, `i` the index returned by `nearest_control_point_i`, by strictly
less than `1/(n-1)`. -/
theorem nearest_t_near_seed (sqrt : K → K) (s : Spline K) (pos : Vec2 K)
    (hn : 2 ≤ s.points.length) (fuel : ℕ) (hfuel : 88 ≤ fuel) :
    ∃ t, nearest_t sqrt s pos fuel = some (.ok t) ∧ 0 ≤ t ∧ t ≤ 1 ∧
      |t - (nearest_control_point_i sqrt s pos : K) / (((s.points.length : ℤ) - 1 : ℤ) : K)|
        < 1 / (((s.points.length : ℤ) - 1 : ℤ) : K) := by
  have hilt := nearest_control_point_i_lt sqrt s pos (by omega)
  have hpos : (0 : K) < (((s.points.length : ℤ) - 1 : ℤ) : K) := by
    have : (0 : ℤ) < (s.points.length : ℤ) - 1 := by omega
    exact_mod_cast this
  have hstep0 : (0 : K) < 0.1 / (((s.points.length : ℤ) - 1 : ℤ) : K) :=
    div_pos (by norm_num) hpos
  have hten : 10 * (0.1 / (((s.points.length : ℤ) - 1 : ℤ) : K))
      = 1 / (((s.points.length : ℤ) - 1 : ℤ) : K) := by
    rw [← mul_div_assoc]
    norm_num
  obtain ⟨smp_i, hsmp_i, hxy_i⟩ := at_knot_xy sqrt s _ hn hilt
  rw [nearest_t_eq sqrt s pos fuel hn]
  -- the three properties kept by every round
  have hinv := nearest_t_loop_inv sqrt s pos
    (0.00001 / (((s.points.length : ℤ) - 1 : ℤ) : K)) (by omega)
    (fun st => NearestNear
        ((nearest_control_point_i sqrt s pos : K) / (((s.points.length : ℤ) - 1 : ℤ) : K))
        (0.1 / (((s.points.length : ℤ) - 1 : ℤ) : K)) st ∧
      (nearest_control_point_i sqrt s pos = 0 → NearestLow sqrt s pos st) ∧
      (nearest_control_point_i sqrt s pos + 1 = s.points.length → NearestHigh sqrt s pos st))
    (fun st si sd h hsi hsd =>
      ⟨nearest_near_round sqrt pos _ _ st si sd h.1,
        fun h0 => nearest_low_round sqrt s pos st si sd (le_of_lt h.1.1) hsd (h.2.1 h0),
        fun h1 => nearest_high_round sqrt s pos st si sd (le_of_lt h.1.1) hsi (h.2.2 h1)⟩)
    fuel
    ⟨(nearest_control_point_i sqrt s pos : K) / (((s.points.length : ℤ) - 1 : ℤ) : K),
      _v_len_between sqrt pos (s.points.get ⟨nearest_control_point_i sqrt s pos, hilt⟩).xy,
      0.1 / (((s.points.length : ℤ) - 1 : ℤ) : K), 1⟩
    (by
      refine ⟨⟨hstep0, ?_⟩, ?_, ?_⟩
      · show |_ - _| + _ ≤ _
        rw [sub_self, abs_zero, zero_add]
      · intro h0
        refine ⟨div_nonneg (Nat.cast_nonneg _) (le_of_lt hpos), ?_⟩
        intro smp d hsmp hd
        have e0 : (nearest_control_point_i sqrt s pos : K)
            / (((s.points.length : ℤ) - 1 : ℤ) : K) = 0 := by
          rw [h0, Nat.cast_zero, zero_div]
        rw [e0, hsmp] at hsmp_i
        injection hsmp_i with hsmp_i
        rw [← hsmp_i] at hxy_i
        unfold pos_len_between at hd
        rcases hxy_i with hx | hx
        · rw [hx] at hd
          exact absurd hd (by simp)
        · rw [hx] at hd
          injection hd with hd
          exact le_of_eq hd
      · intro h1
        have e1 : (nearest_control_point_i sqrt s pos : K)
            / (((s.points.length : ℤ) - 1 : ℤ) : K) = 1 := by
          have : (((s.points.length : ℤ) - 1 : ℤ) : K)
              = (nearest_control_point_i sqrt s pos : K) := by
            have hz : (s.points.length : ℤ) - 1
                = ((nearest_control_point_i sqrt s pos : ℕ) : ℤ) := by omega
            rw [hz, Int.cast_natCast]
          rw [this]
          have hne : (nearest_control_point_i sqrt s pos : K) ≠ 0 := by
            rw [← this]
            exact ne_of_gt hpos
          exact div_self hne
        refine ⟨le_of_eq e1, ?_⟩
        intro smp d hsmp hd
        rw [e1, hsmp] at hsmp_i
        injection hsmp_i with hsmp_i
        rw [← hsmp_i] at hxy_i
        unfold pos_len_between at hd
        rcases hxy_i with hx | hx
        · rw [hx] at hd
          exact absurd hd (by simp)
        · rw [hx] at hd
          injection hd with hd
          exact le_of_eq hd)
  have hterm := nearest_t_loop_terminates sqrt s pos
    (0.00001 / (((s.points.length : ℤ) - 1 : ℤ) : K)) (by omega) fuel
    ⟨(nearest_control_point_i sqrt s pos : K) / (((s.points.length : ℤ) - 1 : ℤ) : K),
      _v_len_between sqrt pos (s.points.get ⟨nearest_control_point_i sqrt s pos, hilt⟩).xy,
      0.1 / (((s.points.length : ℤ) - 1 : ℤ) : K), 1⟩
    (by
      show 0.1 / _ * 0.9 ^ fuel ≤ 0.00001 / _
      have hp : ((0.9 : K) ^ fuel) ≤ 0.0001 :=
        le_trans (pow_le_pow_of_le_one (by norm_num) (by norm_num) hfuel) pow_088
      rw [div_mul_eq_mul_div]
      apply div_le_div_of_nonneg_right _ (le_of_lt hpos)
      calc (0.1 : K) * 0.9 ^ fuel ≤ 0.1 * 0.0001 :=
            mul_le_mul_of_nonneg_left hp (by norm_num)
        _ = 0.00001 := by norm_num)
  rcases hinv with hnone | ⟨fs, hfs, hnear, hlow, hhigh⟩
  · exact absurd hnone hterm
  · obtain ⟨hfpos, hfb⟩ := hnear
    rw [hten] at hfb
    have habs : |fs.chosen_t - (nearest_control_point_i sqrt s pos : K)
        / (((s.points.length : ℤ) - 1 : ℤ) : K)|
        < 1 / (((s.points.length : ℤ) - 1 : ℤ) : K) := by linarith
    have habs2 := abs_lt.mp habs
    have hn1 : (((s.points.length : ℤ) - 1 : ℤ) : K) = ((s.points.length - 1 : ℕ) : K) := by
      have hz : (s.points.length : ℤ) - 1 = ((s.points.length - 1 : ℕ) : ℤ) := by omega
      rw [hz, Int.cast_natCast]
    refine ⟨fs.chosen_t, hfs, ?_, ?_, habs⟩
    · by_cases h0 : nearest_control_point_i sqrt s pos = 0
      · exact (hlow h0).1
      · have h1 : (1 : K) ≤ (nearest_control_point_i sqrt s pos : K) := by
          have : 1 ≤ nearest_control_point_i sqrt s pos := Nat.one_le_iff_ne_zero.mpr h0
          exact_mod_cast this
        have h2 : 1 / (((s.points.length : ℤ) - 1 : ℤ) : K)
            ≤ (nearest_control_point_i sqrt s pos : K)
              / (((s.points.length : ℤ) - 1 : ℤ) : K) :=
          div_le_div_of_nonneg_right h1 (le_of_lt hpos)
        linarith [habs2.1]
    · by_cases h1 : nearest_control_point_i sqrt s pos + 1 = s.points.length
      · exact (hhigh h1).1
      · have h2 : (nearest_control_point_i sqrt s pos : K) + 1
            ≤ (((s.points.length : ℤ) - 1 : ℤ) : K) := by
          rw [hn1]
          have : nearest_control_point_i sqrt s pos + 1 ≤ s.points.length - 1 := by omega
          exact_mod_cast this
        have h3 : ((nearest_control_point_i sqrt s pos : K) + 1)
            / (((s.points.length : ℤ) - 1 : ℤ) : K) ≤ 1 := (div_le_one hpos).mpr h2
        rw [add_div] at h3
        linarith [habs2.2]

theorem nearest_t_near_seed_witness :
    2 ≤ (header_example ℝ).points.length ∧ 88 ≤ 100 ∧
    ∃ t, nearest_t Real.sqrt (header_example ℝ) ⟨30, 20⟩ 100 = some (.ok t) ∧ 0 ≤ t ∧ t ≤ 1 ∧
      |t - (nearest_control_point_i Real.sqrt (header_example ℝ) ⟨30, 20⟩ : ℝ)
          / (((((header_example ℝ).points.length : ℤ) - 1 : ℤ)) : ℝ)|
        < 1 / (((((header_example ℝ).points.length : ℤ) - 1 : ℤ)) : ℝ) :=
  ⟨by decide, by decide,
    nearest_t_near_seed Real.sqrt (header_example ℝ) ⟨30, 20⟩ (by decide) 100 (by decide)⟩

theorem nearest_step_bound (n1 : K) (hpos : 0 < n1) (fuel : ℕ) (hfuel : 88 ≤ fuel) :
    0.1 / n1 * 0.9 ^ fuel ≤ 0.00001 / n1 := by
  have hp : ((0.9 : K) ^ fuel) ≤ 0.0001 :=
    le_trans (pow_le_pow_of_le_one (by norm_num) (by norm_num) hfuel) pow_088
  rw [div_mul_eq_mul_div]
  apply div_le_div_of_nonneg_right _ (le_of_lt hpos)
  calc (0.1 : K) * 0.9 ^ fuel ≤ 0.1 * 0.0001 := mul_le_mul_of_nonneg_left hp (by norm_num)
    _ = 0.00001 := by norm_num

/-- When `at` returns number coordinates at the seed of `nearest_t` (the parameter
of the nearest control point), the point returned by `nearest_point` has number
coordinates and is at most as far from `pos` as the control point returned by
`nearest_control_point`; `minimum_distance` is the distance to `at(chosen_t)`
throughout the loop and never increases. -/
theorem nearest_point_never_worsens (sqrt : K → K) (s : Spline K) (pos : Vec2 K)
    (hn : 2 ≤ s.points.length)
    (hseed : ∀ smp, Spline.at sqrt s ((nearest_control_point_i sqrt s pos : K)
      / (((s.points.length : ℤ) - 1 : ℤ) : K)) = .ok smp → smp.xy ≠ none)
    (fuel : ℕ) (hfuel : 88 ≤ fuel) :
    ∃ t smp d p, nearest_t sqrt s pos fuel = some (.ok t) ∧
      nearest_point sqrt s pos fuel = some (.ok smp) ∧
      nearest_control_point sqrt s pos = .ok p ∧
      pos_len_between sqrt pos smp = some d ∧
      d ≤ _v_len_between sqrt pos p.xy := by
  have hilt := nearest_control_point_i_lt sqrt s pos (by omega)
  have hpos : (0 : K) < (((s.points.length : ℤ) - 1 : ℤ) : K) := by
    have : (0 : ℤ) < (s.points.length : ℤ) - 1 := by omega
    exact_mod_cast this
  obtain ⟨smp_i, hsmp_i, hxy_i⟩ := at_knot_xy sqrt s _ hn hilt
  have hxy : smp_i.xy = some (s.points.get ⟨nearest_control_point_i sqrt s pos, hilt⟩).xy := by
    rcases hxy_i with h | h
    · exact absurd h (hseed smp_i hsmp_i)
    · exact h
  have hinv := nearest_t_loop_inv sqrt s pos
    (0.00001 / (((s.points.length : ℤ) - 1 : ℤ) : K)) (by omega)
    (fun st => NearestMin sqrt s pos
      (_v_len_between sqrt pos (s.points.get ⟨nearest_control_point_i sqrt s pos, hilt⟩).xy) st)
    (fun st si sd h hsi hsd => nearest_min_round sqrt s pos _ st si sd hsi hsd h)
    fuel
    ⟨(nearest_control_point_i sqrt s pos : K) / (((s.points.length : ℤ) - 1 : ℤ) : K),
      _v_len_between sqrt pos (s.points.get ⟨nearest_control_point_i sqrt s pos, hilt⟩).xy,
      0.1 / (((s.points.length : ℤ) - 1 : ℤ) : K), 1⟩
    ⟨le_rfl, smp_i, hsmp_i, by unfold pos_len_between; rw [hxy]⟩
  have hterm := nearest_t_loop_terminates sqrt s pos
    (0.00001 / (((s.points.length : ℤ) - 1 : ℤ) : K)) (by omega) fuel
    ⟨(nearest_control_point_i sqrt s pos : K) / (((s.points.length : ℤ) - 1 : ℤ) : K),
      _v_len_between sqrt pos (s.points.get ⟨nearest_control_point_i sqrt s pos, hilt⟩).xy,
      0.1 / (((s.points.length : ℤ) - 1 : ℤ) : K), 1⟩
    (nearest_step_bound _ hpos fuel hfuel)
  rw [← nearest_t_eq sqrt s pos fuel hn] at hinv hterm
  rcases hinv with hnone | ⟨fs, hfs, hle, smp, hsmp, hd⟩
  · exact absurd hnone hterm
  · refine ⟨fs.chosen_t, smp, fs.minimum_distance, _, hfs, ?_,
      lookup_natCast s.points _ hilt, hd, hle⟩
    unfold nearest_point
    simp only [hfs, hsmp]

/-- Outside NormalizedDifference mode the nearest-point search never worsens its
seed. -/
theorem nearest_point_never_worsens_of_mode (sqrt : K → K) (s : Spline K) (pos : Vec2 K)
    (hn : 2 ≤ s.points.length) (hmode : s.spline_type ≠ spline_type_normalised_dif)
    (fuel : ℕ) (hfuel : 88 ≤ fuel) :
    ∃ t smp d p, nearest_t sqrt s pos fuel = some (.ok t) ∧
      nearest_point sqrt s pos fuel = some (.ok smp) ∧
      nearest_control_point sqrt s pos = .ok p ∧
      pos_len_between sqrt pos smp = some d ∧
      d ≤ _v_len_between sqrt pos p.xy := by
  have hilt := nearest_control_point_i_lt sqrt s pos (by omega)
  apply nearest_point_never_worsens sqrt s pos hn _ fuel hfuel
  intro smp hsmp
  have hk := at_knot_of_mode sqrt s _ hn hilt hmode
  rw [Int.cast_natCast, hsmp] at hk
  injection hk with hk
  rw [hk]
  simp

/-- In the header example the control point nearest to `(90, 90)` is point 2. -/
theorem header_nearest_control_point_i :
    nearest_control_point_i Real.sqrt (header_example ℝ) ⟨90, 90⟩ = 2 := by
  have hmem : (⟨90, 90, 80⟩ : Point ℝ) ∈ (header_example ℝ).points := by
    simp [header_example]
  have hself : _v_len_between Real.sqrt ⟨90, 90⟩ (⟨90, 90, 80⟩ : Point ℝ).xy = 0 :=
    v_len_between_self Real.sqrt real_isSqrt ⟨90, 90⟩
  obtain ⟨q, hq, hmin, _⟩ := nearest_control_point_i_spec Real.sqrt (header_example ℝ)
    ⟨90, 90⟩ ⟨_, hmem, by rw [hself]; norm_num⟩
  have hle := hmin _ hmem
  rw [hself] at hle
  have hzero : _v_len_between Real.sqrt ⟨90, 90⟩ q.xy = 0 :=
    le_antisymm hle (v_len_between_nonneg Real.sqrt real_isSqrt _ _)
  have hxy := v_len_between_eq_zero Real.sqrt real_isSqrt _ _ hzero
  have hx : q.x = 90 := hxy.1
  have hy : q.y = 90 := hxy.2
  generalize nearest_control_point_i Real.sqrt (header_example ℝ) ⟨90, 90⟩ = i at hq ⊢
  have hi : i < 4 := (List.getElem?_eq_some.mp hq).1
  interval_cases i
  · have : (⟨10, 10, 80⟩ : Point ℝ) = q := by simpa [header_example] using hq
    rw [← this] at hx
    norm_num at hx
  · have : (⟨90, 10, 80⟩ : Point ℝ) = q := by simpa [header_example] using hq
    rw [← this] at hy
    norm_num at hy
  · rfl
  · have : (⟨90, 10, 1⟩ : Point ℝ) = q := by simpa [header_example] using hq
    rw [← this] at hy
    norm_num at hy

/-- In the header example the search of `nearest_t` from `(90, 90)` never leaves its
seed `2/3`: every sample has `NaN` coordinates. -/
theorem header_nearest_t (fuel : ℕ) (hfuel : 88 ≤ fuel) :
    nearest_t Real.sqrt (header_example ℝ) ⟨90, 90⟩ fuel = some (.ok (2 / 3)) := by
  have hinv := nearest_t_loop_inv Real.sqrt (header_example ℝ) ⟨90, 90⟩
    (0.00001 / (((((header_example ℝ).points.length : ℤ) - 1 : ℤ)) : ℝ)) (by decide)
    (fun st => st.chosen_t = 2 / 3 ∧ 0 < st.step_size ∧ st.step_size ≤ 1 / 30)
    (fun st si sd h hsi hsd => by
      obtain ⟨ht, hpos, hle⟩ := h
      rw [ht] at hsi hsd
      rw [at_header_segment_two _ (by linarith) (by linarith)] at hsi
      rw [at_header_segment_one _ (by linarith) (by linarith)] at hsd
      injection hsi with hsi
      injection hsd with hsd
      obtain ⟨hstep, hcases⟩ := nearest_round_cases Real.sqrt ⟨90, 90⟩ st si sd
      rw [hstep]
      refine ⟨?_, by linarith, by linarith⟩
      rcases hcases with ⟨h1, _⟩ | ⟨_, h1, _⟩ | ⟨_, h1, _⟩
      · rw [h1, ht]
      · rw [← hsd] at h1
        exact absurd h1 (by simp [pos_len_between])
      · rw [← hsi] at h1
        exact absurd h1 (by simp [pos_len_between]))
    fuel
    ⟨(nearest_control_point_i Real.sqrt (header_example ℝ) ⟨90, 90⟩ : ℝ)
        / (((((header_example ℝ).points.length : ℤ) - 1 : ℤ)) : ℝ),
      _v_len_between Real.sqrt ⟨90, 90⟩
        ((header_example ℝ).points.get
          ⟨nearest_control_point_i Real.sqrt (header_example ℝ) ⟨90, 90⟩,
            nearest_control_point_i_lt Real.sqrt (header_example ℝ) ⟨90, 90⟩ (by decide)⟩).xy,
      0.1 / (((((header_example ℝ).points.length : ℤ) - 1 : ℤ)) : ℝ), 1⟩
    (by
      refine ⟨?_, ?_, ?_⟩
      · show (_ : ℝ) / _ = 2 / 3
        rw [header_nearest_control_point_i]
        norm_num [header_example]
      · show (0 : ℝ) < 0.1 / _
        norm_num [header_example]
      · show (0.1 : ℝ) / _ ≤ 1 / 30
        norm_num [header_example])
  have hterm := nearest_t_loop_terminates Real.sqrt (header_example ℝ) ⟨90, 90⟩
    (0.00001 / (((((header_example ℝ).points.length : ℤ) - 1 : ℤ)) : ℝ)) (by decide) fuel
    ⟨(nearest_control_point_i Real.sqrt (header_example ℝ) ⟨90, 90⟩ : ℝ)
        / (((((header_example ℝ).points.length : ℤ) - 1 : ℤ)) : ℝ),
      _v_len_between Real.sqrt ⟨90, 90⟩
        ((header_example ℝ).points.get
          ⟨nearest_control_point_i Real.sqrt (header_example ℝ) ⟨90, 90⟩,
            nearest_control_point_i_lt Real.sqrt (header_example ℝ) ⟨90, 90⟩ (by decide)⟩).xy,
      0.1 / (((((header_example ℝ).points.length : ℤ) - 1 : ℤ)) : ℝ), 1⟩
    (nearest_step_bound _ (by norm_num [header_example]) fuel hfuel)
  rw [← nearest_t_eq Real.sqrt (header_example ℝ) ⟨90, 90⟩ fuel (by decide)] at hinv hterm
  rcases hinv with hnone | ⟨fs, hfs, ht, _⟩
  · exact absurd hnone hterm
  · rw [hfs, ht]

/-- C18 fails on the header example of the source: for `pos = (90, 90)`, which is
control point 2, `nearest_control_point` returns that point, at distance 0, but
`nearest_t` returns the seed `2/3` and `nearest_point = at(2/3)` has `NaN`
coordinates, so its distance to `pos` is `NaN`, not a number at most 0; and
`minimum_distance`, 0 from the start, is not the distance from `pos` to
`at(chosen_t)`. -/
theorem nearest_point_header_nan :
    nearest_control_point Real.sqrt (header_example ℝ) ⟨90, 90⟩ = .ok ⟨90, 90, 80⟩ ∧
    _v_len_between Real.sqrt ⟨90, 90⟩ (⟨90, 90, 80⟩ : Point ℝ).xy = 0 ∧
    nearest_t Real.sqrt (header_example ℝ) ⟨90, 90⟩ 88 = some (.ok (2 / 3)) ∧
    nearest_point Real.sqrt (header_example ℝ) ⟨90, 90⟩ 88 = some (.ok ⟨none, 80⟩) ∧
    (∀ fuel : ℕ, 88 ≤ fuel →
      nearest_point Real.sqrt (header_example ℝ) ⟨90, 90⟩ fuel = some (.ok ⟨none, 80⟩)) ∧
    pos_len_between Real.sqrt ⟨90, 90⟩ (⟨none, 80⟩ : Sample ℝ) = none := by
  have hp : ∀ fuel : ℕ, 88 ≤ fuel →
      nearest_point Real.sqrt (header_example ℝ) ⟨90, 90⟩ fuel = some (.ok ⟨none, 80⟩) := by
    intro fuel hfuel
    unfold nearest_point
    simp only [header_nearest_t fuel hfuel]
    rw [at_header_segment_two (2 / 3) le_rfl (by norm_num)]
  refine ⟨?_, v_len_between_self Real.sqrt real_isSqrt ⟨90, 90⟩,
    header_nearest_t 88 le_rfl, hp 88 le_rfl, hp, rfl⟩
  unfold nearest_control_point
  rw [header_nearest_control_point_i]
  rfl

/-! ## The example curves are built by the constructor -/

/-- The length between two points of the same abscissa is the absolute difference
of their ordinates. -/
theorem v_len_between_vertical (sqrt : K → K) (hsqrt : IsSqrt sqrt) (x a b : K) :
    _v_len_between sqrt ⟨x, a⟩ ⟨x, b⟩ = |b - a| := by
  have hs : _v_len_between sqrt ⟨x, a⟩ ⟨x, b⟩ = sqrt ((b - a) * (b - a)) := by
    simp [_v_len_between, _v_len, _v_dif_between]
  rw [hs]
  exact sqrt_eq_of_mul_self sqrt hsqrt _ _ (abs_nonneg _) (abs_mul_abs_self _)

/-- The array that `recalculate` leaves when the point arrays are different
objects, from its entries. -/
theorem recalculate_points_eq (sqrt : K → K) (points expected : List (Point K))
    (hn : 1 ≤ points.length)
    (h : ∀ j : ℕ, expected[j]? = recalculated_at sqrt points j) :
    recalculate_points sqrt (fun j => j) points = .ok expected := by
  obtain ⟨r, hr, _, hget⟩ := recalculate_points_getElem? sqrt (fun j => j)
    (fun a b e => e) points hn
  have : r = expected := by
    apply List.ext_getElem?
    intro j
    rw [hget j, h j]
  rw [hr, this]

/-- The constructor on an array of at least two points that are different array
objects, from the entries that `recalculate` leaves. -/
theorem new_eq (sqrt : K → K) (points : List (Vec2 K)) (step tolerance : Option K)
    (iteration_limit : Option ℕ) (spline_type : Option SplineType)
    (expected : List (Point K)) (hn : 2 ≤ points.length)
    (h : ∀ j : ℕ, expected[j]? = recalculated_at sqrt (points.map fun v => ⟨v.x, v.y, 0⟩) j) :
    Spline.new sqrt (fun j => j) (some points) step tolerance iteration_limit spline_type
      = .ok
      { points := expected
        step := match step with
          | some step => step
          | none => 3
        tolerance_factor := match tolerance with
          | some tolerance => tolerance
          | none => 0.025
        iteration_limit := match iteration_limit with
          | some iteration_limit => iteration_limit
          | none => 20
        spline_type := match spline_type with
          | some spline_type => spline_type
          | none => spline_type_normalised_dif } :=
  new_eq_of_recalculate sqrt (fun j => j) points step tolerance iteration_limit spline_type
    expected hn
    (recalculate_points_eq sqrt _ expected (by rw [List.length_map]; omega) h)

theorem header_example_new :
    Spline.new Real.sqrt (fun j => j) (some [⟨10, 10⟩, ⟨90, 10⟩, ⟨90, 90⟩, ⟨90, 10⟩]) none none none none
      = .ok (header_example ℝ) := by
  rw [new_eq Real.sqrt _ none none none none (header_example ℝ).points (by simp)]
  · rfl
  · intro j
    rcases j with _ | _ | _ | _ | j
    · simp [recalculated_at, header_example, Point.xy,
        v_len_between_horizontal Real.sqrt real_isSqrt]
      norm_num
    · simp [recalculated_at, header_example, Point.xy,
        v_len_between_vertical Real.sqrt real_isSqrt]
      norm_num
    · simp [recalculated_at, header_example, Point.xy,
        v_len_between_vertical Real.sqrt real_isSqrt]
      norm_num
    · simp [recalculated_at, header_example]
    · simp [recalculated_at, header_example]

theorem linear_example_new :
    Spline.new Real.sqrt (fun j => j) (some [⟨0, 0⟩, ⟨8, 0⟩]) (some 3) (some 0.025) (some 20)
      (some spline_type_linear) = .ok (linear_example ℝ) := by
  rw [new_eq Real.sqrt _ _ _ _ _ (linear_example ℝ).points (by simp)]
  · rfl
  · intro j
    rcases j with _ | _ | j
    · simp [recalculated_at, linear_example, Point.xy,
        v_len_between_horizontal Real.sqrt real_isSqrt]
    · simp [recalculated_at, linear_example]
    · simp [recalculated_at, linear_example]

theorem stall_example_new :
    Spline.new Real.sqrt (fun j => j) (some [⟨0, 0⟩, ⟨8, 0⟩]) (some 3) (some 0.025) (some 1)
      (some spline_type_linear) = .ok (stall_example ℝ) := by
  rw [new_eq Real.sqrt _ _ _ _ _ (stall_example ℝ).points (by simp)]
  · rfl
  · intro j
    rcases j with _ | _ | j
    · simp [recalculated_at, stall_example, Point.xy,
        v_len_between_horizontal Real.sqrt real_isSqrt]
    · simp [recalculated_at, stall_example]
    · simp [recalculated_at, stall_example]

theorem far_example_new :
    Spline.new Real.sqrt (fun j => j) (some [⟨20000000, 0⟩, ⟨15000000, 0⟩]) none none none none
      = .ok (far_example ℝ) := by
  rw [new_eq Real.sqrt _ none none none none (far_example ℝ).points (by simp)]
  · rfl
  · intro j
    rcases j with _ | _ | j
    · simp [recalculated_at, far_example, Point.xy,
        v_len_between_horizontal Real.sqrt real_isSqrt]
      norm_num
    · simp [recalculated_at, far_example]
    · simp [recalculated_at, far_example]

theorem stepper_example_new :
    Spline.new Real.sqrt (fun j => j)
      (some [⟨0, 0⟩, ⟨1, 0⟩, ⟨2, 0⟩, ⟨3, 0⟩, ⟨4, 0⟩, ⟨5, 0⟩, ⟨6, 0⟩]) (some 5) (some 0.025)
      (some 3) (some spline_type_linear) = .ok (stepper_example ℝ) := by
  rw [new_eq Real.sqrt _ _ _ _ _ (stepper_example ℝ).points (by simp)]
  · rfl
  · intro j
    rcases j with _ | _ | _ | _ | _ | _ | _ | j
    all_goals
      simp [recalculated_at, stepper_example, Point.xy,
        v_len_between_horizontal Real.sqrt real_isSqrt]
    all_goals norm_num


end SplineJS
